import Mathlib

/-!
# Virtual buffers and virtual fragments of libgse

A shallow embedding of `src/common/gse_virtual_buffer.c`.

* The C heap is an explicit state (`Heap`): three tables of objects obtained from
  `malloc` (the `vbuf_t` records, the `vfrag_t` records, the byte regions).  A table
  entry is `none` once the object has been passed to `free`.  Handles are never
  reused, so a dangling handle is always recognised.
* An `unsigned char *` is a pair (block, offset) (`Ptr`); pointer arithmetic moves the
  offset only and, as on the machine, reduces it modulo `2 ^ SIZE_BITS`, so that adding
  `2 ^ SIZE_BITS - k` moves a pointer `k` bytes backwards.  Two pointers into one block
  are compared by their offsets, which is the comparison of the machine for pointers
  from the start of the block onwards; a pointer that has been moved before the start
  of its block has an offset close to `2 ^ SIZE_BITS` and compares as greater.
* The memory cells that hold the pointers `gse_shift_pointer` reads and writes are
  named explicitly, so that a call with `pointer == origin` can be written.
* A `size_t` is a natural number; every arithmetic operation the source performs in
  `size_t` is reduced modulo `2 ^ SIZE_BITS`.
* Every function returns `Except Fault _`: `.error` stands for an execution that has
  no defined result in C (null or dangling dereference, `memcpy` outside the block,
  invalid `free`) or that is stopped by a failing `assert`.
-/

set_option autoImplicit false

namespace Gse

/-- The parameters of the development: the width of `size_t` and the two reserved-space
constants `MAX_HEADER_LENGTH` and `CRC_LENGTH`, which `gse_virtual_buffer.c` uses and a
header that is not among the sources at hand defines. -/
structure Consts where
  SIZE_BITS : Nat
  MAX_HEADER_LENGTH : Nat
  CRC_LENGTH : Nat
deriving DecidableEq, Repr

/-- The number of values of `size_t`. -/
def Consts.SIZE_MOD (c : Consts) : Nat := 2 ^ c.SIZE_BITS

/-- The status codes `gse_virtual_buffer.c` returns; the enumeration itself is declared in
a header that is not among the sources at hand. -/
inductive status_t where
  | STATUS_OK
  | ERR_MALLOC_FAILED
  | ERR_DATA_TOO_LONG
  | ERR_MULTIPLE_VBUF_ACCESS
  | ERR_FRAG_NBR
  | EMPTY_FRAG
deriving DecidableEq, Repr

open status_t

/-- Executions without a defined result. -/
inductive Fault where
  | null_deref
  | dangling
  | out_of_bounds
  | bad_free
  | assert_failed
deriving DecidableEq, Repr

/-- One `unsigned char`. -/
abbrev Byte := UInt8

/-- An `unsigned char *` into a region obtained from `malloc`. -/
structure Ptr where
  blk : Nat
  off : Nat
deriving DecidableEq, Repr

/-- The record `vbuf_t`, with the fields the source reads and writes: `start`, `end`,
`length` (a `size_t`) and `vfrag_count`, which `gse_get_vfrag_nbr` returns as an `int`. -/
structure vbuf_t where
  start : Ptr
  end_ : Ptr
  length : Nat
  vfrag_count : Int
deriving DecidableEq, Repr

/-- The record `vfrag_t`, with the fields the source reads and writes: `vbuf` (null is
`none`), `start`, `end` and `length` (a `size_t`). -/
structure vfrag_t where
  vbuf : Option Nat
  start : Ptr
  end_ : Ptr
  length : Nat
deriving DecidableEq, Repr

/-- The heap.  `fail_at = some k` means that the `k`-th next call of `malloc` returns
`NULL` (and the calls before it succeed); `none` means that every call succeeds. -/
structure Heap where
  vbufs : List (Option vbuf_t)
  vfrags : List (Option vfrag_t)
  blocks : List (Option (List Byte))
  fail_at : Option Nat
deriving DecidableEq, Repr

/-- The heap in which nothing has been allocated. -/
def Heap.empty : Heap := ⟨[], [], [], none⟩

/-- The value of a `vbuf_t` straight out of `malloc`, before any field is written (the
content is unspecified in C). -/
def vbuf_uninit : vbuf_t := ⟨⟨0, 0⟩, ⟨0, 0⟩, 0, 0⟩

/-- The value of a `vfrag_t` straight out of `malloc`, before any field is written. -/
def vfrag_uninit : vfrag_t := ⟨none, ⟨0, 0⟩, ⟨0, 0⟩, 0⟩

/-- Whether the next `malloc` succeeds, and the heap that remembers the call. -/
def malloc_outcome (h : Heap) : Bool × Heap :=
  match h.fail_at with
  | none => (true, h)
  | some 0 => (false, { h with fail_at := none })
  | some (k + 1) => (true, { h with fail_at := some k })

/-- The next `n` calls of `malloc` all succeed. -/
def allocs_succeed (h : Heap) (n : Nat) : Bool :=
  match h.fail_at with
  | none => true
  | some k => decide (n ≤ k)

/-- The call `malloc(sizeof(vbuf_t))`. -/
def malloc_vbuf (h : Heap) : Option Nat × Heap :=
  match malloc_outcome h with
  | (false, h1) => (none, h1)
  | (true, h1) => (some h1.vbufs.length, { h1 with vbufs := h1.vbufs ++ [some vbuf_uninit] })

/-- The call `malloc(sizeof(vfrag_t))`. -/
def malloc_vfrag (h : Heap) : Option Nat × Heap :=
  match malloc_outcome h with
  | (false, h1) => (none, h1)
  | (true, h1) => (some h1.vfrags.length, { h1 with vfrags := h1.vfrags ++ [some vfrag_uninit] })

/-- The call `malloc(sizeof(unsigned char) * length)`.  The content of the new region is
unspecified in C; it is filled with zeros here. -/
def malloc_bytes (h : Heap) (length : Nat) : Option Nat × Heap :=
  match malloc_outcome h with
  | (false, h1) => (none, h1)
  | (true, h1) =>
    (some h1.blocks.length, { h1 with blocks := h1.blocks ++ [some (List.replicate length 0)] })

/-- Read through a `vbuf_t *`. -/
def load_vbuf (h : Heap) (p : Option Nat) : Except Fault vbuf_t :=
  match p with
  | none => .error Fault.null_deref
  | some i =>
    match h.vbufs[i]? with
    | some (some vb) => .ok vb
    | _ => .error Fault.dangling

/-- Read through a `vfrag_t *`. -/
def load_vfrag (h : Heap) (p : Option Nat) : Except Fault vfrag_t :=
  match p with
  | none => .error Fault.null_deref
  | some i =>
    match h.vfrags[i]? with
    | some (some f) => .ok f
    | _ => .error Fault.dangling

/-- Write through a `vbuf_t *`: the record becomes `g` of what it was. -/
def modify_vbuf (h : Heap) (p : Option Nat) (g : vbuf_t → vbuf_t) : Except Fault Heap :=
  match p with
  | none => .error Fault.null_deref
  | some i =>
    match h.vbufs[i]? with
    | some (some vb) => .ok { h with vbufs := h.vbufs.set i (some (g vb)) }
    | _ => .error Fault.dangling

/-- Write through a `vfrag_t *`: the record becomes `g` of what it was. -/
def modify_vfrag (h : Heap) (p : Option Nat) (g : vfrag_t → vfrag_t) : Except Fault Heap :=
  match p with
  | none => .error Fault.null_deref
  | some i =>
    match h.vfrags[i]? with
    | some (some f) => .ok { h with vfrags := h.vfrags.set i (some (g f)) }
    | _ => .error Fault.dangling

/-- The call `memcpy(dst, data, data_length)`; returns the heap after the copy. -/
def memcpy (h : Heap) (dst : Ptr) (data : List Byte) : Except Fault Heap :=
  match h.blocks[dst.blk]? with
  | some (some bs) =>
    if dst.off + data.length ≤ bs.length then
      let bs1 := bs.take dst.off ++ data ++ bs.drop (dst.off + data.length)
      .ok { h with blocks := h.blocks.set dst.blk (some bs1) }
    else .error Fault.out_of_bounds
  | _ => .error Fault.dangling

/-- The call `free(p)` on a byte region. -/
def free_bytes (h : Heap) (p : Ptr) : Except Fault Heap :=
  match h.blocks[p.blk]? with
  | some (some _) =>
    if p.off = 0 then .ok { h with blocks := h.blocks.set p.blk none }
    else .error Fault.bad_free
  | _ => .error Fault.bad_free

/-- The call `free(vbuf)` on a `vbuf_t *`. -/
def free_vbuf_rec (h : Heap) (p : Option Nat) : Except Fault Heap :=
  match p with
  | none => .ok h
  | some i =>
    match h.vbufs[i]? with
    | some (some _) => .ok { h with vbufs := h.vbufs.set i none }
    | _ => .error Fault.bad_free

/-- The call `free(vfrag)` on a `vfrag_t *`. -/
def free_vfrag_rec (h : Heap) (p : Option Nat) : Except Fault Heap :=
  match p with
  | none => .ok h
  | some i =>
    match h.vfrags[i]? with
    | some (some _) => .ok { h with vfrags := h.vfrags.set i none }
    | _ => .error Fault.bad_free

/-- Addition in `size_t`. -/
def size_add (c : Consts) (a b : Nat) : Nat := (a + b) % c.SIZE_MOD

/-- Subtraction in `size_t`. -/
def size_sub (c : Consts) (a b : Nat) : Nat :=
  (((a : Int) - (b : Int)) % (c.SIZE_MOD : Int)).toNat

/-- Pointer arithmetic `p + n`: the machine adds modulo `2 ^ SIZE_BITS`. -/
def ptr_add (c : Consts) (p : Ptr) (n : Nat) : Ptr := ⟨p.blk, (p.off + n) % c.SIZE_MOD⟩

/-- The addresses `&rec->start` and `&rec->end` of the two pointer fields of a `vbuf_t`
or `vfrag_t` record. -/
inductive field_t where
  | start
  | end_
deriving DecidableEq, Repr

/-- The content of the two pointer fields of a record, by address. -/
def fields (start end_ : Ptr) : field_t → Ptr
  | .start => start
  | .end_ => end_

/-- `gse_shift_pointer`: `*pointer = *origin + shift`.  `mem` is the content of the
memory cells that hold pointers, `pointer` and `origin` are the addresses of two of
them, which may be the same; the result is the status and the content of the cells
after the call. -/
def gse_shift_pointer {κ : Type} [DecidableEq κ] (c : Consts) (mem : κ → Ptr)
    (pointer origin : κ) (shift : Nat) : status_t × (κ → Ptr) :=
  (STATUS_OK, fun k => if k = pointer then ptr_add c (mem origin) shift else mem k)

/-- `gse_get_vfrag_nbr`: `vfrag->vbuf->vfrag_count`. -/
def gse_get_vfrag_nbr (h : Heap) (vfrag : Option Nat) : Except Fault Int :=
  match load_vfrag h vfrag with
  | .error e => .error e
  | .ok f =>
    match load_vbuf h f.vbuf with
    | .error e => .error e
    | .ok vb => .ok vb.vfrag_count

/-- `gse_create_vbuf`: the status, the value left in `*vbuf`, the heap. -/
def gse_create_vbuf (c : Consts) (h : Heap) (length : Nat) :
    Except Fault (status_t × Option Nat × Heap) :=
  match malloc_vbuf h with
  | (none, h1) => .ok (ERR_MALLOC_FAILED, none, h1)
  | (some v, h1) =>
    match malloc_bytes h1 length with
    | (none, h2) => .ok (ERR_MALLOC_FAILED, some v, h2)
    | (some b, h2) =>
      -- gse_shift_pointer(&(*vbuf)->end, &(*vbuf)->start, (*vbuf)->length)
      let r := gse_shift_pointer c (fields ⟨b, 0⟩ vbuf_uninit.end_) .end_ .start length
      if r.1 ≠ STATUS_OK then
        -- free((*vbuf)->start); free(vbuf): the second call is given the address of
        -- the caller's variable, which no malloc returned
        match free_bytes h2 (r.2 .start) with
        | .error e => .error e
        | .ok _ => .error Fault.bad_free
      else
        match modify_vbuf h2 (some v) (fun _ => ⟨r.2 .start, r.2 .end_, length, 0⟩) with
        | .error e => .error e
        | .ok h3 => .ok (STATUS_OK, some v, h3)

/-- `gse_free_vbuf`. -/
def gse_free_vbuf (h : Heap) (vbuf : Option Nat) : Except Fault (status_t × Heap) :=
  match load_vbuf h vbuf with
  | .error e => .error e
  | .ok vb =>
    if vb.vfrag_count ≠ 0 then .ok (ERR_FRAG_NBR, h)
    else
      match free_bytes h vb.start with
      | .error e => .error e
      | .ok h1 =>
        match free_vbuf_rec h1 vbuf with
        | .error e => .error e
        | .ok h2 => .ok (STATUS_OK, h2)

/-- `gse_create_vfrag`: the status, the value left in `*vfrag`, the heap. -/
def gse_create_vfrag (c : Consts) (h : Heap) (max_length : Nat) :
    Except Fault (status_t × Option Nat × Heap) :=
  let length_buf := size_add c (size_add c max_length c.MAX_HEADER_LENGTH) c.CRC_LENGTH
  match gse_create_vbuf c h length_buf with
  | .error e => .error e
  | .ok (status, vbuf, h1) =>
    if status ≠ STATUS_OK then .ok (status, none, h1)
    else
      match malloc_vfrag h1 with
      | (none, h2) => .ok (ERR_MALLOC_FAILED, none, h2)
      | (some f, h2) =>
        match load_vbuf h2 vbuf with
        | .error e => .error e
        | .ok vb =>
          let start := ptr_add c vb.start c.MAX_HEADER_LENGTH
          -- gse_shift_pointer(&(*vfrag)->end, &(*vfrag)->start, (*vfrag)->length)
          let r := gse_shift_pointer c (fields start vfrag_uninit.end_) .end_ .start 0
          match modify_vfrag h2 (some f) (fun _ => ⟨vbuf, r.2 .start, r.2 .end_, 0⟩) with
          | .error e => .error e
          | .ok h3 =>
            if r.1 ≠ STATUS_OK then .ok (r.1, some f, h3)
            else
              match modify_vbuf h3 vbuf
                  (fun vb => { vb with vfrag_count := vb.vfrag_count + 1 }) with
              | .error e => .error e
              | .ok h4 => .ok (STATUS_OK, some f, h4)

/-- `gse_copy_data`; `data_length` is the length of `data`. -/
def gse_copy_data (c : Consts) (h : Heap) (vfrag : Option Nat) (data : List Byte) :
    Except Fault (status_t × Heap) :=
  match gse_get_vfrag_nbr h vfrag with
  | .error e => .error e
  | .ok nbr =>
    if nbr > 1 then .ok (ERR_MULTIPLE_VBUF_ACCESS, h)
    else
      match load_vfrag h vfrag with
      | .error e => .error e
      | .ok f =>
        match load_vbuf h f.vbuf with
        | .error e => .error e
        | .ok vb =>
          if size_sub c vb.length (c.MAX_HEADER_LENGTH + c.CRC_LENGTH) < data.length then
            .ok (ERR_DATA_TOO_LONG, h)
          else
            let dst := ptr_add c vb.start c.MAX_HEADER_LENGTH
            match memcpy h dst data with
            | .error e => .error e
            | .ok h1 =>
              -- gse_shift_pointer(&vfrag->end, &vfrag->start, vfrag->length)
              let r := gse_shift_pointer c (fields dst f.end_) .end_ .start data.length
              match modify_vfrag h1 vfrag
                  (fun f => { f with start := r.2 .start, length := data.length,
                                     end_ := r.2 .end_ }) with
              | .error e => .error e
              | .ok h2 =>
                if r.1 ≠ STATUS_OK then .ok (r.1, h2)
                else if (r.2 .end_).off ≤ vb.end_.off then .ok (STATUS_OK, h2)
                else .error Fault.assert_failed

/-- `gse_free_vfrag`. -/
def gse_free_vfrag (h : Heap) (vfrag : Option Nat) : Except Fault (status_t × Heap) :=
  match gse_get_vfrag_nbr h vfrag with
  | .error e => .error e
  | .ok nbr =>
    if nbr ≤ 0 then .ok (ERR_FRAG_NBR, h)
    else
      match load_vfrag h vfrag with
      | .error e => .error e
      | .ok f =>
        match modify_vbuf h f.vbuf (fun vb => { vb with vfrag_count := vb.vfrag_count - 1 }) with
        | .error e => .error e
        | .ok h1 =>
          match gse_get_vfrag_nbr h1 vfrag with
          | .error e => .error e
          | .ok nbr1 =>
            match (if nbr1 = 0 then gse_free_vbuf h1 f.vbuf else .ok (STATUS_OK, h1)) with
            | .error e => .error e
            | .ok (status, h2) =>
              match free_vfrag_rec h2 vfrag with
              | .error e => .error e
              | .ok h3 => .ok (status, h3)

/-- `gse_duplicate_vfrag`: the status, the value left in `*vfrag`, the heap. -/
def gse_duplicate_vfrag (c : Consts) (h : Heap) (father : Option Nat) (length : Nat) :
    Except Fault (status_t × Option Nat × Heap) :=
  match load_vfrag h father with
  | .error e => .error e
  | .ok fa =>
    if fa.length = 0 then .ok (EMPTY_FRAG, none, h)
    else
      match gse_get_vfrag_nbr h father with
      | .error e => .error e
      | .ok nbr =>
        if nbr ≥ 2 then .ok (ERR_FRAG_NBR, none, h)
        else
          match malloc_vfrag h with
          | (none, h1) => .ok (ERR_MALLOC_FAILED, none, h1)
          | (some ch, h1) =>
            let len := min length fa.length
            -- gse_shift_pointer(&(*vfrag)->end, &(*vfrag)->start, (*vfrag)->length)
            let r := gse_shift_pointer c (fields fa.start vfrag_uninit.end_) .end_ .start len
            match modify_vfrag h1 (some ch)
                (fun _ => ⟨fa.vbuf, r.2 .start, r.2 .end_, len⟩) with
            | .error e => .error e
            | .ok h2 =>
              if r.1 ≠ STATUS_OK then .ok (r.1, none, h2)
              else
                match load_vbuf h2 fa.vbuf with
                | .error e => .error e
                | .ok vb =>
                  if (r.2 .end_).off ≤ vb.end_.off then
                    match modify_vbuf h2 fa.vbuf
                        (fun vb => { vb with vfrag_count := vb.vfrag_count + 1 }) with
                    | .error e => .error e
                    | .ok h3 => .ok (STATUS_OK, some ch, h3)
                  else .error Fault.assert_failed

/-- `gse_shift_vfrag`. -/
def gse_shift_vfrag (c : Consts) (h : Heap) (vfrag : Option Nat) (start_shift end_shift : Nat) :
    Except Fault (status_t × Heap) :=
  match modify_vfrag h vfrag (fun f =>
      let start := ptr_add c f.start start_shift
      let end_ := ptr_add c f.end_ end_shift
      ⟨f.vbuf, start, end_, size_sub c end_.off start.off⟩) with
  | .error e => .error e
  | .ok h1 => .ok (STATUS_OK, h1)

/-- `gse_create_vfrag_with_data`: the status, the value left in `*vfrag`, the heap. -/
def gse_create_vfrag_with_data (c : Consts) (h : Heap) (max_length : Nat) (data : List Byte) :
    Except Fault (status_t × Option Nat × Heap) :=
  match gse_create_vfrag c h max_length with
  | .error e => .error e
  | .ok (status, vfrag, h1) =>
    if status ≠ STATUS_OK then
      match gse_free_vfrag h1 vfrag with
      | .error e => .error e
      | .ok (_, h2) => .ok (status, vfrag, h2)
    else
      match gse_copy_data c h1 vfrag data with
      | .error e => .error e
      | .ok (status1, h2) =>
        if status1 ≠ STATUS_OK then
          match gse_free_vfrag h2 vfrag with
          | .error e => .error e
          | .ok (_, h3) => .ok (status1, vfrag, h3)
        else .ok (status1, vfrag, h2)

/-- The bytes visible through a view: the range `[start, end)` of its region. -/
def vfrag_bytes (h : Heap) (vfrag : Option Nat) : Option (List Byte) :=
  match load_vfrag h vfrag with
  | .error _ => none
  | .ok f =>
    match h.blocks[f.start.blk]? with
    | some (some bs) =>
      if f.start.off ≤ f.end_.off ∧ f.end_.off ≤ bs.length then
        some ((bs.drop f.start.off).take (f.end_.off - f.start.off))
      else none
    | _ => none

/-- The length `gse_create_vfrag` asks for: `max_length + MAX_HEADER_LENGTH + CRC_LENGTH`
in `size_t`. -/
def length_buf (c : Consts) (max_length : Nat) : Nat :=
  size_add c (size_add c max_length c.MAX_HEADER_LENGTH) c.CRC_LENGTH

/-- The heap `gse_create_vbuf` leaves when both of its allocations succeed. -/
def heap_after_create_vbuf (c : Consts) (h : Heap) (length : Nat) : Heap :=
  { vbufs := h.vbufs ++ [some ⟨⟨h.blocks.length, 0⟩,
      ptr_add c ⟨h.blocks.length, 0⟩ length, length, 0⟩],
    vfrags := h.vfrags,
    blocks := h.blocks ++ [some (List.replicate length 0)],
    fail_at := h.fail_at.map (fun k => k - 2) }

/-- The heap `gse_create_vfrag` leaves when its three allocations succeed. -/
def heap_after_create_vfrag (c : Consts) (h : Heap) (max_length : Nat) : Heap :=
  { vbufs := h.vbufs ++ [some ⟨⟨h.blocks.length, 0⟩,
      ⟨h.blocks.length, length_buf c max_length⟩, length_buf c max_length, 1⟩],
    vfrags := h.vfrags ++ [some ⟨some h.vbufs.length,
      ptr_add c ⟨h.blocks.length, 0⟩ c.MAX_HEADER_LENGTH,
      ptr_add c ⟨h.blocks.length, 0⟩ c.MAX_HEADER_LENGTH, 0⟩],
    blocks := h.blocks ++ [some (List.replicate (length_buf c max_length) 0)],
    fail_at := h.fail_at.map (fun k => k - 3) }

/-- The heap a successful `gse_copy_data` leaves. -/
def heap_after_copy (c : Consts) (h : Heap) (i : Nat) (f : vfrag_t) (vb : vbuf_t)
    (bs data : List Byte) : Heap :=
  { h with
    blocks := h.blocks.set vb.start.blk (some
      (bs.take (ptr_add c vb.start c.MAX_HEADER_LENGTH).off ++ data
        ++ bs.drop ((ptr_add c vb.start c.MAX_HEADER_LENGTH).off + data.length))),
    vfrags := h.vfrags.set i (some ⟨f.vbuf, ptr_add c vb.start c.MAX_HEADER_LENGTH,
      ptr_add c (ptr_add c vb.start c.MAX_HEADER_LENGTH) data.length, data.length⟩) }

/-- The heap `gse_create_vfrag_with_data` leaves when it succeeds. -/
def heap_after_create_with_data (c : Consts) (h : Heap) (max_length : Nat) (data : List Byte) :
    Heap :=
  { vbufs := h.vbufs ++ [some ⟨⟨h.blocks.length, 0⟩,
      ⟨h.blocks.length, length_buf c max_length⟩, length_buf c max_length, 1⟩],
    vfrags := h.vfrags ++ [some ⟨some h.vbufs.length, ⟨h.blocks.length, c.MAX_HEADER_LENGTH⟩,
      ⟨h.blocks.length, c.MAX_HEADER_LENGTH + data.length⟩, data.length⟩],
    blocks := h.blocks ++ [some (List.replicate c.MAX_HEADER_LENGTH 0 ++ data
      ++ List.replicate (length_buf c max_length - (c.MAX_HEADER_LENGTH + data.length)) 0)],
    fail_at := h.fail_at.map (fun k => k - 3) }

/-- A heap with one backing allocation of 20 bytes holding `ABC` and two views of it:
view 0 covers `ABC`, view 1 covers `AB`. -/
def heap_two_views : Heap :=
  { vbufs := [some ⟨⟨0, 0⟩, ⟨0, 20⟩, 20, 2⟩],
    vfrags := [some ⟨some 0, ⟨0, 13⟩, ⟨0, 16⟩, 3⟩, some ⟨some 0, ⟨0, 13⟩, ⟨0, 15⟩, 2⟩],
    blocks := [some (List.replicate 13 0 ++ [65, 66, 67] ++ List.replicate 4 0)],
    fail_at := none }

/-- A heap with one backing allocation of 20 bytes holding `ABC` and one view of it. -/
def heap_one_view : Heap :=
  { vbufs := [some ⟨⟨0, 0⟩, ⟨0, 20⟩, 20, 1⟩],
    vfrags := [some ⟨some 0, ⟨0, 13⟩, ⟨0, 16⟩, 3⟩],
    blocks := [some (List.replicate 13 0 ++ [65, 66, 67] ++ List.replicate 4 0)],
    fail_at := none }

/-- An empty view over an allocation with one view, as `gse_create_vfrag` leaves it. -/
def heap_empty_view : Heap :=
  { vbufs := [some ⟨⟨0, 0⟩, ⟨0, 20⟩, 20, 1⟩],
    vfrags := [some ⟨some 0, ⟨0, 13⟩, ⟨0, 13⟩, 0⟩],
    blocks := [some (List.replicate 20 0)],
    fail_at := none }

/-- The heap a successful `gse_duplicate_vfrag` leaves. -/
def heap_after_duplicate (c : Consts) (h : Heap) (fa : vfrag_t) (v : Nat) (vb : vbuf_t)
    (length : Nat) : Heap :=
  { vbufs := h.vbufs.set v (some { vb with vfrag_count := vb.vfrag_count + 1 }),
    vfrags := h.vfrags ++ [some ⟨fa.vbuf, fa.start, ptr_add c fa.start (min length fa.length),
      min length fa.length⟩],
    blocks := h.blocks,
    fail_at := h.fail_at.map (fun k => k - 1) }

/-- Releasing view `a` and then view `b` of the allocation `v`, whose record is `vb` and
whose second view is `fb`, in the heap `h`: both calls return `STATUS_OK`; after the
first the allocation is live with `vfrag_count = 1`, the bytes are untouched and `b` is
as it was, while `a` is gone; the second call takes the counter to 0 and after it the
`vbuf_t` record, its region and `b` are gone. -/
def released_in_order (h : Heap) (a b v : Nat) (vb : vbuf_t) (fb : vfrag_t) : Prop :=
  ∃ h1 hz h2,
    gse_free_vfrag h (some a) = .ok (STATUS_OK, h1) ∧
    gse_get_vfrag_nbr h1 (some b) = .ok 1 ∧
    load_vbuf h1 (some v) = .ok { vb with vfrag_count := 1 } ∧
    h1.blocks = h.blocks ∧
    load_vfrag h1 (some b) = .ok fb ∧
    h1.vfrags[a]? = some none ∧
    modify_vbuf h1 (some v) (fun vb => { vb with vfrag_count := vb.vfrag_count - 1 }) = .ok hz ∧
    gse_get_vfrag_nbr hz (some b) = .ok 0 ∧
    gse_free_vfrag h1 (some b) = .ok (STATUS_OK, h2) ∧
    h2.vbufs[v]? = some none ∧
    h2.blocks[vb.start.blk]? = some none ∧
    h2.vfrags[b]? = some none ∧ h2.vfrags[a]? = some none

/-- A view whose allocation has already lost all its views (`vfrag_count = 0`). -/
def heap_no_views : Heap :=
  { vbufs := [some ⟨⟨0, 0⟩, ⟨0, 20⟩, 20, 0⟩],
    vfrags := [some ⟨some 0, ⟨0, 13⟩, ⟨0, 16⟩, 3⟩],
    blocks := [some (List.replicate 20 0)],
    fail_at := none }

/-- Whether a table entry is a live view of the allocation `v`. -/
def refers (v : Nat) : Option vfrag_t → Bool
  | some f => f.vbuf == some v
  | none => false

/-- The number of live views that reference the allocation `v`. -/
def views_of (h : Heap) (v : Nat) : Nat := h.vfrags.countP (refers v)

/-- The counting invariant: the `vfrag_count` of every live allocation is the number of
live views that reference it, which is at most 2; every live view references a live
allocation; no allocation failure is pending. -/
structure count_inv (h : Heap) : Prop where
  count_eq : ∀ (v : Nat) (vb : vbuf_t), h.vbufs[v]? = some (some vb) →
    vb.vfrag_count = (views_of h v : Int)
  count_le : ∀ (v : Nat) (vb : vbuf_t), h.vbufs[v]? = some (some vb) → views_of h v ≤ 2
  owner_live : ∀ (i : Nat) (f : vfrag_t), h.vfrags[i]? = some (some f) →
    ∃ v vb, f.vbuf = some v ∧ h.vbufs[v]? = some (some vb)
  no_failure : h.fail_at = none

/-- One call of a public function of the module, with its arguments. -/
inductive Call where
  | create_vfrag (max_length : Nat)
  | create_vfrag_with_data (max_length : Nat) (data : List Byte)
  | copy_data (vfrag : Option Nat) (data : List Byte)
  | duplicate_vfrag (father : Option Nat) (length : Nat)
  | shift_vfrag (vfrag : Option Nat) (start_shift end_shift : Nat)
  | free_vfrag (vfrag : Option Nat)

/-- The heap a call leaves when it returns, whatever the status it returns. -/
def Call.run (c : Consts) (h : Heap) : Call → Except Fault Heap
  | .create_vfrag max_length =>
    match gse_create_vfrag c h max_length with
    | .error e => .error e
    | .ok (_, _, h1) => .ok h1
  | .create_vfrag_with_data max_length data =>
    match gse_create_vfrag_with_data c h max_length data with
    | .error e => .error e
    | .ok (_, _, h1) => .ok h1
  | .copy_data vfrag data =>
    match gse_copy_data c h vfrag data with
    | .error e => .error e
    | .ok (_, h1) => .ok h1
  | .duplicate_vfrag father length =>
    match gse_duplicate_vfrag c h father length with
    | .error e => .error e
    | .ok (_, _, h1) => .ok h1
  | .shift_vfrag vfrag start_shift end_shift =>
    match gse_shift_vfrag c h vfrag start_shift end_shift with
    | .error e => .error e
    | .ok (_, h1) => .ok h1
  | .free_vfrag vfrag =>
    match gse_free_vfrag h vfrag with
    | .error e => .error e
    | .ok (_, h1) => .ok h1

/-- The heaps reached from the empty heap, in which every allocation succeeds, by calls
of the public functions. -/
inductive Reachable (c : Consts) : Heap → Prop where
  | empty : Reachable c Heap.empty
  | step (h h1 : Heap) (call : Call) :
      Reachable c h → Call.run c h call = .ok h1 → Reachable c h1

/-- A view that `gse_shift_vfrag` has moved inside its 20-byte region. -/
def heap_shifted_view : Heap :=
  { vbufs := [some ⟨⟨0, 0⟩, ⟨0, 20⟩, 20, 1⟩],
    vfrags := [some ⟨some 0, ⟨0, 15⟩, ⟨0, 16⟩, 1⟩],
    blocks := [some (List.replicate 13 0 ++ [65, 66, 67] ++ List.replicate 4 0)],
    fail_at := none }

/-- The heap `gse_create_vfrag` leaves when its second allocation, the region, fails. -/
def heap_after_region_failure (h : Heap) : Heap :=
  { h with vbufs := h.vbufs ++ [some vbuf_uninit], fail_at := none }

/-- The heap `gse_create_vfrag` leaves when its third allocation, the view record,
fails; `length` is the length of the region, a `size_t`. -/
def heap_after_view_failure (h : Heap) (length : Nat) : Heap :=
  { h with
    vbufs := h.vbufs ++ [some ⟨⟨h.blocks.length, 0⟩, ⟨h.blocks.length, length⟩, length, 0⟩],
    blocks := h.blocks ++ [some (List.replicate length 0)],
    fail_at := none }

/-- The number of objects obtained from `malloc` and not yet freed. -/
def live_objects (h : Heap) : Nat :=
  h.vbufs.countP Option.isSome + h.vfrags.countP Option.isSome
    + h.blocks.countP Option.isSome

/-- The bounds invariant of a view `f` of the allocation `vb`:
`region.begin ≤ start ≤ end ≤ region.end`, all in the block of the region, and
`length = end - start`. -/
def view_in_bounds (vb : vbuf_t) (f : vfrag_t) : Prop :=
  f.start.blk = vb.start.blk ∧ f.end_.blk = vb.start.blk ∧
  vb.start.off ≤ f.start.off ∧ f.start.off ≤ f.end_.off ∧ f.end_.off ≤ vb.end_.off ∧
  f.length = f.end_.off - f.start.off

/-- A well-formed allocation: its end marker is `start + length`, the region lies in the
address space and has room for the two reserves. -/
def region_ok (c : Consts) (vb : vbuf_t) : Prop :=
  vb.end_ = ptr_add c vb.start vb.length ∧ vb.start.off + vb.length < c.SIZE_MOD ∧
  c.MAX_HEADER_LENGTH + c.CRC_LENGTH ≤ vb.length

/-- The bounds invariant of a heap: every live view is in the bounds of its allocation,
which is well formed. -/
structure bounds_inv (c : Consts) (h : Heap) : Prop where
  view_ok : ∀ (i : Nat) (f : vfrag_t) (v : Nat) (vb : vbuf_t),
    h.vfrags[i]? = some (some f) → f.vbuf = some v → h.vbufs[v]? = some (some vb) →
    view_in_bounds vb f ∧ region_ok c vb

/-- Whether a call keeps to the caller's side of the contract: a capacity whose sum with
the two reserves is a `size_t`, and shifts after which the view has
`region.begin ≤ start ≤ end ≤ region.end`, the new `start` and `end` being those the
machine computes (a shift of `2 ^ SIZE_BITS - k` moves a pointer `k` bytes
backwards). -/
def Call.in_contract (c : Consts) (h : Heap) : Call → Bool
  | .create_vfrag max_length =>
    decide (max_length + c.MAX_HEADER_LENGTH + c.CRC_LENGTH < c.SIZE_MOD)
  | .create_vfrag_with_data max_length _ =>
    decide (max_length + c.MAX_HEADER_LENGTH + c.CRC_LENGTH < c.SIZE_MOD)
  | .shift_vfrag vfrag start_shift end_shift =>
    match load_vfrag h vfrag with
    | .error _ => true
    | .ok f =>
      match load_vbuf h f.vbuf with
      | .error _ => true
      | .ok vb =>
        decide (vb.start.off ≤ (ptr_add c f.start start_shift).off ∧
          (ptr_add c f.start start_shift).off ≤ (ptr_add c f.end_ end_shift).off ∧
          (ptr_add c f.end_ end_shift).off ≤ vb.end_.off)
  | _ => true

/-- The heaps reached from the empty heap by calls of the public functions that keep to
the caller's side of the contract; `outcome` says which allocation of the call fails, if
any. -/
inductive ReachableInContract (c : Consts) : Heap → Prop where
  | empty : ReachableInContract c Heap.empty
  | step (h h1 : Heap) (call : Call) (outcome : Option Nat) :
      ReachableInContract c h → Call.in_contract c h call = true →
      Call.run c { h with fail_at := outcome } call = .ok h1 → ReachableInContract c h1

/-- The heap `h` with no allocation failure pending. -/
def no_fail (h : Heap) : Heap := { h with fail_at := none }

/-- The view of `ABC` after `gse_shift_vfrag` with shifts `2 ^ 64 - 3` and 2: its start
has moved 3 bytes backwards and its end 2 bytes forwards, it covers offsets 10 to 18. -/
def heap_view_shifted_in_bounds : Heap :=
  { vbufs := [some ⟨⟨0, 0⟩, ⟨0, 20⟩, 20, 1⟩],
    vfrags := [some ⟨some 0, ⟨0, 10⟩, ⟨0, 18⟩, 8⟩],
    blocks := [some (List.replicate 13 0 ++ [65, 66, 67] ++ List.replicate 4 0)],
    fail_at := none }

/-- The view of `ABC` after `gse_shift_vfrag` with shifts 0 and 10: its end is past the
end of its 20-byte region. -/
def heap_view_past_end : Heap :=
  { vbufs := [some ⟨⟨0, 0⟩, ⟨0, 20⟩, 20, 1⟩],
    vfrags := [some ⟨some 0, ⟨0, 13⟩, ⟨0, 26⟩, 13⟩],
    blocks := [some (List.replicate 13 0 ++ [65, 66, 67] ++ List.replicate 4 0)],
    fail_at := none }

/-- The heap after `gse_create_vfrag` with capacity `2 ^ 64 - 12`: the region has 5 bytes
and the view starts at offset 13. -/
def heap_view_wrapped : Heap :=
  { vbufs := [some ⟨⟨0, 0⟩, ⟨0, 5⟩, 5, 1⟩],
    vfrags := [some ⟨some 0, ⟨0, 13⟩, ⟨0, 13⟩, 0⟩],
    blocks := [some (List.replicate 5 0)],
    fail_at := none }

/-! # Theorems -/

/-! ## Arithmetic in `size_t` -/

theorem SIZE_MOD_pos (c : Consts) : 0 < c.SIZE_MOD := by
  unfold Consts.SIZE_MOD
  exact Nat.pos_of_ne_zero (by simp)

theorem length_buf_eq (c : Consts) (n : Nat)
    (hn : n + c.MAX_HEADER_LENGTH + c.CRC_LENGTH < c.SIZE_MOD) :
    length_buf c n = n + c.MAX_HEADER_LENGTH + c.CRC_LENGTH := by
  unfold length_buf size_add
  rw [Nat.mod_eq_of_lt (a := n + c.MAX_HEADER_LENGTH) (by omega), Nat.mod_eq_of_lt hn]

theorem length_buf_mod (c : Consts) (n : Nat) :
    length_buf c n = (n + (c.MAX_HEADER_LENGTH + c.CRC_LENGTH)) % c.SIZE_MOD := by
  unfold length_buf size_add
  rw [Nat.mod_add_mod, Nat.add_assoc]

/-- The capacity test of `gse_copy_data` on a region sized by `gse_create_vfrag` compares
with the requested capacity itself, whether or not the sum wrapped. -/
theorem size_sub_length_buf (c : Consts) (n : Nat) (hn : n < c.SIZE_MOD) :
    size_sub c (length_buf c n) (c.MAX_HEADER_LENGTH + c.CRC_LENGTH) = n := by
  have hpos := SIZE_MOD_pos c
  rw [length_buf_mod]
  unfold size_sub
  have h1 : ((((n + (c.MAX_HEADER_LENGTH + c.CRC_LENGTH)) % c.SIZE_MOD : Nat) : Int)
        - ((c.MAX_HEADER_LENGTH + c.CRC_LENGTH : Nat) : Int)) % (c.SIZE_MOD : Int)
      = (n : Int) % (c.SIZE_MOD : Int) := by
    rw [Int.sub_emod, Int.natCast_mod, Int.emod_emod_of_dvd _ (dvd_refl _), ← Int.sub_emod]
    congr 1
    push_cast
    ring
  rw [h1, Int.emod_eq_of_lt (by omega) (by exact_mod_cast hn)]
  simp

/-! ## Pointer arithmetic -/

theorem ptr_add_blk (c : Consts) (p : Ptr) (n : Nat) : (ptr_add c p n).blk = p.blk := rfl

theorem ptr_add_off (c : Consts) (p : Ptr) (n : Nat) :
    (ptr_add c p n).off = (p.off + n) % c.SIZE_MOD := rfl

theorem ptr_add_off_lt (c : Consts) (p : Ptr) (n : Nat) : (ptr_add c p n).off < c.SIZE_MOD :=
  Nat.mod_lt _ (SIZE_MOD_pos c)

/-- While the sum stays below `2 ^ SIZE_BITS` pointer addition is plain addition of the
offset. -/
theorem ptr_add_of_lt (c : Consts) (p : Ptr) (n : Nat) (hlt : p.off + n < c.SIZE_MOD) :
    ptr_add c p n = ⟨p.blk, p.off + n⟩ := by
  unfold ptr_add
  rw [Nat.mod_eq_of_lt hlt]

theorem ptr_add_off_of_lt (c : Consts) (p : Ptr) (n : Nat) (hlt : p.off + n < c.SIZE_MOD) :
    (ptr_add c p n).off = p.off + n := by
  rw [ptr_add_of_lt c p n hlt]

theorem ptr_add_zero (c : Consts) (p : Ptr) (n : Nat) :
    ptr_add c (ptr_add c p n) 0 = ptr_add c p n := by
  unfold ptr_add
  simp [Nat.mod_mod]

/-- The call `gse_shift_pointer(&rec->end, &rec->start, n)` on the two pointer fields of
one record: `end` becomes `start + n` and `start` is as it was. -/
theorem gse_shift_pointer_fields (c : Consts) (s e : Ptr) (n : Nat) :
    gse_shift_pointer c (fields s e) .end_ .start n = (STATUS_OK, fields s (ptr_add c s n)) := by
  unfold gse_shift_pointer
  congr 1
  funext k
  cases k <;> simp [fields]

theorem fields_start (s e : Ptr) : fields s e .start = s := rfl

theorem fields_end (s e : Ptr) : fields s e .end_ = e := rfl

/-! ## The allocator -/

theorem fail_at_cases (h : Heap) (n : Nat) (ha : allocs_succeed h n = true) :
    h.fail_at = none ∨ ∃ k, h.fail_at = some (k + n) := by
  unfold allocs_succeed at ha
  cases hf : h.fail_at with
  | none => exact Or.inl rfl
  | some k =>
    rw [hf] at ha
    simp at ha
    exact Or.inr ⟨k - n, by simp; omega⟩

/-! ## Creation -/

theorem gse_create_vbuf_eq (c : Consts) (h : Heap) (length : Nat) (ha : allocs_succeed h 2 = true) :
    gse_create_vbuf c h length
      = .ok (STATUS_OK, some h.vbufs.length, heap_after_create_vbuf c h length) := by
  rcases fail_at_cases h 2 ha with hf | ⟨k, hf⟩ <;>
    simp [gse_create_vbuf, malloc_vbuf, malloc_bytes, malloc_outcome, hf,
      gse_shift_pointer_fields, fields_start, fields_end, modify_vbuf, heap_after_create_vbuf]

theorem length_buf_lt (c : Consts) (n : Nat) : length_buf c n < c.SIZE_MOD := by
  rw [length_buf_mod]
  exact Nat.mod_lt _ (SIZE_MOD_pos c)

/-- The end marker of a region sized by `gse_create_vfrag`. -/
theorem ptr_add_length_buf (c : Consts) (b n : Nat) :
    ptr_add c ⟨b, 0⟩ (length_buf c n) = ⟨b, length_buf c n⟩ := by
  rw [ptr_add_of_lt c _ _ (by simpa using length_buf_lt c n)]
  simp

theorem gse_create_vfrag_eq (c : Consts) (h : Heap) (max_length : Nat)
    (ha : allocs_succeed h 3 = true) :
    gse_create_vfrag c h max_length
      = .ok (STATUS_OK, some h.vfrags.length, heap_after_create_vfrag c h max_length) := by
  rcases fail_at_cases h 3 ha with hf | ⟨k, hf⟩ <;>
    simp [gse_create_vfrag, gse_create_vbuf, malloc_vbuf, malloc_bytes, malloc_vfrag,
      malloc_outcome, hf, gse_shift_pointer_fields, fields_start, fields_end, modify_vbuf,
      modify_vfrag, load_vbuf, heap_after_create_vfrag, ptr_add_zero,
      ← length_buf.eq_1, ptr_add_length_buf]

/-- C1: when its allocations succeed, `gse_create_vfrag` returns `STATUS_OK` and a view of
length 0 with `start = end = region.begin + MAX_HEADER_LENGTH` (at the offset
`MAX_HEADER_LENGTH` of the region, that constant being a `size_t`), over a backing
allocation that did not exist before, whose `vfrag_count` is 1 and whose length is
`max_length + MAX_HEADER_LENGTH + CRC_LENGTH` computed in `size_t`, which is that sum
itself when it does not overflow. -/
theorem create_vfrag_spec (c : Consts) (h : Heap) (max_length : Nat)
    (ha : allocs_succeed h 3 = true) :
    ∃ i v h1 f vb bs,
      gse_create_vfrag c h max_length = .ok (STATUS_OK, some i, h1) ∧
      load_vfrag h1 (some i) = .ok f ∧ f.vbuf = some v ∧ load_vbuf h1 (some v) = .ok vb ∧
      h1.blocks[vb.start.blk]? = some (some bs) ∧
      f.length = 0 ∧ f.start = ptr_add c vb.start c.MAX_HEADER_LENGTH ∧ f.end_ = f.start ∧
      vb.vfrag_count = 1 ∧
      vb.length = length_buf c max_length ∧ bs.length = vb.length ∧
      vb.start.off = 0 ∧ vb.end_ = ptr_add c vb.start vb.length ∧
      (max_length + c.MAX_HEADER_LENGTH + c.CRC_LENGTH < c.SIZE_MOD →
        vb.length = max_length + c.MAX_HEADER_LENGTH + c.CRC_LENGTH) ∧
      h.vfrags[i]? = none ∧ h.vbufs[v]? = none ∧ h.blocks[vb.start.blk]? = none ∧
      (c.MAX_HEADER_LENGTH < c.SIZE_MOD → f.start.off = c.MAX_HEADER_LENGTH) ∧
      vb.end_.off = vb.length := by
  refine ⟨h.vfrags.length, h.vbufs.length, heap_after_create_vfrag c h max_length,
    ⟨some h.vbufs.length, ptr_add c ⟨h.blocks.length, 0⟩ c.MAX_HEADER_LENGTH,
      ptr_add c ⟨h.blocks.length, 0⟩ c.MAX_HEADER_LENGTH, 0⟩,
    ⟨⟨h.blocks.length, 0⟩, ⟨h.blocks.length, length_buf c max_length⟩,
      length_buf c max_length, 1⟩,
    List.replicate (length_buf c max_length) 0,
    gse_create_vfrag_eq c h max_length ha, ?_⟩
  simp [load_vfrag, load_vbuf, heap_after_create_vfrag, ptr_add_length_buf]
  exact ⟨length_buf_eq c max_length, fun hH => by simp [ptr_add, Nat.mod_eq_of_lt hH]⟩

/-- C1, at a concrete input: capacity 3 on the empty heap, 64-bit `size_t`, reserves 13
and 4. -/
theorem create_vfrag_spec_witness :
    allocs_succeed Heap.empty 3 = true ∧
    ∃ i v h1 f vb bs,
      gse_create_vfrag ⟨64, 13, 4⟩ Heap.empty 3 = .ok (STATUS_OK, some i, h1) ∧
      load_vfrag h1 (some i) = .ok f ∧ f.vbuf = some v ∧ load_vbuf h1 (some v) = .ok vb ∧
      h1.blocks[vb.start.blk]? = some (some bs) ∧
      f.length = 0 ∧ f.start = ptr_add ⟨64, 13, 4⟩ vb.start 13 ∧ f.end_ = f.start ∧
      vb.vfrag_count = 1 ∧
      vb.length = length_buf ⟨64, 13, 4⟩ 3 ∧ bs.length = vb.length ∧
      vb.start.off = 0 ∧ vb.end_ = ptr_add ⟨64, 13, 4⟩ vb.start vb.length ∧
      (3 + 13 + 4 < Consts.SIZE_MOD ⟨64, 13, 4⟩ → vb.length = 3 + 13 + 4) ∧
      Heap.empty.vfrags[i]? = none ∧ Heap.empty.vbufs[v]? = none ∧
      Heap.empty.blocks[vb.start.blk]? = none ∧
      (13 < Consts.SIZE_MOD ⟨64, 13, 4⟩ → f.start.off = 13) ∧
      vb.end_.off = vb.length :=
  ⟨rfl, create_vfrag_spec ⟨64, 13, 4⟩ Heap.empty 3 rfl⟩

theorem load_vfrag_ok_iff (h : Heap) (p : Option Nat) (f : vfrag_t) :
    load_vfrag h p = .ok f ↔ ∃ i, p = some i ∧ h.vfrags[i]? = some (some f) := by
  unfold load_vfrag
  cases p with
  | none => simp
  | some i =>
    simp only [Option.some.injEq, exists_eq_left']
    cases hi : h.vfrags[i]? with
    | none => simp
    | some o => cases o <;> simp

theorem load_vbuf_ok_iff (h : Heap) (p : Option Nat) (vb : vbuf_t) :
    load_vbuf h p = .ok vb ↔ ∃ i, p = some i ∧ h.vbufs[i]? = some (some vb) := by
  unfold load_vbuf
  cases p with
  | none => simp
  | some i =>
    simp only [Option.some.injEq, exists_eq_left']
    cases hi : h.vbufs[i]? with
    | none => simp
    | some o => cases o <;> simp

theorem gse_copy_data_eq (c : Consts) (h : Heap) (i : Nat) (f : vfrag_t) (vb : vbuf_t)
    (bs data : List Byte)
    (hf : load_vfrag h (some i) = .ok f) (hvb : load_vbuf h f.vbuf = .ok vb)
    (hbs : h.blocks[vb.start.blk]? = some (some bs))
    (hcount : vb.vfrag_count ≤ 1)
    (hlen : data.length ≤ size_sub c vb.length (c.MAX_HEADER_LENGTH + c.CRC_LENGTH))
    (hfit : (ptr_add c vb.start c.MAX_HEADER_LENGTH).off + data.length ≤ bs.length)
    (hend : (ptr_add c (ptr_add c vb.start c.MAX_HEADER_LENGTH) data.length).off
      ≤ vb.end_.off) :
    gse_copy_data c h (some i) data = .ok (STATUS_OK, heap_after_copy c h i f vb bs data) := by
  have hf1 : h.vfrags[i]? = some (some f) := by
    obtain ⟨j, hj, hfj⟩ := (load_vfrag_ok_iff h _ f).1 hf
    cases hj
    exact hfj
  simp [gse_copy_data, gse_get_vfrag_nbr, hf, hvb, memcpy, ptr_add_blk, hbs, hfit,
    gse_shift_pointer_fields, fields_start, fields_end, modify_vfrag, hf1, heap_after_copy,
    hend, Nat.not_lt.mpr hlen, not_lt.mpr hcount]

theorem gse_create_vfrag_with_data_eq (c : Consts) (h : Heap) (max_length : Nat)
    (data : List Byte) (ha : allocs_succeed h 3 = true)
    (hC : max_length + c.MAX_HEADER_LENGTH + c.CRC_LENGTH < c.SIZE_MOD)
    (hD : data.length ≤ max_length) :
    gse_create_vfrag_with_data c h max_length data
      = .ok (STATUS_OK, some h.vfrags.length, heap_after_create_with_data c h max_length data) := by
  have hL := length_buf_eq c max_length hC
  have hsub := size_sub_length_buf c max_length (by omega)
  have hS : ptr_add c ⟨h.blocks.length, 0⟩ c.MAX_HEADER_LENGTH
      = ⟨h.blocks.length, c.MAX_HEADER_LENGTH⟩ := by
    rw [ptr_add_of_lt c _ _ (by simp only []; omega)]
    simp
  have hE : ptr_add c ⟨h.blocks.length, c.MAX_HEADER_LENGTH⟩ data.length
      = ⟨h.blocks.length, c.MAX_HEADER_LENGTH + data.length⟩ :=
    ptr_add_of_lt c _ _ (by simp only []; omega)
  unfold gse_create_vfrag_with_data
  rw [gse_create_vfrag_eq c h max_length ha]
  simp only [ne_eq, not_true_eq_false, ↓reduceIte]
  rw [gse_copy_data_eq c (heap_after_create_vfrag c h max_length) h.vfrags.length
    ⟨some h.vbufs.length, ptr_add c ⟨h.blocks.length, 0⟩ c.MAX_HEADER_LENGTH,
      ptr_add c ⟨h.blocks.length, 0⟩ c.MAX_HEADER_LENGTH, 0⟩
    ⟨⟨h.blocks.length, 0⟩, ⟨h.blocks.length, length_buf c max_length⟩,
      length_buf c max_length, 1⟩
    (List.replicate (length_buf c max_length) 0) data]
  · simp [heap_after_copy, heap_after_create_vfrag, heap_after_create_with_data, hS, hE]
    omega
  · simp [load_vfrag, heap_after_create_vfrag]
  · simp [load_vbuf, heap_after_create_vfrag]
  · simp [heap_after_create_vfrag]
  · simp
  · simp only [hsub]; exact hD
  · simp [hS]; omega
  · simp [hS, hE]; omega

theorem vfrag_bytes_after_create_with_data (c : Consts) (h : Heap) (max_length : Nat)
    (data : List Byte) :
    vfrag_bytes (heap_after_create_with_data c h max_length data) (some h.vfrags.length)
      = some data := by
  simp [vfrag_bytes, load_vfrag, heap_after_create_with_data]

/-! ## Release -/

theorem gse_free_vfrag_shared (h : Heap) (i v : Nat) (f : vfrag_t) (vb : vbuf_t)
    (hf : h.vfrags[i]? = some (some f)) (hv : f.vbuf = some v)
    (hvb : h.vbufs[v]? = some (some vb)) (hcount : 2 ≤ vb.vfrag_count) :
    gse_free_vfrag h (some i) = .ok (STATUS_OK,
      { h with vbufs := h.vbufs.set v (some { vb with vfrag_count := vb.vfrag_count - 1 }),
               vfrags := h.vfrags.set i none }) := by
  have hlt : v < h.vbufs.length := by
    rcases Nat.lt_or_ge v h.vbufs.length with hlt | hge
    · exact hlt
    · rw [List.getElem?_eq_none hge] at hvb; cases hvb
  have h0 : ¬ vb.vfrag_count ≤ 0 := by omega
  have h1 : ¬ vb.vfrag_count - 1 = 0 := by omega
  simp [gse_free_vfrag, gse_get_vfrag_nbr, load_vfrag, load_vbuf, hf, hv, hvb, modify_vbuf,
    free_vfrag_rec, h0, h1, hlt]

theorem gse_free_vfrag_last (h : Heap) (i v : Nat) (f : vfrag_t) (vb : vbuf_t) (bs : List Byte)
    (hf : h.vfrags[i]? = some (some f)) (hv : f.vbuf = some v)
    (hvb : h.vbufs[v]? = some (some vb)) (hcount : vb.vfrag_count = 1)
    (hbs : h.blocks[vb.start.blk]? = some (some bs)) (hoff : vb.start.off = 0) :
    gse_free_vfrag h (some i) = .ok (STATUS_OK,
      { h with vbufs := h.vbufs.set v none,
               blocks := h.blocks.set vb.start.blk none,
               vfrags := h.vfrags.set i none }) := by
  have hlt : v < h.vbufs.length := by
    rcases Nat.lt_or_ge v h.vbufs.length with hlt | hge
    · exact hlt
    · rw [List.getElem?_eq_none hge] at hvb; cases hvb
  simp [gse_free_vfrag, gse_get_vfrag_nbr, load_vfrag, load_vbuf, hf, hv, hvb, modify_vbuf,
    free_vfrag_rec, hcount, hlt, gse_free_vbuf, free_bytes, hbs, hoff, free_vbuf_rec]

/-- C2: with a 64-bit `size_t`, `MAX_HEADER_LENGTH = 13` and `CRC_LENGTH = 4`, the capacity
`2 ^ 64 - 1` makes the region 16 bytes long, and `gse_create_vfrag_with_data` with 4 bytes
of data, which is within the capacity, copies them to offsets 13 to 17 of that region:
the copy leaves the region and the round trip does not hold. -/
theorem create_vfrag_with_data_wraps :
    [65, 66, 67, 68].length ≤ 2 ^ 64 - 1 ∧
    allocs_succeed Heap.empty 3 = true ∧
    length_buf ⟨64, 13, 4⟩ (2 ^ 64 - 1) = 16 ∧
    gse_create_vfrag_with_data ⟨64, 13, 4⟩ Heap.empty (2 ^ 64 - 1) [65, 66, 67, 68]
      = .error Fault.out_of_bounds :=
  ⟨by decide, rfl, by decide, rfl⟩

/-- C3: when the data is longer than the capacity, `gse_create_vfrag_with_data` returns
`ERR_DATA_TOO_LONG`, and the view record, the `vbuf_t` record and the region it created
have all been freed on return: each table of the heap has grown by one entry, which is
dead, and nothing else has changed. -/
theorem create_vfrag_with_data_too_long (c : Consts) (h : Heap) (max_length : Nat)
    (data : List Byte) (ha : allocs_succeed h 3 = true)
    (hC : max_length < c.SIZE_MOD) (hD : max_length < data.length) :
    ∃ h1, gse_create_vfrag_with_data c h max_length data
        = .ok (ERR_DATA_TOO_LONG, some h.vfrags.length, h1) ∧
      h1.vfrags = h.vfrags ++ [none] ∧ h1.vbufs = h.vbufs ++ [none] ∧
      h1.blocks = h.blocks ++ [none] := by
  have hsub := size_sub_length_buf c max_length hC
  have hcopy : gse_copy_data c (heap_after_create_vfrag c h max_length) (some h.vfrags.length) data
      = .ok (ERR_DATA_TOO_LONG, heap_after_create_vfrag c h max_length) := by
    simp [gse_copy_data, gse_get_vfrag_nbr, load_vfrag, load_vbuf, heap_after_create_vfrag,
      hsub, hD]
  have hfree := gse_free_vfrag_last (heap_after_create_vfrag c h max_length) h.vfrags.length
    h.vbufs.length ⟨some h.vbufs.length, ptr_add c ⟨h.blocks.length, 0⟩ c.MAX_HEADER_LENGTH,
      ptr_add c ⟨h.blocks.length, 0⟩ c.MAX_HEADER_LENGTH, 0⟩
    ⟨⟨h.blocks.length, 0⟩, ⟨h.blocks.length, length_buf c max_length⟩,
      length_buf c max_length, 1⟩
    (List.replicate (length_buf c max_length) 0)
    (by simp [heap_after_create_vfrag]) rfl (by simp [heap_after_create_vfrag]) rfl
    (by simp [heap_after_create_vfrag]) rfl
  unfold gse_create_vfrag_with_data
  rw [gse_create_vfrag_eq c h max_length ha]
  simp only [ne_eq, not_true_eq_false, ↓reduceIte, hcopy, hfree]
  simp [heap_after_create_vfrag]

/-- C3, at a concrete input: capacity 2 and three bytes of data on the empty heap. -/
theorem create_vfrag_with_data_too_long_witness :
    allocs_succeed Heap.empty 3 = true ∧ 2 < Consts.SIZE_MOD ⟨64, 13, 4⟩ ∧
    2 < [65, 66, 67].length ∧
    ∃ h1, gse_create_vfrag_with_data ⟨64, 13, 4⟩ Heap.empty 2 [65, 66, 67]
        = .ok (ERR_DATA_TOO_LONG, some Heap.empty.vfrags.length, h1) ∧
      h1.vfrags = Heap.empty.vfrags ++ [none] ∧ h1.vbufs = Heap.empty.vbufs ++ [none] ∧
      h1.blocks = Heap.empty.blocks ++ [none] :=
  ⟨rfl, by decide, by decide,
    create_vfrag_with_data_too_long ⟨64, 13, 4⟩ Heap.empty 2 [65, 66, 67] rfl (by decide)
      (by decide)⟩

/-- C4: on a view whose backing allocation has more than one view, `gse_copy_data` returns
`ERR_MULTIPLE_VBUF_ACCESS` for every data, whatever its length, and leaves the whole heap
as it was: the view, its sibling, the bytes of the region and `vfrag_count`. -/
theorem copy_data_multiple_views (c : Consts) (h : Heap) (vfrag : Option Nat) (f : vfrag_t)
    (vb : vbuf_t) (data : List Byte)
    (hf : load_vfrag h vfrag = .ok f) (hvb : load_vbuf h f.vbuf = .ok vb)
    (hcount : 1 < vb.vfrag_count) :
    gse_copy_data c h vfrag data = .ok (ERR_MULTIPLE_VBUF_ACCESS, h) := by
  simp [gse_copy_data, gse_get_vfrag_nbr, hf, hvb, hcount]

/-- C4, at a concrete input: 30 bytes, more than the region holds, on a view that has a
sibling. -/
theorem copy_data_multiple_views_witness :
    load_vfrag heap_two_views (some 0) = .ok ⟨some 0, ⟨0, 13⟩, ⟨0, 16⟩, 3⟩ ∧
    load_vbuf heap_two_views (some 0) = .ok ⟨⟨0, 0⟩, ⟨0, 20⟩, 20, 2⟩ ∧
    gse_copy_data ⟨64, 13, 4⟩ heap_two_views (some 0) (List.replicate 30 7)
      = .ok (ERR_MULTIPLE_VBUF_ACCESS, heap_two_views) :=
  ⟨rfl, rfl, copy_data_multiple_views ⟨64, 13, 4⟩ heap_two_views (some 0)
    ⟨some 0, ⟨0, 13⟩, ⟨0, 16⟩, 3⟩ ⟨⟨0, 0⟩, ⟨0, 20⟩, 20, 2⟩ (List.replicate 30 7) rfl rfl
    (by decide)⟩

/-- C5: `gse_duplicate_vfrag` on a father of length 0 returns `EMPTY_FRAG` whatever the
view count, and on a father of positive length whose allocation has 2 views or more it
returns `ERR_FRAG_NBR`; in both cases the child handle is null and the heap, hence the
father and `vfrag_count`, is as it was. -/
theorem duplicate_vfrag_rejects (c : Consts) (h : Heap) (father : Option Nat)
    (fa : vfrag_t) (length : Nat)
    (hfa : load_vfrag h father = .ok fa) :
    (fa.length = 0 → gse_duplicate_vfrag c h father length = .ok (EMPTY_FRAG, none, h)) ∧
    (0 < fa.length → ∀ vb, load_vbuf h fa.vbuf = .ok vb → 2 ≤ vb.vfrag_count →
      gse_duplicate_vfrag c h father length = .ok (ERR_FRAG_NBR, none, h)) := by
  constructor
  · intro h0
    simp [gse_duplicate_vfrag, hfa, h0]
  · intro hpos vb hvb hcount
    have hne : fa.length ≠ 0 := by omega
    simp [gse_duplicate_vfrag, hfa, hne, gse_get_vfrag_nbr, hvb, hcount]

/-- C5, at concrete inputs: an empty father, and a father that already has a sibling. -/
theorem duplicate_vfrag_rejects_witness :
    gse_duplicate_vfrag ⟨64, 13, 4⟩ heap_empty_view (some 0) 5
      = .ok (EMPTY_FRAG, none, heap_empty_view) ∧
    gse_duplicate_vfrag ⟨64, 13, 4⟩ heap_two_views (some 0) 5
      = .ok (ERR_FRAG_NBR, none, heap_two_views) :=
  ⟨(duplicate_vfrag_rejects ⟨64, 13, 4⟩ heap_empty_view (some 0)
      ⟨some 0, ⟨0, 13⟩, ⟨0, 13⟩, 0⟩ 5 rfl).1 rfl,
   (duplicate_vfrag_rejects ⟨64, 13, 4⟩ heap_two_views (some 0)
      ⟨some 0, ⟨0, 13⟩, ⟨0, 16⟩, 3⟩ 5 rfl).2
     (by decide) ⟨⟨0, 0⟩, ⟨0, 20⟩, 20, 2⟩ rfl (by decide)⟩

theorem getElem?_lt_length {α : Type} {l : List α} {i : Nat} {a : α} (hi : l[i]? = some a) :
    i < l.length := by
  rcases Nat.lt_or_ge i l.length with hlt | hge
  · exact hlt
  · rw [List.getElem?_eq_none hge] at hi; cases hi

theorem gse_duplicate_vfrag_eq (c : Consts) (h : Heap) (i v : Nat) (fa : vfrag_t)
    (vb : vbuf_t) (length : Nat)
    (hfa : h.vfrags[i]? = some (some fa)) (hv : fa.vbuf = some v)
    (hvb : h.vbufs[v]? = some (some vb))
    (hlen : fa.length ≠ 0) (hcount : vb.vfrag_count < 2) (ha : allocs_succeed h 1 = true)
    (hend : (ptr_add c fa.start (min length fa.length)).off ≤ vb.end_.off) :
    gse_duplicate_vfrag c h (some i) length
      = .ok (STATUS_OK, some h.vfrags.length, heap_after_duplicate c h fa v vb length) := by
  have hge : ¬ 2 ≤ vb.vfrag_count := by omega
  rcases fail_at_cases h 1 ha with hf | ⟨k, hf⟩ <;>
    simp [gse_duplicate_vfrag, load_vfrag, hfa, hlen, gse_get_vfrag_nbr, load_vbuf, hv, hvb,
      hge, malloc_vfrag, malloc_outcome, hf, gse_shift_pointer_fields, fields_start,
      fields_end, modify_vfrag, hend, modify_vbuf, heap_after_duplicate]

/-- With the guard of its `assert` false, `gse_duplicate_vfrag` is stopped by it. -/
theorem gse_duplicate_vfrag_assert (c : Consts) (h : Heap) (i v : Nat) (fa : vfrag_t)
    (vb : vbuf_t) (length : Nat)
    (hfa : h.vfrags[i]? = some (some fa)) (hv : fa.vbuf = some v)
    (hvb : h.vbufs[v]? = some (some vb))
    (hlen : fa.length ≠ 0) (hcount : vb.vfrag_count < 2) (ha : allocs_succeed h 1 = true)
    (hend : ¬ (ptr_add c fa.start (min length fa.length)).off ≤ vb.end_.off) :
    gse_duplicate_vfrag c h (some i) length = .error Fault.assert_failed := by
  have hge : ¬ 2 ≤ vb.vfrag_count := by omega
  rcases fail_at_cases h 1 ha with hf | ⟨k, hf⟩ <;>
    simp [gse_duplicate_vfrag, load_vfrag, hfa, hlen, gse_get_vfrag_nbr, load_vbuf, hv, hvb,
      hge, malloc_vfrag, malloc_outcome, hf, gse_shift_pointer_fields, fields_start,
      fields_end, modify_vfrag, hend, modify_vbuf]

theorem allocs_fail_one (h : Heap) (ha : ¬ allocs_succeed h 1 = true) :
    h.fail_at = some 0 := by
  unfold allocs_succeed at ha
  cases hfa0 : h.fail_at with
  | none => simp [hfa0] at ha
  | some k =>
    simp [hfa0] at ha
    simp; omega

/-- When `malloc` returns `NULL`, `gse_duplicate_vfrag` returns `ERR_MALLOC_FAILED` and a
null child, and the heap is as it was. -/
theorem gse_duplicate_vfrag_no_memory (c : Consts) (h : Heap) (i v : Nat) (fa : vfrag_t)
    (vb : vbuf_t) (length : Nat)
    (hfa : h.vfrags[i]? = some (some fa)) (hv : fa.vbuf = some v)
    (hvb : h.vbufs[v]? = some (some vb))
    (hlen : fa.length ≠ 0) (hcount : vb.vfrag_count < 2) (ha : ¬ allocs_succeed h 1 = true) :
    gse_duplicate_vfrag c h (some i) length = .ok (ERR_MALLOC_FAILED, none, no_fail h) := by
  have hge : ¬ 2 ≤ vb.vfrag_count := by omega
  have hf := allocs_fail_one h ha
  simp [gse_duplicate_vfrag, load_vfrag, hfa, hlen, gse_get_vfrag_nbr, load_vbuf, hv,
    hvb, hge, malloc_vfrag, malloc_outcome, hf, no_fail]

theorem gse_duplicate_vfrag_ok_inv (c : Consts) (h : Heap) (father : Option Nat)
    (length : Nat) (ch : Option Nat) (h1 : Heap)
    (hd : gse_duplicate_vfrag c h father length = .ok (STATUS_OK, ch, h1)) :
    ∃ i fa v vb, father = some i ∧ h.vfrags[i]? = some (some fa) ∧ fa.length ≠ 0 ∧
      fa.vbuf = some v ∧ h.vbufs[v]? = some (some vb) ∧ vb.vfrag_count < 2 ∧
      (ptr_add c fa.start (min length fa.length)).off ≤ vb.end_.off ∧
      ch = some h.vfrags.length ∧ h1 = heap_after_duplicate c h fa v vb length := by
  cases hl : load_vfrag h father with
  | error e => simp [gse_duplicate_vfrag, hl] at hd
  | ok fa =>
    obtain ⟨i, rfl, hfa⟩ := (load_vfrag_ok_iff h father fa).1 hl
    by_cases hlen : fa.length = 0
    · simp [gse_duplicate_vfrag, hl, hlen] at hd
    cases hlv : load_vbuf h fa.vbuf with
    | error e => simp [gse_duplicate_vfrag, hl, hlen, gse_get_vfrag_nbr, hlv] at hd
    | ok vb =>
      obtain ⟨v, hv, hvb⟩ := (load_vbuf_ok_iff h fa.vbuf vb).1 hlv
      by_cases hcount : 2 ≤ vb.vfrag_count
      · simp [gse_duplicate_vfrag, hl, hlen, gse_get_vfrag_nbr, hlv, hcount] at hd
      by_cases ha : allocs_succeed h 1 = true
      · by_cases hend : (ptr_add c fa.start (min length fa.length)).off ≤ vb.end_.off
        · rw [gse_duplicate_vfrag_eq c h i v fa vb length hfa hv hvb hlen (by omega) ha hend]
            at hd
          simp only [Except.ok.injEq, Prod.mk.injEq, true_and] at hd
          exact ⟨i, fa, v, vb, rfl, hfa, hlen, hv, hvb, by omega, hend, hd.1.symm, hd.2.symm⟩
        · rw [gse_duplicate_vfrag_assert c h i v fa vb length hfa hv hvb hlen (by omega) ha
            hend] at hd
          cases hd
      · rw [gse_duplicate_vfrag_no_memory c h i v fa vb length hfa hv hvb hlen (by omega) ha]
          at hd
        simp at hd

theorem vfrag_bytes_eq_some (h : Heap) (p : Option Nat) (bs : List Byte)
    (hb : vfrag_bytes h p = some bs) :
    ∃ f blk, load_vfrag h p = .ok f ∧ h.blocks[f.start.blk]? = some (some blk) ∧
      f.start.off ≤ f.end_.off ∧ f.end_.off ≤ blk.length ∧
      bs = (blk.drop f.start.off).take (f.end_.off - f.start.off) := by
  unfold vfrag_bytes at hb
  cases hl : load_vfrag h p with
  | error e => simp [hl] at hb
  | ok f =>
    simp only [hl] at hb
    cases hblk : h.blocks[f.start.blk]? with
    | none => simp [hblk] at hb
    | some o =>
      cases o with
      | none => simp [hblk] at hb
      | some blk =>
        simp only [hblk] at hb
        split at hb
        · next hc => exact ⟨f, blk, rfl, hblk, hc.1, hc.2, by simpa using hb.symm⟩
        · cases hb

theorem vfrag_bytes_after_duplicate (c : Consts) (h : Heap) (father ch : Option Nat)
    (length : Nat) (h1 : Heap) (fa : vfrag_t) (bs : List Byte)
    (hd : gse_duplicate_vfrag c h father length = .ok (STATUS_OK, ch, h1))
    (hfa : load_vfrag h father = .ok fa)
    (hlen : fa.length ≤ fa.end_.off - fa.start.off)
    (hrep : fa.end_.off < c.SIZE_MOD)
    (hbs : vfrag_bytes h father = some bs) :
    h1.blocks = h.blocks ∧ vfrag_bytes h1 father = some bs ∧
    vfrag_bytes h1 ch = some (bs.take (min length fa.length)) := by
  obtain ⟨i, fa', v, vb, rfl, hfi, hne, hv, hvb, hcount, hend, rfl, rfl⟩ :=
    gse_duplicate_vfrag_ok_inv c h father length ch h1 hd
  obtain ⟨f, blk, hlf, hblk, hle, hle2, rfl⟩ := vfrag_bytes_eq_some h _ bs hbs
  have e1 : fa = f := by rw [hfa] at hlf; cases hlf; rfl
  have e2 : fa = fa' := by
    obtain ⟨j, hj, hfj⟩ := (load_vfrag_ok_iff h _ fa).1 hfa
    cases hj
    rw [hfi] at hfj
    cases hfj
    rfl
  subst e1 e2
  have hilt := getElem?_lt_length hfi
  have hmin : min length fa.length ≤ fa.length := Nat.min_le_right _ _
  refine ⟨rfl, ?_, ?_⟩
  · simp [vfrag_bytes, load_vfrag, heap_after_duplicate, List.getElem?_append_left hilt, hfi,
      hblk, hle, hle2]
  · have hc : fa.start.off + min length fa.length ≤ blk.length := by omega
    have hp := ptr_add_of_lt c fa.start (min length fa.length) (by omega)
    simp [vfrag_bytes, load_vfrag, heap_after_duplicate, hblk, hp, hc, List.take_take]
    omega

theorem allocs_succeed_mono (h : Heap) (m n : Nat) (hmn : m ≤ n)
    (ha : allocs_succeed h n = true) : allocs_succeed h m = true := by
  unfold allocs_succeed at *
  cases hf : h.fail_at with
  | none => rfl
  | some k =>
    rw [hf] at ha
    simp at ha ⊢
    omega

theorem allocs_succeed_after (h h1 : Heap) (m n : Nat)
    (hf : h1.fail_at = h.fail_at.map (fun k => k - m))
    (ha : allocs_succeed h (m + n) = true) : allocs_succeed h1 n = true := by
  unfold allocs_succeed at *
  rw [hf]
  cases hf0 : h.fail_at with
  | none => rfl
  | some k =>
    rw [hf0] at ha
    simp at ha ⊢
    omega

theorem heap_after_duplicate_child (c : Consts) (h : Heap) (fa : vfrag_t) (v : Nat) (vb : vbuf_t)
    (length : Nat) (hv : fa.vbuf = some v) (hvb : h.vbufs[v]? = some (some vb)) :
    load_vfrag (heap_after_duplicate c h fa v vb length) (some h.vfrags.length)
      = .ok ⟨fa.vbuf, fa.start, ptr_add c fa.start (min length fa.length), min length fa.length⟩ ∧
    gse_get_vfrag_nbr (heap_after_duplicate c h fa v vb length) (some h.vfrags.length)
      = .ok (vb.vfrag_count + 1) := by
  have hvlt := getElem?_lt_length hvb
  simp [load_vfrag, gse_get_vfrag_nbr, load_vbuf, heap_after_duplicate, hv, hvlt]

theorem heap_after_duplicate_father (c : Consts) (h : Heap) (i : Nat) (fa : vfrag_t) (v : Nat)
    (vb : vbuf_t) (length : Nat) (hfa : h.vfrags[i]? = some (some fa)) (hv : fa.vbuf = some v)
    (hvb : h.vbufs[v]? = some (some vb)) :
    load_vfrag (heap_after_duplicate c h fa v vb length) (some i) = .ok fa ∧
    gse_get_vfrag_nbr (heap_after_duplicate c h fa v vb length) (some i)
      = .ok (vb.vfrag_count + 1) := by
  have hvlt := getElem?_lt_length hvb
  have hilt := getElem?_lt_length hfa
  simp [load_vfrag, gse_get_vfrag_nbr, load_vbuf, heap_after_duplicate, hv, hvlt,
    List.getElem?_append_left hilt, hfa]

/-- C7: a successful `gse_duplicate_vfrag` leaves the bytes of every region as they were,
and the bytes visible through the child are the first `min length father.length` bytes
visible through the father (a father whose range `[start, end)` lies in its region and
holds at least `length` bytes, its end being a machine address, below `2 ^ SIZE_BITS`);
in particular a view created with capacity 100 holding
`ABCDEFGHIJ`, duplicated with length 4, gives a child of length 4 whose content is
`ABCD`, with a view count of 2 on both. -/
theorem duplicate_vfrag_shares_bytes :
    (∀ (c : Consts) (h : Heap) (father ch : Option Nat) (length : Nat) (h1 : Heap)
        (fa : vfrag_t) (bs : List Byte),
      gse_duplicate_vfrag c h father length = .ok (STATUS_OK, ch, h1) →
      load_vfrag h father = .ok fa → fa.length ≤ fa.end_.off - fa.start.off →
      fa.end_.off < c.SIZE_MOD →
      vfrag_bytes h father = some bs →
      h1.blocks = h.blocks ∧ vfrag_bytes h1 father = some bs ∧
      vfrag_bytes h1 ch = some (bs.take (min length fa.length))) ∧
    (∀ (c : Consts) (h : Heap), allocs_succeed h 4 = true →
      100 + c.MAX_HEADER_LENGTH + c.CRC_LENGTH < c.SIZE_MOD →
      ∃ v h1 ch h2 child,
        gse_create_vfrag_with_data c h 100 [65, 66, 67, 68, 69, 70, 71, 72, 73, 74]
          = .ok (STATUS_OK, some v, h1) ∧
        vfrag_bytes h1 (some v) = some [65, 66, 67, 68, 69, 70, 71, 72, 73, 74] ∧
        gse_duplicate_vfrag c h1 (some v) 4 = .ok (STATUS_OK, some ch, h2) ∧
        load_vfrag h2 (some ch) = .ok child ∧ child.length = 4 ∧
        vfrag_bytes h2 (some ch) = some [65, 66, 67, 68] ∧
        gse_get_vfrag_nbr h2 (some v) = .ok 2 ∧ gse_get_vfrag_nbr h2 (some ch) = .ok 2) := by
  refine ⟨fun c h father ch length h1 fa bs hd hfa hlen hrep hbs =>
    vfrag_bytes_after_duplicate c h father ch length h1 fa bs hd hfa hlen hrep hbs, ?_⟩
  intro c h ha hC
  let data : List Byte := [65, 66, 67, 68, 69, 70, 71, 72, 73, 74]
  have hL := length_buf_eq c 100 hC
  have hcreate := gse_create_vfrag_with_data_eq c h 100 data
    (allocs_succeed_mono h 3 4 (by omega) ha) hC (by decide)
  have hbytes := vfrag_bytes_after_create_with_data c h 100 data
  let fa : vfrag_t := ⟨some h.vbufs.length, ⟨h.blocks.length, c.MAX_HEADER_LENGTH⟩,
      ⟨h.blocks.length, c.MAX_HEADER_LENGTH + data.length⟩, data.length⟩
  let vb : vbuf_t := ⟨⟨h.blocks.length, 0⟩, ⟨h.blocks.length, length_buf c 100⟩,
      length_buf c 100, 1⟩
  have hfa : (heap_after_create_with_data c h 100 data).vfrags[h.vfrags.length]?
      = some (some fa) := by
    simp [heap_after_create_with_data, fa]
  have hvb : (heap_after_create_with_data c h 100 data).vbufs[h.vbufs.length]?
      = some (some vb) := by
    simp [heap_after_create_with_data, vb]
  have hp : ptr_add c fa.start (min 4 fa.length)
      = ⟨h.blocks.length, c.MAX_HEADER_LENGTH + 4⟩ :=
    ptr_add_of_lt c _ _ (by simp [fa, data]; omega)
  have hdup := gse_duplicate_vfrag_eq c (heap_after_create_with_data c h 100 data)
    h.vfrags.length h.vbufs.length fa vb 4 hfa rfl hvb (by simp [fa, data]) (by simp [vb])
    (allocs_succeed_after h _ 3 1 rfl ha)
    (by rw [hp]; simp [vb]; omega)
  have hshare := vfrag_bytes_after_duplicate c _ _ _ 4 _ fa data hdup
    (by simp [load_vfrag, hfa]) (by simp [fa]) (by simp [fa, data]; omega) hbytes
  refine ⟨_, _, _, _,
    ⟨fa.vbuf, fa.start, ptr_add c fa.start (min 4 fa.length), min 4 fa.length⟩,
    hcreate, hbytes, hdup, ?_, ?_, ?_, ?_, ?_⟩
  · exact (heap_after_duplicate_child c _ fa h.vbufs.length vb 4 rfl hvb).1
  · simp [fa, data]
  · simpa [fa, data] using hshare.2.2
  · exact (heap_after_duplicate_father c _ h.vfrags.length fa h.vbufs.length vb 4 hfa rfl
      hvb).2
  · exact (heap_after_duplicate_child c _ fa h.vbufs.length vb 4 rfl hvb).2

/-- C7, at concrete inputs: the general statement on a view of `ABC` duplicated with
length 2, and the scenario on the empty heap with a 64-bit `size_t` and reserves 13
and 4. -/
theorem duplicate_vfrag_shares_bytes_witness :
    (∃ h1, gse_duplicate_vfrag ⟨64, 13, 4⟩ heap_one_view (some 0) 2
        = .ok (STATUS_OK, some 1, h1) ∧
      h1.blocks = heap_one_view.blocks ∧ vfrag_bytes h1 (some 0) = some [65, 66, 67] ∧
      vfrag_bytes h1 (some 1) = some ([65, 66, 67].take (min 2 3))) ∧
    (∃ v h1 ch h2 child,
        gse_create_vfrag_with_data ⟨64, 13, 4⟩ Heap.empty 100
            [65, 66, 67, 68, 69, 70, 71, 72, 73, 74]
          = .ok (STATUS_OK, some v, h1) ∧
        vfrag_bytes h1 (some v) = some [65, 66, 67, 68, 69, 70, 71, 72, 73, 74] ∧
        gse_duplicate_vfrag ⟨64, 13, 4⟩ h1 (some v) 4 = .ok (STATUS_OK, some ch, h2) ∧
        load_vfrag h2 (some ch) = .ok child ∧ child.length = 4 ∧
        vfrag_bytes h2 (some ch) = some [65, 66, 67, 68] ∧
        gse_get_vfrag_nbr h2 (some v) = .ok 2 ∧ gse_get_vfrag_nbr h2 (some ch) = .ok 2) :=
  ⟨⟨_, rfl, duplicate_vfrag_shares_bytes.1 ⟨64, 13, 4⟩ heap_one_view (some 0) (some 1) 2 _
      ⟨some 0, ⟨0, 13⟩, ⟨0, 16⟩, 3⟩ [65, 66, 67] rfl rfl (by decide) (by decide) rfl⟩,
   duplicate_vfrag_shares_bytes.2 ⟨64, 13, 4⟩ Heap.empty rfl (by decide)⟩

theorem released_in_order_of_pair (h : Heap) (a b v : Nat) (fa fb : vfrag_t) (vb : vbuf_t)
    (bs : List Byte) (hab : a ≠ b)
    (hfa : h.vfrags[a]? = some (some fa)) (hfb : h.vfrags[b]? = some (some fb))
    (hva : fa.vbuf = some v) (hvb : fb.vbuf = some v)
    (hv : h.vbufs[v]? = some (some vb)) (hcount : vb.vfrag_count = 2)
    (hbs : h.blocks[vb.start.blk]? = some (some bs)) (hoff : vb.start.off = 0) :
    released_in_order h a b v vb fb := by
  have halt := getElem?_lt_length hfa
  have hblt := getElem?_lt_length hfb
  have hvlt := getElem?_lt_length hv
  have hbklt := getElem?_lt_length hbs
  have h1eq := gse_free_vfrag_shared h a v fa vb hfa hva hv (by omega)
  have hfb1 : (h.vfrags.set a none)[b]? = some (some fb) := by
    rw [List.getElem?_set_ne hab]; exact hfb
  have hv1 : (h.vbufs.set v (some { vb with vfrag_count := vb.vfrag_count - 1 }))[v]?
      = some (some { vb with vfrag_count := 1 }) := by
    rw [List.getElem?_set_self hvlt, hcount]; rfl
  have h2eq := gse_free_vfrag_last
    { h with vbufs := h.vbufs.set v (some { vb with vfrag_count := vb.vfrag_count - 1 }),
             vfrags := h.vfrags.set a none }
    b v fb { vb with vfrag_count := 1 } bs hfb1 hvb hv1 rfl hbs hoff
  refine ⟨_,
    { h with vbufs := (h.vbufs.set v (some { vb with vfrag_count := vb.vfrag_count - 1 })).set v
               (some { vb with vfrag_count := 1 - 1 }),
             vfrags := h.vfrags.set a none },
    _, h1eq, ?_, ?_, rfl, ?_, ?_, ?_, ?_, h2eq, ?_, ?_, ?_, ?_⟩
  · simp [gse_get_vfrag_nbr, load_vfrag, load_vbuf, hfb1, hvb, hv1]
  · simp [load_vbuf, hv1]
  · simp [load_vfrag, hfb1]
  · simp [halt]
  · simp only [modify_vbuf, hv1]
  · simp [gse_get_vfrag_nbr, load_vfrag, load_vbuf, hfb1, hvb, hvlt]
  · simp [hvlt]
  · simp [hbklt]
  · simp [hblt]
  · simp [halt, List.getElem?_set_ne hab.symm]

/-- C8: two views of one backing allocation whose `vfrag_count` is 2 can be released with
`gse_free_vfrag` in either order: both calls return `STATUS_OK`, the counter goes from 2
to 1 to 0, the allocation (record and bytes) and the other view are intact after the
first release, and the allocation is destroyed at the second release. -/
theorem free_vfrag_pair (h : Heap) (a b v : Nat) (fa fb : vfrag_t) (vb : vbuf_t)
    (bs : List Byte) (hab : a ≠ b)
    (hfa : load_vfrag h (some a) = .ok fa) (hfb : load_vfrag h (some b) = .ok fb)
    (hva : fa.vbuf = some v) (hvb : fb.vbuf = some v)
    (hv : load_vbuf h (some v) = .ok vb) (hcount : vb.vfrag_count = 2)
    (hbs : h.blocks[vb.start.blk]? = some (some bs)) (hoff : vb.start.off = 0) :
    released_in_order h a b v vb fb ∧ released_in_order h b a v vb fa := by
  obtain ⟨_, ha', hfa'⟩ := (load_vfrag_ok_iff h _ fa).1 hfa
  obtain ⟨_, hb', hfb'⟩ := (load_vfrag_ok_iff h _ fb).1 hfb
  obtain ⟨_, hv', hv''⟩ := (load_vbuf_ok_iff h _ vb).1 hv
  cases ha'; cases hb'; cases hv'
  exact ⟨released_in_order_of_pair h a b v fa fb vb bs hab hfa' hfb' hva hvb hv'' hcount hbs hoff,
    released_in_order_of_pair h b a v fb fa vb bs hab.symm hfb' hfa' hvb hva hv'' hcount hbs
      hoff⟩

/-- C8, at a concrete input: the two views of `heap_two_views`. -/
theorem free_vfrag_pair_witness :
    (0 : Nat) ≠ 1 ∧
    load_vfrag heap_two_views (some 0) = .ok ⟨some 0, ⟨0, 13⟩, ⟨0, 16⟩, 3⟩ ∧
    load_vfrag heap_two_views (some 1) = .ok ⟨some 0, ⟨0, 13⟩, ⟨0, 15⟩, 2⟩ ∧
    load_vbuf heap_two_views (some 0) = .ok ⟨⟨0, 0⟩, ⟨0, 20⟩, 20, 2⟩ ∧
    released_in_order heap_two_views 0 1 0 ⟨⟨0, 0⟩, ⟨0, 20⟩, 20, 2⟩
      ⟨some 0, ⟨0, 13⟩, ⟨0, 15⟩, 2⟩ ∧
    released_in_order heap_two_views 1 0 0 ⟨⟨0, 0⟩, ⟨0, 20⟩, 20, 2⟩
      ⟨some 0, ⟨0, 13⟩, ⟨0, 16⟩, 3⟩ :=
  ⟨by decide, rfl, rfl, rfl,
    free_vfrag_pair heap_two_views 0 1 0 ⟨some 0, ⟨0, 13⟩, ⟨0, 16⟩, 3⟩
      ⟨some 0, ⟨0, 13⟩, ⟨0, 15⟩, 2⟩ ⟨⟨0, 0⟩, ⟨0, 20⟩, 20, 2⟩
      (List.replicate 13 0 ++ [65, 66, 67] ++ List.replicate 4 0)
      (by decide) rfl rfl rfl rfl rfl rfl rfl rfl⟩

/-- C9: on a valid view of a valid allocation `gse_free_vfrag` returns `STATUS_OK` exactly
when `vfrag_count` is at least 1 before the call; when the counter is 0 or less it
returns `ERR_FRAG_NBR` and the heap is as it was (no decrement, nothing freed); when the
counter is at least 1 the status is `STATUS_OK`, never the `ERR_FRAG_NBR` of
`gse_free_vbuf`, and the view record is freed. -/
theorem free_vfrag_status (h : Heap) (vfrag : Option Nat) (f : vfrag_t) (vb : vbuf_t)
    (bs : List Byte)
    (hf : load_vfrag h vfrag = .ok f) (hvb : load_vbuf h f.vbuf = .ok vb)
    (hbs : h.blocks[vb.start.blk]? = some (some bs)) (hoff : vb.start.off = 0) :
    ∃ st h1, gse_free_vfrag h vfrag = .ok (st, h1) ∧
      (st = STATUS_OK ↔ 1 ≤ vb.vfrag_count) ∧
      (vb.vfrag_count ≤ 0 → st = ERR_FRAG_NBR ∧ h1 = h) ∧
      (1 ≤ vb.vfrag_count → st = STATUS_OK ∧ load_vfrag h1 vfrag = .error Fault.dangling) := by
  obtain ⟨i, rfl, hfi⟩ := (load_vfrag_ok_iff h _ f).1 hf
  obtain ⟨v, hv, hvi⟩ := (load_vbuf_ok_iff h _ vb).1 hvb
  have hilt := getElem?_lt_length hfi
  rcases Int.lt_trichotomy vb.vfrag_count 1 with hlt | heq | hgt
  · have h0 : vb.vfrag_count ≤ 0 := by omega
    refine ⟨ERR_FRAG_NBR, h, ?_, ?_, ?_, ?_⟩
    · simp [gse_free_vfrag, gse_get_vfrag_nbr, hf, hvb, h0]
    · constructor
      · intro hc; cases hc
      · intro hc; omega
    · intro _; exact ⟨rfl, rfl⟩
    · intro hc; omega
  · refine ⟨STATUS_OK, _, gse_free_vfrag_last h i v f vb bs hfi hv hvi heq hbs hoff,
      ?_, ?_, ?_⟩
    · simp [heq]
    · intro hc; omega
    · intro _; simp [load_vfrag, hilt]
  · refine ⟨STATUS_OK, _, gse_free_vfrag_shared h i v f vb hfi hv hvi (by omega), ?_, ?_, ?_⟩
    · simp; omega
    · intro hc; omega
    · intro _; simp [load_vfrag, hilt]

/-- C9, at a concrete input: a release that is rejected because the counter is 0. -/
theorem free_vfrag_status_witness :
    load_vfrag heap_no_views (some 0) = .ok ⟨some 0, ⟨0, 13⟩, ⟨0, 16⟩, 3⟩ ∧
    load_vbuf heap_no_views (some 0) = .ok ⟨⟨0, 0⟩, ⟨0, 20⟩, 20, 0⟩ ∧
    ∃ st h1, gse_free_vfrag heap_no_views (some 0) = .ok (st, h1) ∧
      (st = STATUS_OK ↔ (1 : Int) ≤ 0) ∧
      ((0 : Int) ≤ 0 → st = ERR_FRAG_NBR ∧ h1 = heap_no_views) ∧
      ((1 : Int) ≤ 0 →
        st = STATUS_OK ∧ load_vfrag h1 (some 0) = .error Fault.dangling) :=
  ⟨rfl, rfl, free_vfrag_status heap_no_views (some 0) ⟨some 0, ⟨0, 13⟩, ⟨0, 16⟩, 3⟩
    ⟨⟨0, 0⟩, ⟨0, 20⟩, 20, 0⟩ (List.replicate 20 0) rfl rfl rfl rfl⟩

theorem countP_set_getElem? {α : Type} (p : α → Bool) (l : List α) (i : Nat) (a y : α)
    (h : l[i]? = some y) :
    (l.set i a).countP p + (if p y then 1 else 0) = l.countP p + (if p a then 1 else 0) := by
  have hlt := getElem?_lt_length h
  have hy : l[i] = y := by
    rw [List.getElem?_eq_getElem hlt] at h
    exact Option.some.inj h
  have hle := List.boole_getElem_le_countP p l i hlt
  rw [List.countP_set p l i a hlt, hy]
  rw [hy] at hle
  omega

theorem refers_some (v : Nat) (f : vfrag_t) : refers v (some f) = (f.vbuf == some v) := rfl

theorem refers_none (v : Nat) : refers v none = false := rfl

theorem views_of_eq_zero (h : Heap) (v : Nat)
    (hown : ∀ (i : Nat) (f : vfrag_t), h.vfrags[i]? = some (some f) →
      ∃ v vb, f.vbuf = some v ∧ h.vbufs[v]? = some (some vb))
    (hv : ∀ vb, h.vbufs[v]? ≠ some (some vb)) : views_of h v = 0 := by
  unfold views_of
  rw [List.countP_eq_zero]
  intro a ha
  obtain ⟨n, hn⟩ := List.getElem?_of_mem ha
  cases a with
  | none => simp [refers_none]
  | some f =>
    obtain ⟨v', vb, hf, hvb⟩ := hown n f hn
    simp only [refers_some, hf, beq_iff_eq, Option.some.injEq]
    intro hvv
    subst hvv
    exact hv vb hvb

/-- Rewriting the fields of a live view other than `vbuf`, and any change of the bytes,
keeps the counting invariant. -/
theorem count_inv_set_vfrag (h : Heap) (i : Nat) (f f1 : vfrag_t) (bl : List (Option (List Byte)))
    (hinv : count_inv h) (hf : h.vfrags[i]? = some (some f)) (hv : f1.vbuf = f.vbuf) :
    count_inv { h with vfrags := h.vfrags.set i (some f1), blocks := bl } := by
  have hviews : ∀ v, views_of { h with vfrags := h.vfrags.set i (some f1), blocks := bl } v
      = views_of h v := by
    intro v
    have := countP_set_getElem? (refers v) h.vfrags i (some f1) (some f) hf
    simp only [refers_some, hv] at this
    unfold views_of
    simp only
    omega
  refine ⟨?_, ?_, ?_, hinv.no_failure⟩
  · intro v vb hvb
    rw [hviews]
    exact hinv.count_eq v vb hvb
  · intro v vb hvb
    rw [hviews]
    exact hinv.count_le v vb hvb
  · intro j g hg
    simp only [List.getElem?_set] at hg
    split at hg
    · split at hg
      · cases hg
        rw [hv]
        exact hinv.owner_live i f hf
      · cases hg
    · exact hinv.owner_live j g hg

theorem count_inv_create_vfrag (c : Consts) (h : Heap) (n : Nat) (hinv : count_inv h) :
    count_inv (heap_after_create_vfrag c h n) := by
  have hnew : views_of h h.vbufs.length = 0 :=
    views_of_eq_zero h _ hinv.owner_live (fun vb hvb => by
      have := getElem?_lt_length hvb
      omega)
  have hviews : ∀ v, views_of (heap_after_create_vfrag c h n) v
      = views_of h v + (if v = h.vbufs.length then 1 else 0) := by
    intro v
    unfold views_of heap_after_create_vfrag
    simp only [List.countP_append, List.countP_singleton, refers_some, beq_iff_eq,
      Option.some.injEq]
    by_cases hv : v = h.vbufs.length
    · simp [hv]
    · have hv' : ¬ h.vbufs.length = v := fun e => hv e.symm
      simp [hv, hv']
  have hvb_cases : ∀ (v : Nat) (vb : vbuf_t),
      (heap_after_create_vfrag c h n).vbufs[v]? = some (some vb) →
      (v < h.vbufs.length ∧ h.vbufs[v]? = some (some vb)) ∨
      (v = h.vbufs.length ∧ vb.vfrag_count = 1) := by
    intro v vb hvb
    unfold heap_after_create_vfrag at hvb
    simp only [List.getElem?_append] at hvb
    split at hvb
    · next hlt => exact Or.inl ⟨hlt, hvb⟩
    · next hge =>
      right
      have hlt := getElem?_lt_length hvb
      simp only [List.length_singleton] at hlt
      have hv : v = h.vbufs.length := by omega
      subst hv
      simp at hvb
      exact ⟨rfl, by rw [← hvb]⟩
  refine ⟨?_, ?_, ?_, ?_⟩
  · intro v vb hvb
    rw [hviews]
    rcases hvb_cases v vb hvb with ⟨hlt, hold⟩ | ⟨hv, hc⟩
    · have hne : v ≠ h.vbufs.length := by omega
      simp only [hne, ↓reduceIte, Nat.add_zero]
      exact hinv.count_eq v vb hold
    · subst hv
      simp [hnew, hc]
  · intro v vb hvb
    rw [hviews]
    rcases hvb_cases v vb hvb with ⟨hlt, hold⟩ | ⟨hv, hc⟩
    · have hne : v ≠ h.vbufs.length := by omega
      simp only [hne, ↓reduceIte, Nat.add_zero]
      exact hinv.count_le v vb hold
    · subst hv
      simp [hnew]
  · intro i f hf
    unfold heap_after_create_vfrag at hf ⊢
    simp only [List.getElem?_append] at hf
    split at hf
    · obtain ⟨v, vb, hv, hvb⟩ := hinv.owner_live i f hf
      refine ⟨v, vb, hv, ?_⟩
      simp only
      rw [List.getElem?_append_left (getElem?_lt_length hvb)]
      exact hvb
    · have hlt := getElem?_lt_length hf
      simp only [List.length_singleton] at hlt
      have hi : i - h.vfrags.length = 0 := by omega
      rw [hi] at hf
      simp at hf
      refine ⟨h.vbufs.length, ⟨⟨h.blocks.length, 0⟩, ⟨h.blocks.length, length_buf c n⟩,
        length_buf c n, 1⟩, by rw [← hf], ?_⟩
      simp
  · simp [heap_after_create_vfrag, hinv.no_failure]

theorem count_inv_duplicate (c : Consts) (h : Heap) (v : Nat) (fa : vfrag_t) (vb : vbuf_t)
    (length : Nat)
    (hinv : count_inv h) (hv : fa.vbuf = some v)
    (hvb : h.vbufs[v]? = some (some vb)) (hcount : vb.vfrag_count < 2) :
    count_inv (heap_after_duplicate c h fa v vb length) := by
  have hvlt := getElem?_lt_length hvb
  have hviews : ∀ w, views_of (heap_after_duplicate c h fa v vb length) w
      = views_of h w + (if w = v then 1 else 0) := by
    intro w
    unfold views_of heap_after_duplicate
    simp only [List.countP_append, List.countP_singleton, refers_some, hv, beq_iff_eq,
      Option.some.injEq]
    by_cases hw : w = v
    · simp [hw]
    · have hw' : ¬ v = w := fun e => hw e.symm
      simp [hw, hw']
  have hvb_cases : ∀ (w : Nat) (wb : vbuf_t),
      (heap_after_duplicate c h fa v vb length).vbufs[w]? = some (some wb) →
      (w ≠ v ∧ h.vbufs[w]? = some (some wb)) ∨
      (w = v ∧ wb.vfrag_count = vb.vfrag_count + 1) := by
    intro w wb hwb
    unfold heap_after_duplicate at hwb
    simp only [List.getElem?_set] at hwb
    split at hwb
    · next heq =>
      simp only [hvlt, ↓reduceIte, Option.some.injEq] at hwb
      exact Or.inr ⟨heq.symm, by rw [← hwb]⟩
    · next hne => exact Or.inl ⟨fun e => hne e.symm, hwb⟩
  have hold := hinv.count_eq v vb hvb
  refine ⟨?_, ?_, ?_, ?_⟩
  · intro w wb hwb
    rw [hviews]
    rcases hvb_cases w wb hwb with ⟨hne, hw⟩ | ⟨heq, hc⟩
    · simp only [hne, ↓reduceIte, Nat.add_zero]
      exact hinv.count_eq w wb hw
    · subst heq
      simp only [↓reduceIte, hc]
      push_cast
      omega
  · intro w wb hwb
    rw [hviews]
    rcases hvb_cases w wb hwb with ⟨hne, hw⟩ | ⟨heq, hc⟩
    · simp only [hne, ↓reduceIte, Nat.add_zero]
      exact hinv.count_le w wb hw
    · subst heq
      simp only [↓reduceIte]
      omega
  · intro j g hg
    have hlive : ∀ (w : Nat) (wb : vbuf_t), h.vbufs[w]? = some (some wb) →
        ∃ wb1, (heap_after_duplicate c h fa v vb length).vbufs[w]? = some (some wb1) := by
      intro w wb hwb
      unfold heap_after_duplicate
      simp only [List.getElem?_set]
      by_cases hw : v = w
      · simp [hw, getElem?_lt_length hwb]
      · simp [hw, hwb]
    unfold heap_after_duplicate at hg
    simp only [List.getElem?_append] at hg
    split at hg
    · obtain ⟨w, wb, hw, hwb⟩ := hinv.owner_live j g hg
      obtain ⟨wb1, hwb1⟩ := hlive w wb hwb
      exact ⟨w, wb1, hw, hwb1⟩
    · have hlt := getElem?_lt_length hg
      simp only [List.length_singleton] at hlt
      have hj : j - h.vfrags.length = 0 := by omega
      rw [hj] at hg
      simp at hg
      obtain ⟨wb1, hwb1⟩ := hlive v vb hvb
      exact ⟨v, wb1, by rw [← hg]; exact hv, hwb1⟩
  · simp [heap_after_duplicate, hinv.no_failure]

theorem views_of_free (h : Heap) (i v : Nat) (f : vfrag_t) (vbs : List (Option vbuf_t))
    (bl : List (Option (List Byte)))
    (hf : h.vfrags[i]? = some (some f)) (hv : f.vbuf = some v) (w : Nat) :
    views_of { h with vbufs := vbs, blocks := bl, vfrags := h.vfrags.set i none } w
      + (if w = v then 1 else 0) = views_of h w := by
  have := countP_set_getElem? (refers w) h.vfrags i none (some f) hf
  simp only [refers_some, refers_none, hv, beq_iff_eq, Option.some.injEq] at this
  unfold views_of
  simp only
  by_cases hw : w = v
  · have hw' : v = w := hw.symm
    simp only [hw', ↓reduceIte] at this ⊢
    simp at this
    omega
  · have hw' : ¬ v = w := fun e => hw e.symm
    simp only [hw', hw, ↓reduceIte] at this ⊢
    simp at this
    omega

theorem count_inv_free_shared (h : Heap) (i v : Nat) (f : vfrag_t) (vb : vbuf_t)
    (hinv : count_inv h) (hf : h.vfrags[i]? = some (some f)) (hv : f.vbuf = some v)
    (hvb : h.vbufs[v]? = some (some vb)) :
    count_inv { h with
      vbufs := h.vbufs.set v (some { vb with vfrag_count := vb.vfrag_count - 1 }),
      vfrags := h.vfrags.set i none } := by
  have hvlt := getElem?_lt_length hvb
  have hviews := fun w => views_of_free h i v f
    (h.vbufs.set v (some { vb with vfrag_count := vb.vfrag_count - 1 })) h.blocks hf hv w
  have hold := hinv.count_eq v vb hvb
  have hvb_cases : ∀ (w : Nat) (wb : vbuf_t),
      (h.vbufs.set v (some { vb with vfrag_count := vb.vfrag_count - 1 }))[w]? = some (some wb) →
      (w ≠ v ∧ h.vbufs[w]? = some (some wb)) ∨
      (w = v ∧ wb.vfrag_count = vb.vfrag_count - 1) := by
    intro w wb hwb
    simp only [List.getElem?_set] at hwb
    split at hwb
    · next heq =>
      simp only [hvlt, ↓reduceIte, Option.some.injEq] at hwb
      exact Or.inr ⟨heq.symm, by rw [← hwb]⟩
    · next hne => exact Or.inl ⟨fun e => hne e.symm, hwb⟩
  refine ⟨?_, ?_, ?_, hinv.no_failure⟩
  · intro w wb hwb
    have hvw := hviews w
    rcases hvb_cases w wb hwb with ⟨hne, hw⟩ | ⟨heq, hc⟩
    · simp only [hne, ↓reduceIte, Nat.add_zero] at hvw
      have := hinv.count_eq w wb hw
      rw [← hvw] at this
      exact this
    · subst heq
      simp only [↓reduceIte] at hvw
      omega
  · intro w wb hwb
    have hvw := hviews w
    rcases hvb_cases w wb hwb with ⟨hne, hw⟩ | ⟨heq, hc⟩
    · have := hinv.count_le w wb hw
      omega
    · subst heq
      have := hinv.count_le w vb hvb
      omega
  · intro j g hg
    simp only [List.getElem?_set] at hg
    split at hg
    · split at hg <;> cases hg
    · obtain ⟨w, wb, hw, hwb⟩ := hinv.owner_live j g hg
      by_cases hwv : v = w
      · subst hwv
        exact ⟨v, { vb with vfrag_count := vb.vfrag_count - 1 }, hw,
          List.getElem?_set_self hvlt⟩
      · exact ⟨w, wb, hw, by simp [List.getElem?_set, hwv, hwb]⟩

theorem count_inv_free_last (h : Heap) (i v : Nat) (f : vfrag_t) (vb : vbuf_t)
    (bl : List (Option (List Byte)))
    (hinv : count_inv h) (hf : h.vfrags[i]? = some (some f)) (hv : f.vbuf = some v)
    (hvb : h.vbufs[v]? = some (some vb)) (hcount : vb.vfrag_count = 1) :
    count_inv { h with vbufs := h.vbufs.set v none, blocks := bl,
                       vfrags := h.vfrags.set i none } := by
  have hvlt := getElem?_lt_length hvb
  have hviews := fun w => views_of_free h i v f (h.vbufs.set v none) bl hf hv w
  have hold := hinv.count_eq v vb hvb
  have hvb_cases : ∀ (w : Nat) (wb : vbuf_t),
      (h.vbufs.set v none)[w]? = some (some wb) → w ≠ v ∧ h.vbufs[w]? = some (some wb) := by
    intro w wb hwb
    simp only [List.getElem?_set] at hwb
    split at hwb
    · simp only [hvlt, ↓reduceIte, Option.some.injEq] at hwb
      cases hwb
    · next hne => exact ⟨fun e => hne e.symm, hwb⟩
  have hzero : views_of
      { h with vbufs := h.vbufs.set v none, blocks := bl, vfrags := h.vfrags.set i none } v
        = 0 := by
    have := hviews v
    simp only [↓reduceIte] at this
    omega
  refine ⟨?_, ?_, ?_, hinv.no_failure⟩
  · intro w wb hwb
    have hvw := hviews w
    obtain ⟨hne, hw⟩ := hvb_cases w wb hwb
    simp only [hne, ↓reduceIte, Nat.add_zero] at hvw
    have := hinv.count_eq w wb hw
    rw [← hvw] at this
    exact this
  · intro w wb hwb
    have hvw := hviews w
    obtain ⟨hne, hw⟩ := hvb_cases w wb hwb
    have := hinv.count_le w wb hw
    omega
  · intro j g hg
    have hmem : (some g) ∈ h.vfrags.set i none := by
      rw [List.mem_iff_getElem?]
      exact ⟨j, hg⟩
    have hnot : ¬ refers v (some g) = true := by
      unfold views_of at hzero
      rw [List.countP_eq_zero] at hzero
      exact hzero (some g) hmem
    simp only [List.getElem?_set] at hg
    split at hg
    · split at hg <;> cases hg
    · obtain ⟨w, wb, hw, hwb⟩ := hinv.owner_live j g hg
      have hwv : v ≠ w := by
        intro e
        subst e
        apply hnot
        simp [refers_some, hw]
      exact ⟨w, wb, hw, by simp [List.getElem?_set, hwv, hwb]⟩

theorem memcpy_ok (h : Heap) (dst : Ptr) (data : List Byte) (h1 : Heap)
    (hm : memcpy h dst data = .ok h1) : ∃ bl, h1 = { h with blocks := bl } := by
  unfold memcpy at hm
  split at hm
  · split at hm
    · cases hm
      exact ⟨_, rfl⟩
    · cases hm
  · cases hm

theorem count_inv_copy_data (c : Consts) (h : Heap) (vfrag : Option Nat) (data : List Byte)
    (st : status_t) (h1 : Heap) (hs : gse_copy_data c h vfrag data = .ok (st, h1))
    (hinv : count_inv h) : count_inv h1 := by
  cases hl : load_vfrag h vfrag with
  | error e => simp [gse_copy_data, gse_get_vfrag_nbr, hl] at hs
  | ok f =>
    obtain ⟨i, rfl, hfi⟩ := (load_vfrag_ok_iff h vfrag f).1 hl
    cases hlv : load_vbuf h f.vbuf with
    | error e => simp [gse_copy_data, gse_get_vfrag_nbr, hl, hlv] at hs
    | ok vb =>
      by_cases hc : vb.vfrag_count > 1
      · simp [gse_copy_data, gse_get_vfrag_nbr, hl, hlv, hc] at hs
        rw [← hs.2]; exact hinv
      by_cases ht : size_sub c vb.length (c.MAX_HEADER_LENGTH + c.CRC_LENGTH) < data.length
      · simp [gse_copy_data, gse_get_vfrag_nbr, hl, hlv, hc, ht] at hs
        rw [← hs.2]; exact hinv
      cases hm : memcpy h (ptr_add c vb.start c.MAX_HEADER_LENGTH) data with
      | error e => simp [gse_copy_data, gse_get_vfrag_nbr, hl, hlv, hc, ht, hm] at hs
      | ok hmem =>
        obtain ⟨bl, rfl⟩ := memcpy_ok h _ data hmem hm
        simp only [gse_copy_data, gse_get_vfrag_nbr, hl, hlv, hc, ht, hm, modify_vfrag, hfi,
          gse_shift_pointer_fields, fields_start, fields_end, ↓reduceIte, ne_eq,
          not_true_eq_false] at hs
        split at hs
        · cases hs
          exact count_inv_set_vfrag h i f _ bl hinv hfi rfl
        · cases hs

theorem count_inv_shift_vfrag (c : Consts) (h : Heap) (vfrag : Option Nat)
    (start_shift end_shift : Nat) (st : status_t) (h1 : Heap)
    (hs : gse_shift_vfrag c h vfrag start_shift end_shift = .ok (st, h1))
    (hinv : count_inv h) : count_inv h1 := by
  unfold gse_shift_vfrag modify_vfrag at hs
  cases vfrag with
  | none => simp at hs
  | some i =>
    cases hfi : h.vfrags[i]? with
    | none => simp [hfi] at hs
    | some o =>
      cases o with
      | none => simp [hfi] at hs
      | some f =>
        simp only [hfi, Except.ok.injEq, Prod.mk.injEq] at hs
        rw [← hs.2]
        exact count_inv_set_vfrag h i f _ h.blocks hinv hfi rfl

theorem free_bytes_eq_error (h : Heap) (p : Ptr)
    (hb : ¬ ∃ bs, h.blocks[p.blk]? = some (some bs) ∧ p.off = 0) :
    free_bytes h p = .error Fault.bad_free := by
  unfold free_bytes
  split
  · next bs hbs =>
    split
    · next hoff => exact absurd ⟨bs, hbs, hoff⟩ hb
    · rfl
  · rfl

theorem count_inv_free_vfrag (h : Heap) (vfrag : Option Nat) (st : status_t) (h1 : Heap)
    (hs : gse_free_vfrag h vfrag = .ok (st, h1)) (hinv : count_inv h) : count_inv h1 := by
  cases hl : load_vfrag h vfrag with
  | error e => simp [gse_free_vfrag, gse_get_vfrag_nbr, hl] at hs
  | ok f =>
    obtain ⟨i, rfl, hfi⟩ := (load_vfrag_ok_iff h vfrag f).1 hl
    cases hlv : load_vbuf h f.vbuf with
    | error e => simp [gse_free_vfrag, gse_get_vfrag_nbr, hl, hlv] at hs
    | ok vb =>
      obtain ⟨v, hv, hvb⟩ := (load_vbuf_ok_iff h f.vbuf vb).1 hlv
      have hvlt := getElem?_lt_length hvb
      rcases Int.lt_trichotomy vb.vfrag_count 1 with hlt | heq | hgt
      · have h0 : vb.vfrag_count ≤ 0 := by omega
        simp [gse_free_vfrag, gse_get_vfrag_nbr, hl, hlv, h0] at hs
        rw [← hs.2]; exact hinv
      · by_cases hb : ∃ bs, h.blocks[vb.start.blk]? = some (some bs) ∧ vb.start.off = 0
        · obtain ⟨bs, hbs, hoff⟩ := hb
          rw [gse_free_vfrag_last h i v f vb bs hfi hv hvb heq hbs hoff] at hs
          simp only [Except.ok.injEq, Prod.mk.injEq] at hs
          rw [← hs.2]
          exact count_inv_free_last h i v f vb _ hinv hfi hv hvb heq
        · exfalso
          have hfree := free_bytes_eq_error
            { h with vbufs := h.vbufs.set v (some { vb with vfrag_count := 0 }) } vb.start hb
          simp [gse_free_vfrag, gse_get_vfrag_nbr, hl, hlv, heq, modify_vbuf, hv, hvb,
            load_vfrag, load_vbuf, hfi, List.getElem?_set_self hvlt, gse_free_vbuf] at hs
          simp [hfree] at hs
      · rw [gse_free_vfrag_shared h i v f vb hfi hv hvb (by omega)] at hs
        simp only [Except.ok.injEq, Prod.mk.injEq] at hs
        rw [← hs.2]
        exact count_inv_free_shared h i v f vb hinv hfi hv hvb

theorem allocs_succeed_of_none (h : Heap) (n : Nat) (hf : h.fail_at = none) :
    allocs_succeed h n = true := by
  simp [allocs_succeed, hf]

theorem count_inv_duplicate_vfrag (c : Consts) (h : Heap) (father : Option Nat) (length : Nat)
    (st : status_t) (ch : Option Nat) (h1 : Heap)
    (hs : gse_duplicate_vfrag c h father length = .ok (st, ch, h1))
    (hinv : count_inv h) : count_inv h1 := by
  cases hl : load_vfrag h father with
  | error e => simp [gse_duplicate_vfrag, hl] at hs
  | ok fa =>
    obtain ⟨i, rfl, hfa⟩ := (load_vfrag_ok_iff h father fa).1 hl
    by_cases hlen : fa.length = 0
    · simp [gse_duplicate_vfrag, hl, hlen] at hs
      rw [← hs.2.2]; exact hinv
    cases hlv : load_vbuf h fa.vbuf with
    | error e => simp [gse_duplicate_vfrag, hl, hlen, gse_get_vfrag_nbr, hlv] at hs
    | ok vb =>
      obtain ⟨v, hv, hvb⟩ := (load_vbuf_ok_iff h fa.vbuf vb).1 hlv
      by_cases hcount : 2 ≤ vb.vfrag_count
      · simp [gse_duplicate_vfrag, hl, hlen, gse_get_vfrag_nbr, hlv, hcount] at hs
        rw [← hs.2.2]; exact hinv
      have ha := allocs_succeed_of_none h 1 hinv.no_failure
      by_cases hend : (ptr_add c fa.start (min length fa.length)).off ≤ vb.end_.off
      · rw [gse_duplicate_vfrag_eq c h i v fa vb length hfa hv hvb hlen (by omega) ha hend] at hs
        simp only [Except.ok.injEq, Prod.mk.injEq] at hs
        rw [← hs.2.2]
        exact count_inv_duplicate c h v fa vb length hinv hv hvb (by omega)
      · rw [gse_duplicate_vfrag_assert c h i v fa vb length hfa hv hvb hlen (by omega) ha
          hend] at hs
        cases hs

theorem count_inv_run (c : Consts) (h h1 : Heap) (call : Call)
    (hs : Call.run c h call = .ok h1) (hinv : count_inv h) : count_inv h1 := by
  cases call with
  | create_vfrag n =>
    simp only [Call.run,
      gse_create_vfrag_eq c h n (allocs_succeed_of_none h 3 hinv.no_failure)] at hs
    cases hs
    exact count_inv_create_vfrag c h n hinv
  | create_vfrag_with_data n data =>
    have hmid := count_inv_create_vfrag c h n hinv
    simp only [Call.run, gse_create_vfrag_with_data,
      gse_create_vfrag_eq c h n (allocs_succeed_of_none h 3 hinv.no_failure), ne_eq,
      not_true_eq_false, ↓reduceIte] at hs
    cases hcopy : gse_copy_data c (heap_after_create_vfrag c h n) (some h.vfrags.length) data with
    | error e => simp [hcopy] at hs
    | ok r =>
      obtain ⟨st1, h2⟩ := r
      have h2inv := count_inv_copy_data c _ _ data st1 h2 hcopy hmid
      simp only [hcopy] at hs
      by_cases hst : st1 = STATUS_OK
      · simp only [hst, ne_eq, not_true_eq_false, ↓reduceIte, Except.ok.injEq] at hs
        rw [← hs]; exact h2inv
      · simp only [ne_eq, hst, not_false_eq_true, ↓reduceIte] at hs
        cases hfree : gse_free_vfrag h2 (some h.vfrags.length) with
        | error e => simp [hfree] at hs
        | ok r2 =>
          obtain ⟨st2, h3⟩ := r2
          simp only [hfree, Except.ok.injEq] at hs
          rw [← hs]
          exact count_inv_free_vfrag h2 _ st2 h3 hfree h2inv
  | copy_data vfrag data =>
    simp only [Call.run] at hs
    cases hr : gse_copy_data c h vfrag data with
    | error e => simp [hr] at hs
    | ok r =>
      obtain ⟨st, h2⟩ := r
      simp only [hr, Except.ok.injEq] at hs
      rw [← hs]
      exact count_inv_copy_data c h vfrag data st h2 hr hinv
  | duplicate_vfrag father length =>
    simp only [Call.run] at hs
    cases hr : gse_duplicate_vfrag c h father length with
    | error e => simp [hr] at hs
    | ok r =>
      obtain ⟨st, ch, h2⟩ := r
      simp only [hr, Except.ok.injEq] at hs
      rw [← hs]
      exact count_inv_duplicate_vfrag c h father length st ch h2 hr hinv
  | shift_vfrag vfrag s e =>
    simp only [Call.run] at hs
    cases hr : gse_shift_vfrag c h vfrag s e with
    | error e => simp [hr] at hs
    | ok r =>
      obtain ⟨st, h2⟩ := r
      simp only [hr, Except.ok.injEq] at hs
      rw [← hs]
      exact count_inv_shift_vfrag c h vfrag s e st h2 hr hinv
  | free_vfrag vfrag =>
    simp only [Call.run] at hs
    cases hr : gse_free_vfrag h vfrag with
    | error e => simp [hr] at hs
    | ok r =>
      obtain ⟨st, h2⟩ := r
      simp only [hr, Except.ok.injEq] at hs
      rw [← hs]
      exact count_inv_free_vfrag h vfrag st h2 hr hinv

theorem count_inv_empty : count_inv Heap.empty := by
  refine ⟨?_, ?_, ?_, rfl⟩ <;> intro i x hx <;> simp [Heap.empty] at hx

theorem count_inv_reachable (c : Consts) (h : Heap) (hr : Reachable c h) : count_inv h := by
  induction hr with
  | empty => exact count_inv_empty
  | step h h1 call _ hs ih => exact count_inv_run c h h1 call hs ih

/-- C10: in every heap reached from the empty heap by calls of `gse_create_vfrag`,
`gse_create_vfrag_with_data`, `gse_copy_data`, `gse_duplicate_vfrag`, `gse_shift_vfrag`
and `gse_free_vfrag`, with every allocation succeeding, the `vfrag_count` of each live
backing allocation is the number of live views that reference it and is 0, 1 or 2, and
`gse_get_vfrag_nbr` on a live view returns 1 or 2. -/
theorem reachable_vfrag_count (c : Consts) (h : Heap) (hr : Reachable c h) :
    (∀ (v : Nat) (vb : vbuf_t), h.vbufs[v]? = some (some vb) →
      vb.vfrag_count = (views_of h v : Int) ∧
      (vb.vfrag_count = 0 ∨ vb.vfrag_count = 1 ∨ vb.vfrag_count = 2)) ∧
    (∀ (vfrag : Option Nat) (f : vfrag_t), load_vfrag h vfrag = .ok f →
      gse_get_vfrag_nbr h vfrag = .ok 1 ∨ gse_get_vfrag_nbr h vfrag = .ok 2) := by
  have hinv := count_inv_reachable c h hr
  constructor
  · intro v vb hvb
    have heq := hinv.count_eq v vb hvb
    have hle := hinv.count_le v vb hvb
    refine ⟨heq, ?_⟩
    omega
  · intro vfrag f hf
    obtain ⟨i, rfl, hfi⟩ := (load_vfrag_ok_iff h vfrag f).1 hf
    obtain ⟨v, vb, hv, hvb⟩ := hinv.owner_live i f hfi
    have heq := hinv.count_eq v vb hvb
    have hle := hinv.count_le v vb hvb
    have hpos : 0 < views_of h v := by
      unfold views_of
      rw [List.countP_pos_iff]
      refine ⟨some f, ?_, ?_⟩
      · rw [List.mem_iff_getElem?]
        exact ⟨i, hfi⟩
      · simp [refers_some, hv]
    have hnbr : gse_get_vfrag_nbr h (some i) = .ok vb.vfrag_count := by
      simp [gse_get_vfrag_nbr, hf, load_vbuf, hv, hvb]
    rw [hnbr]
    have : vb.vfrag_count = 1 ∨ vb.vfrag_count = 2 := by omega
    rcases this with h1 | h2
    · left; rw [h1]
    · right; rw [h2]

/-- C10, at a concrete input: the heap reached by creating a view with `ABC` and
duplicating its first two bytes. -/
theorem reachable_vfrag_count_witness :
    Reachable ⟨64, 13, 4⟩ heap_two_views ∧
    (∀ (v : Nat) (vb : vbuf_t), heap_two_views.vbufs[v]? = some (some vb) →
      vb.vfrag_count = (views_of heap_two_views v : Int) ∧
      (vb.vfrag_count = 0 ∨ vb.vfrag_count = 1 ∨ vb.vfrag_count = 2)) ∧
    (∀ (vfrag : Option Nat) (f : vfrag_t), load_vfrag heap_two_views vfrag = .ok f →
      gse_get_vfrag_nbr heap_two_views vfrag = .ok 1 ∨
      gse_get_vfrag_nbr heap_two_views vfrag = .ok 2) :=
  have hr : Reachable ⟨64, 13, 4⟩ heap_two_views :=
    .step heap_one_view heap_two_views (.duplicate_vfrag (some 0) 2)
      (.step Heap.empty heap_one_view (.create_vfrag_with_data 3 [65, 66, 67]) .empty rfl) rfl
  ⟨hr, reachable_vfrag_count ⟨64, 13, 4⟩ heap_two_views hr⟩

theorem size_sub_eq (c : Consts) (a b : Nat) (hle : b ≤ a) (hlt : a - b < c.SIZE_MOD) :
    size_sub c a b = a - b := by
  unfold size_sub
  have h1 : ((a : Int) - (b : Int)) = ((a - b : Nat) : Int) := by omega
  rw [h1, Int.emod_eq_of_lt (by omega) (by exact_mod_cast hlt)]
  simp

/-- Shifting both ends of a range changes its `size_t` length by the difference of the
shifts, in `size_t`. -/
theorem size_sub_shift (c : Consts) (a b e s : Nat) :
    size_sub c (a + e) (b + s)
      = ((((size_sub c a b : Nat) : Int) + e - s) % (c.SIZE_MOD : Int)).toNat := by
  have hpos := SIZE_MOD_pos c
  have hne : (c.SIZE_MOD : Int) ≠ 0 := by omega
  unfold size_sub
  rw [Int.toNat_of_nonneg (Int.emod_nonneg _ hne)]
  congr 1
  rw [Int.add_sub_assoc, Int.emod_add_emod]
  congr 1
  push_cast
  ring

/-- Subtraction in `size_t` sees its operands modulo `2 ^ SIZE_BITS`. -/
theorem size_sub_mod (c : Consts) (a b : Nat) :
    size_sub c (a % c.SIZE_MOD) (b % c.SIZE_MOD) = size_sub c a b := by
  unfold size_sub
  congr 1
  rw [Int.natCast_mod, Int.natCast_mod, ← Int.sub_emod]

/-- C12, as amended: `gse_shift_vfrag` has no error path: on every valid view and for
every pair of shifts it returns `STATUS_OK` and the view becomes `start + start_shift`,
`end + end_shift` (pointer additions, modulo `2 ^ SIZE_BITS`), with the length
`end' - start'` computed in `size_t`; the owner, the other views, the `vbuf_t` records
(hence `vfrag_count`) and the bytes are unchanged.  When the length was `end - start` in
`size_t`, the new length is `length + end_shift - start_shift` modulo `2 ^ SIZE_BITS`,
which is that number itself when `start_shift ≤ length + end_shift` and the result is
below `2 ^ SIZE_BITS`. -/
theorem shift_vfrag_spec (c : Consts) (h : Heap) (vfrag : Option Nat) (f : vfrag_t)
    (start_shift end_shift : Nat) (hf : load_vfrag h vfrag = .ok f) :
    ∃ i h1 f1, vfrag = some i ∧
      gse_shift_vfrag c h vfrag start_shift end_shift = .ok (STATUS_OK, h1) ∧
      load_vfrag h1 vfrag = .ok f1 ∧
      f1.vbuf = f.vbuf ∧ f1.start = ptr_add c f.start start_shift ∧
      f1.end_ = ptr_add c f.end_ end_shift ∧
      f1.start.off = (f.start.off + start_shift) % c.SIZE_MOD ∧
      f1.end_.off = (f.end_.off + end_shift) % c.SIZE_MOD ∧
      f1.length = size_sub c f1.end_.off f1.start.off ∧
      (f.length = size_sub c f.end_.off f.start.off →
        f1.length = ((((f.length : Nat) : Int) + end_shift - start_shift)
          % (c.SIZE_MOD : Int)).toNat) ∧
      (f.length = size_sub c f.end_.off f.start.off →
        start_shift ≤ f.length + end_shift →
        f.length + end_shift - start_shift < c.SIZE_MOD →
        f1.length = f.length + end_shift - start_shift) ∧
      h1.vbufs = h.vbufs ∧ h1.blocks = h.blocks ∧ h1.fail_at = h.fail_at ∧
      (∀ j, j ≠ i → h1.vfrags[j]? = h.vfrags[j]?) := by
  obtain ⟨i, rfl, hfi⟩ := (load_vfrag_ok_iff h vfrag f).1 hf
  have hilt := getElem?_lt_length hfi
  have hmod : size_sub c (ptr_add c f.end_ end_shift).off (ptr_add c f.start start_shift).off
      = ((((size_sub c f.end_.off f.start.off : Nat) : Int) + end_shift - start_shift)
          % (c.SIZE_MOD : Int)).toNat := by
    rw [ptr_add_off, ptr_add_off, size_sub_mod]
    exact size_sub_shift c _ _ _ _
  refine ⟨i, { h with vfrags := h.vfrags.set i (some ⟨f.vbuf, ptr_add c f.start start_shift,
      ptr_add c f.end_ end_shift, size_sub c (ptr_add c f.end_ end_shift).off
        (ptr_add c f.start start_shift).off⟩) },
    ⟨f.vbuf, ptr_add c f.start start_shift, ptr_add c f.end_ end_shift,
      size_sub c (ptr_add c f.end_ end_shift).off (ptr_add c f.start start_shift).off⟩,
    rfl, ?_, ?_, rfl, rfl, rfl, rfl, rfl, rfl, ?_, ?_, rfl, rfl, rfl, ?_⟩
  · simp [gse_shift_vfrag, modify_vfrag, hfi]
  · simp [load_vfrag, hilt]
  · intro hlen
    rw [hlen]
    exact hmod
  · intro hlen hle hlt
    simp only
    rw [hmod, ← hlen]
    have h1 : ((f.length : Int) + end_shift - start_shift)
        = ((f.length + end_shift - start_shift : Nat) : Int) := by omega
    rw [h1, Int.emod_eq_of_lt (by omega) (by exact_mod_cast hlt)]
    simp
  · intro j hj
    simp [List.getElem?_set_ne (Ne.symm hj)]

/-- C12, at a concrete input: the start of the view of `ABC`, at offset 13, is moved 3
bytes backwards by the shift `2 ^ 64 - 3`; the view then covers offsets 10 to 16 and its
length is 6. -/
theorem shift_vfrag_spec_witness :
    load_vfrag heap_one_view (some 0) = .ok ⟨some 0, ⟨0, 13⟩, ⟨0, 16⟩, 3⟩ ∧
    ∃ i h1 f1, some 0 = some i ∧
      gse_shift_vfrag ⟨64, 13, 4⟩ heap_one_view (some 0) (2 ^ 64 - 3) 0 = .ok (STATUS_OK, h1) ∧
      load_vfrag h1 (some 0) = .ok f1 ∧
      f1.vbuf = some 0 ∧ f1.start = ptr_add ⟨64, 13, 4⟩ ⟨0, 13⟩ (2 ^ 64 - 3) ∧
      f1.end_ = ptr_add ⟨64, 13, 4⟩ ⟨0, 16⟩ 0 ∧
      f1.start.off = (13 + (2 ^ 64 - 3)) % Consts.SIZE_MOD ⟨64, 13, 4⟩ ∧
      f1.end_.off = (16 + 0) % Consts.SIZE_MOD ⟨64, 13, 4⟩ ∧
      f1.length = size_sub ⟨64, 13, 4⟩ f1.end_.off f1.start.off ∧
      (3 = size_sub ⟨64, 13, 4⟩ 16 13 →
        f1.length = ((((3 : Nat) : Int) + (0 : Nat) - ((2 ^ 64 - 3 : Nat) : Int))
          % (Consts.SIZE_MOD ⟨64, 13, 4⟩ : Int)).toNat) ∧
      (3 = size_sub ⟨64, 13, 4⟩ 16 13 →
        2 ^ 64 - 3 ≤ 3 + 0 →
        3 + 0 - (2 ^ 64 - 3) < Consts.SIZE_MOD ⟨64, 13, 4⟩ →
        f1.length = 3 + 0 - (2 ^ 64 - 3)) ∧
      h1.vbufs = heap_one_view.vbufs ∧ h1.blocks = heap_one_view.blocks ∧
      h1.fail_at = heap_one_view.fail_at ∧
      (∀ j, j ≠ i → h1.vfrags[j]? = heap_one_view.vfrags[j]?) :=
  ⟨rfl, shift_vfrag_spec ⟨64, 13, 4⟩ heap_one_view (some 0) ⟨some 0, ⟨0, 13⟩, ⟨0, 16⟩, 3⟩
    (2 ^ 64 - 3) 0 rfl⟩

/-- A shift of `2 ^ 64 - 3` moves the start of the view of `ABC` from offset 13 to offset
10, inside the region; the view has then 6 bytes and can be duplicated. -/
theorem shift_vfrag_moves_backwards :
    ∃ h1 h2, gse_shift_vfrag ⟨64, 13, 4⟩ heap_one_view (some 0) (2 ^ 64 - 3) 0
        = .ok (STATUS_OK, h1) ∧
      load_vfrag h1 (some 0) = .ok ⟨some 0, ⟨0, 10⟩, ⟨0, 16⟩, 6⟩ ∧
      gse_duplicate_vfrag ⟨64, 13, 4⟩ h1 (some 0) 6 = .ok (STATUS_OK, some 1, h2) ∧
      load_vfrag h2 (some 1) = .ok ⟨some 0, ⟨0, 10⟩, ⟨0, 16⟩, 6⟩ :=
  ⟨_, _, rfl, rfl, rfl, rfl⟩

/-- C12 as stated fails: on the view of `ABC`, of length 3, the shifts 0 and `2 ^ 64 - 1`
satisfy `start_shift ≤ length + end_shift`, and the new length is 2 (the end has moved
one byte backwards), not `length + end_shift - start_shift`. -/
theorem shift_vfrag_length_wraps :
    load_vfrag heap_one_view (some 0) = .ok ⟨some 0, ⟨0, 13⟩, ⟨0, 16⟩, 3⟩ ∧
    0 ≤ 3 + (2 ^ 64 - 1) ∧
    ∃ h1, gse_shift_vfrag ⟨64, 13, 4⟩ heap_one_view (some 0) 0 (2 ^ 64 - 1)
        = .ok (STATUS_OK, h1) ∧
      load_vfrag h1 (some 0) = .ok ⟨some 0, ⟨0, 13⟩, ⟨0, 15⟩, 2⟩ ∧
      2 ≠ 3 + (2 ^ 64 - 1) - 0 :=
  ⟨rfl, by decide, _, rfl, rfl, by decide⟩

/-- What `gse_copy_data` computes on a valid view of a valid allocation, with the calls of
`gse_get_vfrag_nbr` and `gse_shift_pointer` evaluated. -/
theorem gse_copy_data_unfold (c : Consts) (h : Heap) (i : Nat) (f : vfrag_t) (vb : vbuf_t)
    (data : List Byte)
    (hf : h.vfrags[i]? = some (some f)) (hvb : load_vbuf h f.vbuf = .ok vb) :
    gse_copy_data c h (some i) data =
      if vb.vfrag_count > 1 then .ok (ERR_MULTIPLE_VBUF_ACCESS, h)
      else if size_sub c vb.length (c.MAX_HEADER_LENGTH + c.CRC_LENGTH) < data.length then
        .ok (ERR_DATA_TOO_LONG, h)
      else
        match memcpy h (ptr_add c vb.start c.MAX_HEADER_LENGTH) data with
        | .error e => .error e
        | .ok hm =>
          if (ptr_add c (ptr_add c vb.start c.MAX_HEADER_LENGTH) data.length).off
              ≤ vb.end_.off then
            .ok (STATUS_OK, { hm with vfrags := hm.vfrags.set i (some
              ⟨f.vbuf, ptr_add c vb.start c.MAX_HEADER_LENGTH,
                ptr_add c (ptr_add c vb.start c.MAX_HEADER_LENGTH) data.length, data.length⟩) })
          else .error Fault.assert_failed := by
  have hl : load_vfrag h (some i) = .ok f := by simp [load_vfrag, hf]
  simp only [gse_copy_data, gse_get_vfrag_nbr, hl, hvb]
  split
  · rfl
  · split
    · rfl
    · cases hm : memcpy h (ptr_add c vb.start c.MAX_HEADER_LENGTH) data with
      | error e => rfl
      | ok hmem =>
        obtain ⟨bl, rfl⟩ := memcpy_ok h _ data hmem hm
        simp [modify_vfrag, hf, gse_shift_pointer_fields, fields_start, fields_end]

/-- On a valid view whose allocation has at most one view, `gse_copy_data` returns
`ERR_DATA_TOO_LONG` exactly when the length of the data exceeds
`region.length - (MAX_HEADER_LENGTH + CRC_LENGTH)`, computed in `size_t` as the source
does, and then the heap (the view and the bytes) is as it was; that threshold is the
plain difference when the region has at least `MAX_HEADER_LENGTH + CRC_LENGTH` bytes, and
on the view that `gse_create_vfrag` returns for a capacity whose sum does not overflow it
is the capacity itself. -/
theorem gse_copy_data_too_long_iff (c : Consts) (h : Heap) (vfrag : Option Nat) (f : vfrag_t)
    (vb : vbuf_t) (data : List Byte)
    (hf : load_vfrag h vfrag = .ok f) (hvb : load_vbuf h f.vbuf = .ok vb)
    (hcount : vb.vfrag_count ≤ 1) :
    ((∃ h1, gse_copy_data c h vfrag data = .ok (ERR_DATA_TOO_LONG, h1)) ↔
      size_sub c vb.length (c.MAX_HEADER_LENGTH + c.CRC_LENGTH) < data.length) ∧
    (size_sub c vb.length (c.MAX_HEADER_LENGTH + c.CRC_LENGTH) < data.length →
      gse_copy_data c h vfrag data = .ok (ERR_DATA_TOO_LONG, h)) ∧
    (c.MAX_HEADER_LENGTH + c.CRC_LENGTH ≤ vb.length → vb.length < c.SIZE_MOD →
      size_sub c vb.length (c.MAX_HEADER_LENGTH + c.CRC_LENGTH)
        = vb.length - (c.MAX_HEADER_LENGTH + c.CRC_LENGTH)) ∧
    (∀ (h0 : Heap) (max_length : Nat), allocs_succeed h0 3 = true →
      max_length + c.MAX_HEADER_LENGTH + c.CRC_LENGTH < c.SIZE_MOD →
      ∃ i h1, gse_create_vfrag c h0 max_length = .ok (STATUS_OK, some i, h1) ∧
        ((∃ h2, gse_copy_data c h1 (some i) data = .ok (ERR_DATA_TOO_LONG, h2)) ↔
          max_length < data.length)) := by
  obtain ⟨i, rfl, hfi⟩ := (load_vfrag_ok_iff h vfrag f).1 hf
  have hc : ¬ vb.vfrag_count > 1 := by omega
  have hiff : ∀ (h' : Heap) (j : Nat) (g : vfrag_t) (wb : vbuf_t),
      h'.vfrags[j]? = some (some g) → load_vbuf h' g.vbuf = .ok wb → ¬ wb.vfrag_count > 1 →
      ((∃ h1, gse_copy_data c h' (some j) data = .ok (ERR_DATA_TOO_LONG, h1)) ↔
        size_sub c wb.length (c.MAX_HEADER_LENGTH + c.CRC_LENGTH) < data.length) := by
    intro h' j g wb hg hwb hwc
    rw [gse_copy_data_unfold c h' j g wb data hg hwb]
    simp only [hwc, ↓reduceIte]
    constructor
    · rintro ⟨h1, h1eq⟩
      by_contra hlt
      simp only [hlt, ↓reduceIte] at h1eq
      split at h1eq
      · cases h1eq
      · split at h1eq
        · simp at h1eq
        · cases h1eq
    · intro hlt
      exact ⟨h', by simp [hlt]⟩
  refine ⟨hiff h i f vb hfi hvb hc, ?_, ?_, ?_⟩
  · intro hlt
    rw [gse_copy_data_unfold c h i f vb data hfi hvb]
    simp [hc, hlt]
  · intro hmin hsz
    exact size_sub_eq c _ _ hmin (by omega)
  · intro h0 max_length ha hC
    refine ⟨h0.vfrags.length, heap_after_create_vfrag c h0 max_length,
      gse_create_vfrag_eq c h0 max_length ha, ?_⟩
    have hthr := size_sub_length_buf c max_length (by omega)
    have := hiff (heap_after_create_vfrag c h0 max_length) h0.vfrags.length
      ⟨some h0.vbufs.length, ptr_add c ⟨h0.blocks.length, 0⟩ c.MAX_HEADER_LENGTH,
        ptr_add c ⟨h0.blocks.length, 0⟩ c.MAX_HEADER_LENGTH, 0⟩
      ⟨⟨h0.blocks.length, 0⟩, ⟨h0.blocks.length, length_buf c max_length⟩,
        length_buf c max_length, 1⟩
      (by simp [heap_after_create_vfrag]) (by simp [load_vbuf, heap_after_create_vfrag])
      (by simp)
    simp only [hthr] at this
    exact this

/-- C16: with a 64-bit `size_t`, `MAX_HEADER_LENGTH = 13` and `CRC_LENGTH = 4`, the view
that `gse_create_vfrag` returns for the capacity `2 ^ 64 - 1` has a region of 16 bytes,
one less than the two reserves, and a view count of 1.  Three bytes of data exceed
`region.length - (MAX_HEADER_LENGTH + CRC_LENGTH)`, which is `-1`, and `gse_copy_data`
does not return `ERR_DATA_TOO_LONG`: the subtraction wraps to `2 ^ 64 - 1` in `size_t`,
the call returns `STATUS_OK` and the bytes are at offsets 13 to 16, the last three of
the region. -/
theorem copy_data_accepts_beyond_threshold :
    ∃ h1 h2, gse_create_vfrag ⟨64, 13, 4⟩ Heap.empty (2 ^ 64 - 1)
        = .ok (STATUS_OK, some 0, h1) ∧
      load_vbuf h1 (some 0) = .ok ⟨⟨0, 0⟩, ⟨0, 16⟩, 16, 1⟩ ∧
      load_vfrag h1 (some 0) = .ok ⟨some 0, ⟨0, 13⟩, ⟨0, 13⟩, 0⟩ ∧
      (16 : Int) - (13 + 4) < (([65, 66, 67] : List Byte).length : Int) ∧
      size_sub ⟨64, 13, 4⟩ 16 (13 + 4) = 2 ^ 64 - 1 ∧
      gse_copy_data ⟨64, 13, 4⟩ h1 (some 0) [65, 66, 67] = .ok (STATUS_OK, h2) ∧
      load_vfrag h2 (some 0) = .ok ⟨some 0, ⟨0, 13⟩, ⟨0, 16⟩, 3⟩ ∧
      h2.blocks = [some (List.replicate 13 0 ++ [65, 66, 67])] :=
  ⟨_, _, rfl, rfl, rfl, by decide, by decide, rfl, rfl, by decide⟩

/-- Overwriting `data.length` bytes of `bs` at offset `o`: the length is kept, the bytes
at `o ..` are those of `data`, all others are those of `bs`. -/
theorem splice_spec (bs data : List Byte) (o : Nat) (hfit : o + data.length ≤ bs.length) :
    (bs.take o ++ data ++ bs.drop (o + data.length)).length = bs.length ∧
    (∀ j, j < data.length →
      (bs.take o ++ data ++ bs.drop (o + data.length))[o + j]? = data[j]?) ∧
    (∀ j, j < o ∨ o + data.length ≤ j →
      (bs.take o ++ data ++ bs.drop (o + data.length))[j]? = bs[j]?) ∧
    ((bs.take o ++ data ++ bs.drop (o + data.length)).drop o).take data.length = data := by
  have hto : (bs.take o).length = o := by simp; omega
  refine ⟨?_, ?_, ?_, ?_⟩
  · simp
    omega
  · intro j hj
    rw [List.append_assoc, List.getElem?_append_right (by omega), hto,
      List.getElem?_append_left (by omega)]
    congr 1
    omega
  · intro j hj
    rcases hj with hj | hj
    · rw [List.append_assoc, List.getElem?_append_left (by omega), List.getElem?_take]
      simp [hj]
    · rw [List.getElem?_append_right (by simp; omega), List.getElem?_drop]
      congr 1
      simp
      omega
  · rw [List.append_assoc, List.drop_append_of_le_length (by omega),
      List.drop_of_length_le (by omega), List.nil_append, List.take_left']
    rfl

/-- C15: on a valid view of a valid allocation with at most one view, for every data with
`len(data) + MAX_HEADER_LENGTH + CRC_LENGTH ≤ region.length`, `gse_copy_data` returns
`STATUS_OK`; whatever the view was before, its start becomes
`region.begin + MAX_HEADER_LENGTH`, its length `len(data)` and its end
`start + len(data)`; the bytes of the region at `[start, end)` are the data and all its
other bytes are unchanged; the `vbuf_t` records (hence `vfrag_count`), the other regions
and the other views are unchanged.  A valid allocation: its block holds the region, its
end marker is `start + length` and the region lies in the address space. -/
theorem copy_data_spec (c : Consts) (h : Heap) (vfrag : Option Nat) (f : vfrag_t)
    (vb : vbuf_t) (bs data : List Byte)
    (hf : load_vfrag h vfrag = .ok f) (hvb : load_vbuf h f.vbuf = .ok vb)
    (hbs : h.blocks[vb.start.blk]? = some (some bs))
    (hblk : vb.start.off + vb.length ≤ bs.length)
    (hend : vb.end_ = ptr_add c vb.start vb.length)
    (hsz : vb.start.off + vb.length < c.SIZE_MOD)
    (hcount : vb.vfrag_count ≤ 1)
    (hlen : data.length + (c.MAX_HEADER_LENGTH + c.CRC_LENGTH) ≤ vb.length) :
    ∃ i h1 f1 bs1, vfrag = some i ∧
      gse_copy_data c h vfrag data = .ok (STATUS_OK, h1) ∧
      load_vfrag h1 vfrag = .ok f1 ∧ f1.vbuf = f.vbuf ∧
      f1.start = ptr_add c vb.start c.MAX_HEADER_LENGTH ∧
      f1.length = data.length ∧ f1.end_ = ptr_add c f1.start data.length ∧
      h1.blocks[vb.start.blk]? = some (some bs1) ∧ bs1.length = bs.length ∧
      (∀ j, j < data.length → bs1[f1.start.off + j]? = data[j]?) ∧
      (∀ j, j < f1.start.off ∨ f1.end_.off ≤ j → bs1[j]? = bs[j]?) ∧
      vfrag_bytes h1 vfrag = some data ∧
      h1.vbufs = h.vbufs ∧
      (∀ b, b ≠ vb.start.blk → h1.blocks[b]? = h.blocks[b]?) ∧
      (∀ j, j ≠ i → h1.vfrags[j]? = h.vfrags[j]?) ∧
      f1.start.off = vb.start.off + c.MAX_HEADER_LENGTH ∧
      f1.end_.off = f1.start.off + data.length := by
  obtain ⟨i, rfl, hfi⟩ := (load_vfrag_ok_iff h vfrag f).1 hf
  have hilt := getElem?_lt_length hfi
  have hblt := getElem?_lt_length hbs
  have hthr := size_sub_eq c vb.length (c.MAX_HEADER_LENGTH + c.CRC_LENGTH) (by omega)
    (by omega)
  have ho : (ptr_add c vb.start c.MAX_HEADER_LENGTH).off
      = vb.start.off + c.MAX_HEADER_LENGTH := ptr_add_off_of_lt c _ _ (by omega)
  have he : (ptr_add c (ptr_add c vb.start c.MAX_HEADER_LENGTH) data.length).off
      = (ptr_add c vb.start c.MAX_HEADER_LENGTH).off + data.length :=
    ptr_add_off_of_lt c _ _ (by omega)
  have hfit : (ptr_add c vb.start c.MAX_HEADER_LENGTH).off + data.length ≤ bs.length := by
    omega
  have hendoff : vb.end_.off = vb.start.off + vb.length := by
    rw [hend]; exact ptr_add_off_of_lt c _ _ hsz
  have heq := gse_copy_data_eq c h i f vb bs data hf hvb hbs hcount (by omega) hfit (by omega)
  obtain ⟨hs1, hs2, hs3, hs4⟩ :=
    splice_spec bs data (ptr_add c vb.start c.MAX_HEADER_LENGTH).off hfit
  refine ⟨i, heap_after_copy c h i f vb bs data,
    ⟨f.vbuf, ptr_add c vb.start c.MAX_HEADER_LENGTH,
      ptr_add c (ptr_add c vb.start c.MAX_HEADER_LENGTH) data.length, data.length⟩,
    bs.take (ptr_add c vb.start c.MAX_HEADER_LENGTH).off ++ data
      ++ bs.drop ((ptr_add c vb.start c.MAX_HEADER_LENGTH).off + data.length),
    rfl, heq, ?_, rfl, rfl, rfl, rfl, ?_, hs1, hs2, ?_, ?_, rfl, ?_, ?_, ho, he⟩
  · simp [load_vfrag, heap_after_copy, hilt]
  · simp [heap_after_copy, hblt, ptr_add_blk]
  · intro j hj
    simp only [he] at hj
    exact hs3 j hj
  · simp only [vfrag_bytes, load_vfrag, heap_after_copy, List.getElem?_set_self hilt,
      ptr_add_blk, List.getElem?_set_self hblt, he]
    have hcond : (ptr_add c vb.start c.MAX_HEADER_LENGTH).off
          ≤ (ptr_add c vb.start c.MAX_HEADER_LENGTH).off + data.length ∧
        (ptr_add c vb.start c.MAX_HEADER_LENGTH).off + data.length
          ≤ (bs.take (ptr_add c vb.start c.MAX_HEADER_LENGTH).off ++ data
              ++ bs.drop ((ptr_add c vb.start c.MAX_HEADER_LENGTH).off
                + data.length)).length := by
      rw [hs1]; omega
    rw [if_pos hcond]
    have hsub : (ptr_add c vb.start c.MAX_HEADER_LENGTH).off + data.length
        - (ptr_add c vb.start c.MAX_HEADER_LENGTH).off = data.length := by omega
    rw [hsub, hs4]
  · intro b hb
    simp [heap_after_copy, List.getElem?_set_ne (Ne.symm hb)]
  · intro j hj
    simp [heap_after_copy, List.getElem?_set_ne (Ne.symm hj)]

/-- C15, at a concrete input: two bytes copied into a view that had been shifted. -/
theorem copy_data_spec_witness :
    load_vfrag heap_shifted_view (some 0) = .ok ⟨some 0, ⟨0, 15⟩, ⟨0, 16⟩, 1⟩ ∧
    load_vbuf heap_shifted_view (some 0) = .ok ⟨⟨0, 0⟩, ⟨0, 20⟩, 20, 1⟩ ∧
    [88, 89].length + (13 + 4) ≤ 20 ∧
    ∃ i h1 f1 bs1, some 0 = some i ∧
      gse_copy_data ⟨64, 13, 4⟩ heap_shifted_view (some 0) [88, 89] = .ok (STATUS_OK, h1) ∧
      load_vfrag h1 (some 0) = .ok f1 ∧ f1.vbuf = some 0 ∧
      f1.start = ptr_add ⟨64, 13, 4⟩ ⟨0, 0⟩ 13 ∧
      f1.length = [88, 89].length ∧
      f1.end_ = ptr_add ⟨64, 13, 4⟩ f1.start [88, 89].length ∧
      h1.blocks[0]? = some (some bs1) ∧
      bs1.length = (List.replicate 13 0 ++ [65, 66, 67] ++ List.replicate 4 (0 : Byte)).length ∧
      (∀ j, j < [88, 89].length → bs1[f1.start.off + j]? = ([88, 89] : List Byte)[j]?) ∧
      (∀ j, j < f1.start.off ∨ f1.end_.off ≤ j →
        bs1[j]? = (List.replicate 13 0 ++ [65, 66, 67] ++ List.replicate 4 (0 : Byte))[j]?) ∧
      vfrag_bytes h1 (some 0) = some [88, 89] ∧
      h1.vbufs = heap_shifted_view.vbufs ∧
      (∀ b, b ≠ 0 → h1.blocks[b]? = heap_shifted_view.blocks[b]?) ∧
      (∀ j, j ≠ i → h1.vfrags[j]? = heap_shifted_view.vfrags[j]?) ∧
      f1.start.off = 0 + 13 ∧ f1.end_.off = f1.start.off + [88, 89].length :=
  ⟨rfl, rfl, by decide,
    copy_data_spec ⟨64, 13, 4⟩ heap_shifted_view (some 0) ⟨some 0, ⟨0, 15⟩, ⟨0, 16⟩, 1⟩
      ⟨⟨0, 0⟩, ⟨0, 20⟩, 20, 1⟩ (List.replicate 13 0 ++ [65, 66, 67] ++ List.replicate 4 0)
      [88, 89] rfl rfl rfl (by decide) rfl (by decide) (by decide) (by decide)⟩

theorem copy_data_assert_holds (c : Consts) (h : Heap) (vfrag : Option Nat) (f : vfrag_t)
    (vb : vbuf_t) (data : List Byte)
    (hf : load_vfrag h vfrag = .ok f) (hvb : load_vbuf h f.vbuf = .ok vb)
    (hend : vb.end_ = ptr_add c vb.start vb.length)
    (hsz : vb.start.off + vb.length < c.SIZE_MOD)
    (hmin : c.MAX_HEADER_LENGTH + c.CRC_LENGTH ≤ vb.length) :
    gse_copy_data c h vfrag data ≠ .error Fault.assert_failed ∧
    ∀ h1, gse_copy_data c h vfrag data = .ok (STATUS_OK, h1) →
      ∃ f1, load_vfrag h1 vfrag = .ok f1 ∧ load_vbuf h1 f1.vbuf = .ok vb ∧
        vb.start.off ≤ f1.start.off ∧ f1.start.off ≤ f1.end_.off ∧
        f1.end_.off + c.CRC_LENGTH ≤ vb.end_.off := by
  obtain ⟨i, rfl, hfi⟩ := (load_vfrag_ok_iff h vfrag f).1 hf
  have hilt := getElem?_lt_length hfi
  have hthr := size_sub_eq c vb.length (c.MAX_HEADER_LENGTH + c.CRC_LENGTH) hmin (by omega)
  have hendoff : vb.end_.off = vb.start.off + vb.length := by
    rw [hend]; exact ptr_add_off_of_lt c _ _ hsz
  rw [gse_copy_data_unfold c h i f vb data hfi hvb]
  by_cases hc : vb.vfrag_count > 1
  · simp [hc]
  by_cases ht : size_sub c vb.length (c.MAX_HEADER_LENGTH + c.CRC_LENGTH) < data.length
  · simp [hc, ht]
  have hle : data.length + (c.MAX_HEADER_LENGTH + c.CRC_LENGTH) ≤ vb.length := by omega
  have ho : (ptr_add c vb.start c.MAX_HEADER_LENGTH).off
      = vb.start.off + c.MAX_HEADER_LENGTH := ptr_add_off_of_lt c _ _ (by omega)
  have he : (ptr_add c (ptr_add c vb.start c.MAX_HEADER_LENGTH) data.length).off
      = (ptr_add c vb.start c.MAX_HEADER_LENGTH).off + data.length :=
    ptr_add_off_of_lt c _ _ (by omega)
  have hass : (ptr_add c (ptr_add c vb.start c.MAX_HEADER_LENGTH) data.length).off
      ≤ vb.end_.off := by omega
  simp only [hc, ht, ↓reduceIte, hass]
  cases hm : memcpy h (ptr_add c vb.start c.MAX_HEADER_LENGTH) data with
  | error e =>
    obtain ⟨bl, hbl⟩ : ∃ e', e = e' ∧ e' ≠ Fault.assert_failed := by
      unfold memcpy at hm
      split at hm
      · split at hm
        · cases hm
        · cases hm; exact ⟨_, rfl, by decide⟩
      · cases hm; exact ⟨_, rfl, by decide⟩
    simp only [ne_eq, Except.error.injEq, reduceCtorEq, not_false_eq_true, IsEmpty.forall_iff,
      implies_true, and_true]
    rw [hbl.1]
    exact hbl.2
  | ok hmem =>
    obtain ⟨bl, rfl⟩ := memcpy_ok h _ data hmem hm
    refine ⟨by simp, ?_⟩
    intro h1 h1eq
    simp only [Except.ok.injEq, Prod.mk.injEq, true_and] at h1eq
    subst h1eq
    refine ⟨⟨f.vbuf, ptr_add c vb.start c.MAX_HEADER_LENGTH,
      ptr_add c (ptr_add c vb.start c.MAX_HEADER_LENGTH) data.length, data.length⟩, ?_, ?_, ?_, ?_,
      ?_⟩
    · simp [load_vfrag, hilt]
    · exact hvb
    · simp only []; omega
    · simp only []; omega
    · simp only []; omega

theorem duplicate_vfrag_assert_holds (c : Consts) (h : Heap) (father : Option Nat) (fa : vfrag_t)
    (vb : vbuf_t) (length : Nat)
    (hfa : load_vfrag h father = .ok fa) (hvb : load_vbuf h fa.vbuf = .ok vb)
    (hle : fa.start.off ≤ fa.end_.off)
    (hin : fa.end_.off ≤ vb.end_.off) (hlen : fa.length = fa.end_.off - fa.start.off)
    (hrep : vb.end_.off < c.SIZE_MOD) :
    gse_duplicate_vfrag c h father length ≠ .error Fault.assert_failed ∧
    ∀ ch h1, gse_duplicate_vfrag c h father length = .ok (STATUS_OK, ch, h1) →
      ∃ child, load_vfrag h1 ch = .ok child ∧ child.start = fa.start ∧
        child.start.off ≤ child.end_.off ∧ child.end_.off ≤ fa.end_.off ∧
        fa.end_.off ≤ vb.end_.off := by
  obtain ⟨i, rfl, hfi⟩ := (load_vfrag_ok_iff h father fa).1 hfa
  obtain ⟨v, hv, hvi⟩ := (load_vbuf_ok_iff h fa.vbuf vb).1 hvb
  have hmin : min length fa.length ≤ fa.length := Nat.min_le_right _ _
  have hp : (ptr_add c fa.start (min length fa.length)).off
      = fa.start.off + min length fa.length := ptr_add_off_of_lt c _ _ (by omega)
  constructor
  · by_cases h0 : fa.length = 0
    · simp [gse_duplicate_vfrag, hfa, h0]
    by_cases hc : 2 ≤ vb.vfrag_count
    · simp [gse_duplicate_vfrag, hfa, h0, gse_get_vfrag_nbr, hvb, hc]
    by_cases ha : allocs_succeed h 1 = true
    · rw [gse_duplicate_vfrag_eq c h i v fa vb length hfi hv hvi h0 (by omega) ha (by omega)]
      simp
    · rw [gse_duplicate_vfrag_no_memory c h i v fa vb length hfi hv hvi h0 (by omega) ha]
      simp
  · intro ch h1 hd
    obtain ⟨j, fa1, v1, vb1, hj, hfj, _, hv1, hvb1, _, _, rfl, rfl⟩ :=
      gse_duplicate_vfrag_ok_inv c h (some i) length ch h1 hd
    cases hj
    rw [hfi] at hfj
    cases hfj
    refine ⟨_, (heap_after_duplicate_child c h fa v1 vb1 length hv1 hvb1).1, rfl, ?_, ?_,
      hin⟩
    · simp only []; omega
    · simp only []; omega

/-- C18: the assertions `end ≤ vbuf->end` of `gse_copy_data` and `gse_duplicate_vfrag`
hold.  On an allocation whose region has at least `MAX_HEADER_LENGTH + CRC_LENGTH`
bytes, `gse_copy_data` is never stopped by its assertion and every successful call
leaves `region.begin ≤ start ≤ end ≤ region.end - CRC_LENGTH`; on a father with
`start ≤ end ≤ region.end` and `length = end - start`, `gse_duplicate_vfrag` is never
stopped by its assertion and every successful call yields a child with
`father.start = child.start ≤ child.end ≤ father.end ≤ region.end`.  The region lies in
the address space: its end is below `2 ^ SIZE_BITS`. -/
theorem assertions_hold :
    (∀ (c : Consts) (h : Heap) (vfrag : Option Nat) (f : vfrag_t) (vb : vbuf_t)
        (data : List Byte),
      load_vfrag h vfrag = .ok f → load_vbuf h f.vbuf = .ok vb →
      vb.end_ = ptr_add c vb.start vb.length → vb.start.off + vb.length < c.SIZE_MOD →
      c.MAX_HEADER_LENGTH + c.CRC_LENGTH ≤ vb.length →
      gse_copy_data c h vfrag data ≠ .error Fault.assert_failed ∧
      ∀ h1, gse_copy_data c h vfrag data = .ok (STATUS_OK, h1) →
        ∃ f1, load_vfrag h1 vfrag = .ok f1 ∧ load_vbuf h1 f1.vbuf = .ok vb ∧
          vb.start.off ≤ f1.start.off ∧ f1.start.off ≤ f1.end_.off ∧
          f1.end_.off + c.CRC_LENGTH ≤ vb.end_.off) ∧
    (∀ (c : Consts) (h : Heap) (father : Option Nat) (fa : vfrag_t) (vb : vbuf_t)
        (length : Nat),
      load_vfrag h father = .ok fa → load_vbuf h fa.vbuf = .ok vb →
      vb.start.off ≤ fa.start.off → fa.start.off ≤ fa.end_.off →
      fa.end_.off ≤ vb.end_.off → fa.length = fa.end_.off - fa.start.off →
      vb.end_.off < c.SIZE_MOD →
      gse_duplicate_vfrag c h father length ≠ .error Fault.assert_failed ∧
      ∀ ch h1, gse_duplicate_vfrag c h father length = .ok (STATUS_OK, ch, h1) →
        ∃ child, load_vfrag h1 ch = .ok child ∧ child.start = fa.start ∧
          child.start.off ≤ child.end_.off ∧ child.end_.off ≤ fa.end_.off ∧
          fa.end_.off ≤ vb.end_.off) :=
  ⟨fun c h vfrag f vb data hf hvb hend hsz hmin =>
      copy_data_assert_holds c h vfrag f vb data hf hvb hend hsz hmin,
    fun c h father fa vb length hfa hvb _ hle hin hlen hrep =>
      duplicate_vfrag_assert_holds c h father fa vb length hfa hvb hle hin hlen hrep⟩

/-- C18, at concrete inputs: a copy of two bytes into the view of `heap_one_view`, and a
duplication of its first two bytes. -/
theorem assertions_hold_witness :
    (gse_copy_data ⟨64, 13, 4⟩ heap_one_view (some 0) [88, 89] ≠ .error Fault.assert_failed ∧
      ∀ h1, gse_copy_data ⟨64, 13, 4⟩ heap_one_view (some 0) [88, 89] = .ok (STATUS_OK, h1) →
        ∃ f1, load_vfrag h1 (some 0) = .ok f1 ∧
          load_vbuf h1 f1.vbuf = .ok ⟨⟨0, 0⟩, ⟨0, 20⟩, 20, 1⟩ ∧
          0 ≤ f1.start.off ∧ f1.start.off ≤ f1.end_.off ∧ f1.end_.off + 4 ≤ 20) ∧
    (gse_duplicate_vfrag ⟨64, 13, 4⟩ heap_one_view (some 0) 2 ≠ .error Fault.assert_failed ∧
      ∀ ch h1, gse_duplicate_vfrag ⟨64, 13, 4⟩ heap_one_view (some 0) 2
          = .ok (STATUS_OK, ch, h1) →
        ∃ child, load_vfrag h1 ch = .ok child ∧ child.start = ⟨0, 13⟩ ∧
          child.start.off ≤ child.end_.off ∧ child.end_.off ≤ 16 ∧ 16 ≤ 20) :=
  ⟨assertions_hold.1 ⟨64, 13, 4⟩ heap_one_view (some 0) ⟨some 0, ⟨0, 13⟩, ⟨0, 16⟩, 3⟩
      ⟨⟨0, 0⟩, ⟨0, 20⟩, 20, 1⟩ [88, 89] rfl rfl rfl (by decide) (by decide),
    assertions_hold.2 ⟨64, 13, 4⟩ heap_one_view (some 0) ⟨some 0, ⟨0, 13⟩, ⟨0, 16⟩, 3⟩
      ⟨⟨0, 0⟩, ⟨0, 20⟩, 20, 1⟩ 2 rfl rfl (by decide) (by decide) (by decide) rfl
      (by decide)⟩

/-- What `gse_create_vfrag` does when one of its three allocations fails. -/
theorem gse_create_vfrag_failure (c : Consts) (h : Heap) (max_length : Nat) :
    (h.fail_at = some 0 →
      gse_create_vfrag c h max_length
        = .ok (ERR_MALLOC_FAILED, none, { h with fail_at := none })) ∧
    (h.fail_at = some 1 →
      gse_create_vfrag c h max_length
        = .ok (ERR_MALLOC_FAILED, none, heap_after_region_failure h)) ∧
    (h.fail_at = some 2 →
      gse_create_vfrag c h max_length
        = .ok (ERR_MALLOC_FAILED, none,
            heap_after_view_failure h (length_buf c max_length))) := by
  refine ⟨?_, ?_, ?_⟩ <;> intro hf <;>
    simp [gse_create_vfrag, gse_create_vbuf, malloc_vbuf, malloc_bytes, malloc_vfrag,
      malloc_outcome, hf, gse_shift_pointer_fields, fields_start, fields_end, modify_vbuf,
      ← length_buf.eq_1, ptr_add_length_buf, heap_after_region_failure,
      heap_after_view_failure]

theorem live_objects_append (h : Heap) :
    live_objects (heap_after_region_failure h) = live_objects h + 1 ∧
    ∀ n, live_objects (heap_after_view_failure h n) = live_objects h + 2 := by
  constructor
  · simp [live_objects, heap_after_region_failure]
    omega
  · intro n
    simp [live_objects, heap_after_view_failure]
    omega

/-- C13: when one of its allocations fails `gse_create_vfrag` returns `ERR_MALLOC_FAILED`
and a null view; but when the region cannot be allocated the `vbuf_t` record stays
allocated, and when the view record cannot be allocated the `vbuf_t` record and its
region stay allocated: one, respectively two, more objects are live on return. -/
theorem create_vfrag_failure_leaks (c : Consts) (h : Heap) (max_length : Nat) :
    (h.fail_at = some 0 →
      ∃ h1, gse_create_vfrag c h max_length = .ok (ERR_MALLOC_FAILED, none, h1) ∧
        live_objects h1 = live_objects h) ∧
    (h.fail_at = some 1 →
      ∃ h1, gse_create_vfrag c h max_length = .ok (ERR_MALLOC_FAILED, none, h1) ∧
        h1.vbufs = h.vbufs ++ [some vbuf_uninit] ∧
        live_objects h1 = live_objects h + 1) ∧
    (h.fail_at = some 2 →
      ∃ h1 vb bs, gse_create_vfrag c h max_length = .ok (ERR_MALLOC_FAILED, none, h1) ∧
        h1.vbufs = h.vbufs ++ [some vb] ∧ h1.blocks = h.blocks ++ [some bs] ∧
        h1.vfrags = h.vfrags ∧
        live_objects h1 = live_objects h + 2) := by
  obtain ⟨h0, h1, h2⟩ := gse_create_vfrag_failure c h max_length
  refine ⟨fun hf => ⟨_, h0 hf, rfl⟩,
    fun hf => ⟨_, h1 hf, rfl, (live_objects_append h).1⟩,
    fun hf => ⟨_, _, _, h2 hf, rfl, rfl, rfl, (live_objects_append h).2 _⟩⟩

/-- C13, at concrete inputs: capacity 3 on the empty heap, with the first, the second and
the third allocation failing. -/
theorem create_vfrag_failure_leaks_witness :
    (∃ h1, gse_create_vfrag ⟨64, 13, 4⟩ { Heap.empty with fail_at := some 0 } 3
        = .ok (ERR_MALLOC_FAILED, none, h1) ∧
      live_objects h1 = 0) ∧
    (∃ h1, gse_create_vfrag ⟨64, 13, 4⟩ { Heap.empty with fail_at := some 1 } 3
        = .ok (ERR_MALLOC_FAILED, none, h1) ∧
      h1.vbufs = [] ++ [some vbuf_uninit] ∧
      live_objects h1 = 0 + 1) ∧
    (∃ h1 vb bs, gse_create_vfrag ⟨64, 13, 4⟩ { Heap.empty with fail_at := some 2 } 3
        = .ok (ERR_MALLOC_FAILED, none, h1) ∧
      h1.vbufs = [] ++ [some vb] ∧ h1.blocks = [] ++ [some bs] ∧ h1.vfrags = [] ∧
      live_objects h1 = 0 + 2) :=
  ⟨(create_vfrag_failure_leaks ⟨64, 13, 4⟩ { Heap.empty with fail_at := some 0 } 3).1 rfl,
   (create_vfrag_failure_leaks ⟨64, 13, 4⟩ { Heap.empty with fail_at := some 1 } 3).2.1 rfl,
   (create_vfrag_failure_leaks ⟨64, 13, 4⟩ { Heap.empty with fail_at := some 2 } 3).2.2 rfl⟩

/-- C14: whenever one of the three allocations of the inner `gse_create_vfrag` fails,
`gse_create_vfrag_with_data` passes the null view it got back to `gse_free_vfrag`, whose
first step `gse_get_vfrag_nbr` dereferences it: the call has no defined result and the
failure is not reported to the caller. -/
theorem create_vfrag_with_data_null_deref (c : Consts) (h : Heap) (max_length : Nat)
    (data : List Byte) (ha : allocs_succeed h 3 = false) :
    (∃ h1, gse_create_vfrag c h max_length = .ok (ERR_MALLOC_FAILED, none, h1) ∧
      gse_get_vfrag_nbr h1 none = .error Fault.null_deref ∧
      gse_free_vfrag h1 none = .error Fault.null_deref) ∧
    gse_create_vfrag_with_data c h max_length data = .error Fault.null_deref := by
  obtain ⟨h0, h1, h2⟩ := gse_create_vfrag_failure c h max_length
  have hk : h.fail_at = some 0 ∨ h.fail_at = some 1 ∨ h.fail_at = some 2 := by
    unfold allocs_succeed at ha
    cases hf : h.fail_at with
    | none => simp [hf] at ha
    | some k =>
      simp [hf] at ha
      simp
      omega
  have hnull : ∀ h' : Heap, gse_get_vfrag_nbr h' none = .error Fault.null_deref ∧
      gse_free_vfrag h' none = .error Fault.null_deref := by
    intro h'
    simp [gse_free_vfrag, gse_get_vfrag_nbr, load_vfrag]
  rcases hk with hf | hf | hf
  · exact ⟨⟨_, h0 hf, hnull _⟩, by simp [gse_create_vfrag_with_data, h0 hf, (hnull _).2]⟩
  · exact ⟨⟨_, h1 hf, hnull _⟩, by simp [gse_create_vfrag_with_data, h1 hf, (hnull _).2]⟩
  · exact ⟨⟨_, h2 hf, hnull _⟩, by simp [gse_create_vfrag_with_data, h2 hf, (hnull _).2]⟩

/-- C14, at a concrete input: the first allocation fails on the empty heap. -/
theorem create_vfrag_with_data_null_deref_witness :
    allocs_succeed { Heap.empty with fail_at := some 0 } 3 = false ∧
    gse_create_vfrag_with_data ⟨64, 13, 4⟩ { Heap.empty with fail_at := some 0 } 3 [65, 66, 67]
      = .error Fault.null_deref :=
  ⟨rfl, (create_vfrag_with_data_null_deref ⟨64, 13, 4⟩ { Heap.empty with fail_at := some 0 }
    3 [65, 66, 67] rfl).2⟩

/-- C17: with a 64-bit `size_t`, `MAX_HEADER_LENGTH = 13` and `CRC_LENGTH = 4`,
`gse_create_vfrag` with capacity `2 ^ 64 - 1` returns a view over a region of 16 bytes;
4 bytes of data pass both tests of `gse_copy_data` (one view, and `16 - 17` is
`2 ^ 64 - 1` in `size_t`), the end of the written range is offset 17, past the end of
the region at offset 16, and the copy leaves the region. -/
theorem copy_data_overruns_wrapped_region :
    ∃ h1, gse_create_vfrag ⟨64, 13, 4⟩ Heap.empty (2 ^ 64 - 1) = .ok (STATUS_OK, some 0, h1) ∧
      load_vfrag h1 (some 0) = .ok ⟨some 0, ⟨0, 13⟩, ⟨0, 13⟩, 0⟩ ∧
      load_vbuf h1 (some 0) = .ok ⟨⟨0, 0⟩, ⟨0, 16⟩, 16, 1⟩ ∧
      h1.blocks = [some (List.replicate 16 0)] ∧
      gse_get_vfrag_nbr h1 (some 0) = .ok 1 ∧
      size_sub ⟨64, 13, 4⟩ 16 (13 + 4) = 2 ^ 64 - 1 ∧
      ¬ (size_sub ⟨64, 13, 4⟩ 16 (13 + 4) < [65, 66, 67, 68].length) ∧
      (ptr_add ⟨64, 13, 4⟩ (ptr_add ⟨64, 13, 4⟩ ⟨0, 0⟩ 13) [65, 66, 67, 68].length).off
        = 17 ∧
      gse_copy_data ⟨64, 13, 4⟩ h1 (some 0) [65, 66, 67, 68] = .error Fault.out_of_bounds :=
  ⟨_, rfl, rfl, rfl, rfl, rfl, by decide, by decide, rfl, rfl⟩

theorem views_of_two (h : Heap) (a b v : Nat) (fa fb : vfrag_t) (hab : a ≠ b)
    (hfa : h.vfrags[a]? = some (some fa)) (hfb : h.vfrags[b]? = some (some fb))
    (hva : fa.vbuf = some v) (hvb : fb.vbuf = some v) : 2 ≤ views_of h v := by
  have hset := countP_set_getElem? (refers v) h.vfrags a none (some fa) hfa
  simp only [refers_some, refers_none, hva, beq_self_eq_true, ↓reduceIte] at hset
  have hpos : 0 < (h.vfrags.set a none).countP (refers v) := by
    rw [List.countP_pos_iff]
    refine ⟨some fb, ?_, by simp [refers_some, hvb]⟩
    rw [List.mem_iff_getElem?]
    exact ⟨b, by rw [List.getElem?_set_ne hab]; exact hfb⟩
  unfold views_of
  simp at hset
  omega

theorem vfrag_bytes_congr (h h1 : Heap) (p : Option Nat)
    (hl : load_vfrag h1 p = load_vfrag h p) (hb : h1.blocks = h.blocks) :
    vfrag_bytes h1 p = vfrag_bytes h p := by
  unfold vfrag_bytes
  rw [hl, hb]

/-- C19: for two distinct live views of one backing allocation whose counter is the
number of its live views, `gse_shift_vfrag` on one of them, for any shifts, and
`gse_free_vfrag` of one of them, which succeeds, leave the record of the other (start,
end, length) and all region bytes unchanged, hence also the bytes visible through it. -/
theorem sibling_unchanged (c : Consts) (h : Heap) (a b v : Nat) (fa fb : vfrag_t)
    (vb : vbuf_t) (hab : a ≠ b)
    (hfa : load_vfrag h (some a) = .ok fa) (hfb : load_vfrag h (some b) = .ok fb)
    (hva : fa.vbuf = some v) (hvb : fb.vbuf = some v)
    (hv : load_vbuf h (some v) = .ok vb) (hcount : vb.vfrag_count = (views_of h v : Int)) :
    (∀ start_shift end_shift, ∃ h1,
      gse_shift_vfrag c h (some a) start_shift end_shift = .ok (STATUS_OK, h1) ∧
      load_vfrag h1 (some b) = .ok fb ∧ h1.blocks = h.blocks ∧
      vfrag_bytes h1 (some b) = vfrag_bytes h (some b)) ∧
    (∃ h1, gse_free_vfrag h (some a) = .ok (STATUS_OK, h1) ∧
      load_vfrag h1 (some b) = .ok fb ∧ h1.blocks = h.blocks ∧
      vfrag_bytes h1 (some b) = vfrag_bytes h (some b)) := by
  obtain ⟨_, ha1, hfa1⟩ := (load_vfrag_ok_iff h _ fa).1 hfa
  obtain ⟨_, hb1, hfb1⟩ := (load_vfrag_ok_iff h _ fb).1 hfb
  obtain ⟨_, hv1, hvi⟩ := (load_vbuf_ok_iff h _ vb).1 hv
  cases ha1; cases hb1; cases hv1
  have htwo := views_of_two h a b v fa fb hab hfa1 hfb1 hva hvb
  constructor
  · intro s e
    have hl : load_vfrag { h with vfrags := h.vfrags.set a (some
        ⟨fa.vbuf, ptr_add c fa.start s, ptr_add c fa.end_ e,
          size_sub c (ptr_add c fa.end_ e).off (ptr_add c fa.start s).off⟩) } (some b)
        = load_vfrag h (some b) := by
      simp [load_vfrag, List.getElem?_set_ne hab]
    refine ⟨{ h with vfrags := h.vfrags.set a (some
        ⟨fa.vbuf, ptr_add c fa.start s, ptr_add c fa.end_ e,
          size_sub c (ptr_add c fa.end_ e).off (ptr_add c fa.start s).off⟩) },
      ?_, ?_, rfl, vfrag_bytes_congr h _ (some b) hl rfl⟩
    · simp [gse_shift_vfrag, modify_vfrag, hfa1]
    · rw [hl, hfb]
  · have hl : load_vfrag { h with
          vbufs := h.vbufs.set v (some { vb with vfrag_count := vb.vfrag_count - 1 }),
          vfrags := h.vfrags.set a none } (some b)
        = load_vfrag h (some b) := by
      simp [load_vfrag, List.getElem?_set_ne hab]
    refine ⟨{ h with
        vbufs := h.vbufs.set v (some { vb with vfrag_count := vb.vfrag_count - 1 }),
        vfrags := h.vfrags.set a none },
      gse_free_vfrag_shared h a v fa vb hfa1 hva hvi (by omega), ?_, rfl,
      vfrag_bytes_congr h _ (some b) hl rfl⟩
    rw [hl, hfb]

/-- C19, at a concrete input: the two views of `heap_two_views`. -/
theorem sibling_unchanged_witness :
    (0 : Nat) ≠ 1 ∧
    load_vfrag heap_two_views (some 0) = .ok ⟨some 0, ⟨0, 13⟩, ⟨0, 16⟩, 3⟩ ∧
    load_vfrag heap_two_views (some 1) = .ok ⟨some 0, ⟨0, 13⟩, ⟨0, 15⟩, 2⟩ ∧
    load_vbuf heap_two_views (some 0) = .ok ⟨⟨0, 0⟩, ⟨0, 20⟩, 20, 2⟩ ∧
    (2 : Int) = (views_of heap_two_views 0 : Int) ∧
    (∀ start_shift end_shift, ∃ h1,
      gse_shift_vfrag ⟨64, 13, 4⟩ heap_two_views (some 0) start_shift end_shift
        = .ok (STATUS_OK, h1) ∧
      load_vfrag h1 (some 1) = .ok ⟨some 0, ⟨0, 13⟩, ⟨0, 15⟩, 2⟩ ∧
      h1.blocks = heap_two_views.blocks ∧
      vfrag_bytes h1 (some 1) = vfrag_bytes heap_two_views (some 1)) ∧
    (∃ h1, gse_free_vfrag heap_two_views (some 0) = .ok (STATUS_OK, h1) ∧
      load_vfrag h1 (some 1) = .ok ⟨some 0, ⟨0, 13⟩, ⟨0, 15⟩, 2⟩ ∧
      h1.blocks = heap_two_views.blocks ∧
      vfrag_bytes h1 (some 1) = vfrag_bytes heap_two_views (some 1)) :=
  ⟨by decide, rfl, rfl, rfl, by decide,
    sibling_unchanged ⟨64, 13, 4⟩ heap_two_views 0 1 0 ⟨some 0, ⟨0, 13⟩, ⟨0, 16⟩, 3⟩
      ⟨some 0, ⟨0, 13⟩, ⟨0, 15⟩, 2⟩ ⟨⟨0, 0⟩, ⟨0, 20⟩, 20, 2⟩ (by decide) rfl rfl rfl rfl rfl
      (by decide)⟩

theorem gse_create_vbuf_no_fault (c : Consts) (h : Heap) (length : Nat) (e : Fault) :
    gse_create_vbuf c h length ≠ .error e := by
  cases hf : h.fail_at with
  | none =>
    simp [gse_create_vbuf, malloc_vbuf, malloc_bytes, malloc_outcome, hf,
      gse_shift_pointer_fields, fields_start, fields_end, modify_vbuf]
  | some k =>
    match k with
    | 0 => simp [gse_create_vbuf, malloc_vbuf, malloc_outcome, hf]
    | 1 => simp [gse_create_vbuf, malloc_vbuf, malloc_bytes, malloc_outcome, hf]
    | k + 2 =>
      simp [gse_create_vbuf, malloc_vbuf, malloc_bytes, malloc_outcome, hf,
        gse_shift_pointer_fields, fields_start, fields_end, modify_vbuf]

theorem gse_create_vfrag_status (c : Consts) (h : Heap) (max_length : Nat) (st : status_t)
    (p : Option Nat) (h1 : Heap) (hs : gse_create_vfrag c h max_length = .ok (st, p, h1)) :
    (st = STATUS_OK ∧ p = some h.vfrags.length) ∨ (st = ERR_MALLOC_FAILED ∧ p = none) := by
  by_cases ha : allocs_succeed h 3 = true
  · rw [gse_create_vfrag_eq c h max_length ha] at hs
    simp only [Except.ok.injEq, Prod.mk.injEq] at hs
    exact Or.inl ⟨hs.1.symm, hs.2.1.symm⟩
  · obtain ⟨h0, h1', h2⟩ := gse_create_vfrag_failure c h max_length
    have hk : h.fail_at = some 0 ∨ h.fail_at = some 1 ∨ h.fail_at = some 2 := by
      unfold allocs_succeed at ha
      cases hf : h.fail_at with
      | none => simp [hf] at ha
      | some k =>
        simp [hf] at ha
        simp
        omega
    rcases hk with hf | hf | hf
    · rw [h0 hf] at hs
      simp only [Except.ok.injEq, Prod.mk.injEq] at hs
      exact Or.inr ⟨hs.1.symm, hs.2.1.symm⟩
    · rw [h1' hf] at hs
      simp only [Except.ok.injEq, Prod.mk.injEq] at hs
      exact Or.inr ⟨hs.1.symm, hs.2.1.symm⟩
    · rw [h2 hf] at hs
      simp only [Except.ok.injEq, Prod.mk.injEq] at hs
      exact Or.inr ⟨hs.1.symm, hs.2.1.symm⟩

theorem gse_copy_data_status (c : Consts) (h : Heap) (vfrag : Option Nat) (data : List Byte)
    (st : status_t) (h1 : Heap) (hs : gse_copy_data c h vfrag data = .ok (st, h1)) :
    st = STATUS_OK ∨
    ((st = ERR_MULTIPLE_VBUF_ACCESS ∨ st = ERR_DATA_TOO_LONG) ∧ h1 = h) := by
  cases hl : load_vfrag h vfrag with
  | error e => simp [gse_copy_data, gse_get_vfrag_nbr, hl] at hs
  | ok f =>
    obtain ⟨i, rfl, hfi⟩ := (load_vfrag_ok_iff h vfrag f).1 hl
    cases hlv : load_vbuf h f.vbuf with
    | error e => simp [gse_copy_data, gse_get_vfrag_nbr, hl, hlv] at hs
    | ok vb =>
      rw [gse_copy_data_unfold c h i f vb data hfi hlv] at hs
      split at hs
      · simp only [Except.ok.injEq, Prod.mk.injEq] at hs
        exact Or.inr ⟨Or.inl hs.1.symm, hs.2.symm⟩
      · split at hs
        · simp only [Except.ok.injEq, Prod.mk.injEq] at hs
          exact Or.inr ⟨Or.inr hs.1.symm, hs.2.symm⟩
        · split at hs
          · cases hs
          · split at hs
            · simp only [Except.ok.injEq, Prod.mk.injEq] at hs
              exact Or.inl hs.1.symm
            · cases hs

theorem gse_duplicate_vfrag_status (c : Consts) (h : Heap) (father : Option Nat) (length : Nat)
    (st : status_t) (ch : Option Nat) (h1 : Heap)
    (hs : gse_duplicate_vfrag c h father length = .ok (st, ch, h1)) :
    (st = STATUS_OK ∧ ch = some h.vfrags.length) ∨
    ((st = EMPTY_FRAG ∨ st = ERR_FRAG_NBR) ∧ ch = none ∧ h1 = h) ∨
    (st = ERR_MALLOC_FAILED ∧ ch = none ∧ h1.vfrags = h.vfrags) := by
  cases hl : load_vfrag h father with
  | error e => simp [gse_duplicate_vfrag, hl] at hs
  | ok fa =>
    obtain ⟨i, rfl, hfa⟩ := (load_vfrag_ok_iff h father fa).1 hl
    by_cases hlen : fa.length = 0
    · simp [gse_duplicate_vfrag, hl, hlen] at hs
      exact Or.inr (Or.inl ⟨Or.inl hs.1.symm, hs.2.1.symm, hs.2.2.symm⟩)
    cases hlv : load_vbuf h fa.vbuf with
    | error e => simp [gse_duplicate_vfrag, hl, hlen, gse_get_vfrag_nbr, hlv] at hs
    | ok vb =>
      obtain ⟨v, hv, hvb⟩ := (load_vbuf_ok_iff h fa.vbuf vb).1 hlv
      by_cases hcount : 2 ≤ vb.vfrag_count
      · simp [gse_duplicate_vfrag, hl, hlen, gse_get_vfrag_nbr, hlv, hcount] at hs
        exact Or.inr (Or.inl ⟨Or.inr hs.1.symm, hs.2.1.symm, hs.2.2.symm⟩)
      by_cases ha : allocs_succeed h 1 = true
      · by_cases hend : (ptr_add c fa.start (min length fa.length)).off ≤ vb.end_.off
        · rw [gse_duplicate_vfrag_eq c h i v fa vb length hfa hv hvb hlen (by omega) ha hend] at hs
          simp only [Except.ok.injEq, Prod.mk.injEq] at hs
          exact Or.inl ⟨hs.1.symm, hs.2.1.symm⟩
        · rw [gse_duplicate_vfrag_assert c h i v fa vb length hfa hv hvb hlen (by omega) ha
            hend] at hs
          cases hs
      · have hf : h.fail_at = some 0 := by
          unfold allocs_succeed at ha
          cases hfa0 : h.fail_at with
          | none => simp [hfa0] at ha
          | some k =>
            simp [hfa0] at ha
            simp; omega
        simp [gse_duplicate_vfrag, load_vfrag, hfa, hlen, gse_get_vfrag_nbr, load_vbuf, hv,
          hvb, hcount, malloc_vfrag, malloc_outcome, hf] at hs
        refine Or.inr (Or.inr ⟨hs.1.symm, hs.2.1.symm, ?_⟩)
        rw [← hs.2.2]

/-- C20, as amended: `gse_shift_pointer` returns `STATUS_OK` for every input, whatever
the two cells, aliased or not; the cell `*pointer` then holds `*origin + shift` (pointer
addition: same block, offset modulo `2 ^ SIZE_BITS`), every other cell is as it was,
and so is `*origin` when `pointer` and `origin` are different cells.  The test
`status != STATUS_OK` that follows each of its calls is therefore false, and none of the
four callers ever returns what its branch would produce: `gse_create_vbuf` never ends in
the invalid `free` of that branch; `gse_create_vfrag` never returns a status other than
`STATUS_OK` together with a view; `gse_copy_data` returns a status other than
`STATUS_OK` only from its two guards, with the heap untouched; `gse_duplicate_vfrag`
returns a status other than `STATUS_OK` only from its guards, never with a child record
left in the heap. -/
theorem shift_pointer_always_ok :
    (∀ (κ : Type) [DecidableEq κ] (c : Consts) (mem : κ → Ptr) (pointer origin : κ)
        (shift : Nat),
      (gse_shift_pointer c mem pointer origin shift).1 = STATUS_OK ∧
      ¬ ((gse_shift_pointer c mem pointer origin shift).1 ≠ STATUS_OK) ∧
      (gse_shift_pointer c mem pointer origin shift).2 pointer
        = ptr_add c (mem origin) shift ∧
      ((gse_shift_pointer c mem pointer origin shift).2 pointer).blk = (mem origin).blk ∧
      ((gse_shift_pointer c mem pointer origin shift).2 pointer).off
        = ((mem origin).off + shift) % c.SIZE_MOD ∧
      (∀ k, k ≠ pointer → (gse_shift_pointer c mem pointer origin shift).2 k = mem k) ∧
      (pointer ≠ origin →
        (gse_shift_pointer c mem pointer origin shift).2 origin = mem origin)) ∧
    (∀ (c : Consts) (h : Heap) (length : Nat) (e : Fault),
      gse_create_vbuf c h length ≠ .error e) ∧
    (∀ (c : Consts) (h : Heap) (max_length : Nat) (st : status_t) (p : Option Nat) (h1 : Heap),
      gse_create_vfrag c h max_length = .ok (st, p, h1) →
      (st = STATUS_OK ∧ p = some h.vfrags.length) ∨ (st = ERR_MALLOC_FAILED ∧ p = none)) ∧
    (∀ (c : Consts) (h : Heap) (vfrag : Option Nat) (data : List Byte) (st : status_t)
        (h1 : Heap),
      gse_copy_data c h vfrag data = .ok (st, h1) →
      st = STATUS_OK ∨
      ((st = ERR_MULTIPLE_VBUF_ACCESS ∨ st = ERR_DATA_TOO_LONG) ∧ h1 = h)) ∧
    (∀ (c : Consts) (h : Heap) (father : Option Nat) (length : Nat) (st : status_t)
        (ch : Option Nat) (h1 : Heap),
      gse_duplicate_vfrag c h father length = .ok (st, ch, h1) →
      (st = STATUS_OK ∧ ch = some h.vfrags.length) ∨
      ((st = EMPTY_FRAG ∨ st = ERR_FRAG_NBR) ∧ ch = none ∧ h1 = h) ∨
      (st = ERR_MALLOC_FAILED ∧ ch = none ∧ h1.vfrags = h.vfrags)) := by
  refine ⟨?_, gse_create_vbuf_no_fault, gse_create_vfrag_status, gse_copy_data_status,
    gse_duplicate_vfrag_status⟩
  intro κ _ c mem pointer origin shift
  refine ⟨rfl, fun hne => hne rfl, ?_, ?_, ?_, ?_, ?_⟩
  · simp [gse_shift_pointer]
  · simp [gse_shift_pointer, ptr_add]
  · simp [gse_shift_pointer, ptr_add]
  · intro k hk
    simp [gse_shift_pointer, hk]
  · intro hne
    simp [gse_shift_pointer, Ne.symm hne]

/-- C20, at concrete inputs: the call `gse_shift_pointer(&end, &start, SIZE_MAX)` on a
record whose `start` is at offset 13 leaves `end` at offset 12 and `start` at offset 13;
and the four callers on small heaps. -/
theorem shift_pointer_always_ok_witness :
    (gse_shift_pointer ⟨64, 13, 4⟩ (fields ⟨0, 13⟩ ⟨0, 16⟩) .end_ .start (2 ^ 64 - 1)).1
      = STATUS_OK ∧
    (gse_shift_pointer ⟨64, 13, 4⟩ (fields ⟨0, 13⟩ ⟨0, 16⟩) .end_ .start (2 ^ 64 - 1)).2 .end_
      = ⟨0, 12⟩ ∧
    (field_t.end_ ≠ field_t.start →
      (gse_shift_pointer ⟨64, 13, 4⟩ (fields ⟨0, 13⟩ ⟨0, 16⟩) .end_ .start (2 ^ 64 - 1)).2
        .start = fields ⟨0, 13⟩ ⟨0, 16⟩ .start) ∧
    gse_create_vfrag ⟨64, 13, 4⟩ Heap.empty 3
      = .ok (STATUS_OK, some 0, heap_after_create_vfrag ⟨64, 13, 4⟩ Heap.empty 3) ∧
    gse_copy_data ⟨64, 13, 4⟩ heap_one_view (some 0) [65, 66, 67, 68]
      = .ok (ERR_DATA_TOO_LONG, heap_one_view) ∧
    gse_duplicate_vfrag ⟨64, 13, 4⟩ heap_two_views (some 0) 5
      = .ok (ERR_FRAG_NBR, none, heap_two_views) ∧
    ((STATUS_OK = STATUS_OK ∧ some 0 = some Heap.empty.vfrags.length) ∨
      (STATUS_OK = ERR_MALLOC_FAILED ∧ some 0 = (none : Option Nat))) ∧
    (ERR_DATA_TOO_LONG = STATUS_OK ∨
      ((ERR_DATA_TOO_LONG = ERR_MULTIPLE_VBUF_ACCESS ∨ ERR_DATA_TOO_LONG = ERR_DATA_TOO_LONG) ∧
        heap_one_view = heap_one_view)) ∧
    ((ERR_FRAG_NBR = STATUS_OK ∧ (none : Option Nat) = some heap_two_views.vfrags.length) ∨
      ((ERR_FRAG_NBR = EMPTY_FRAG ∨ ERR_FRAG_NBR = ERR_FRAG_NBR) ∧ (none : Option Nat) = none ∧
        heap_two_views = heap_two_views) ∨
      (ERR_FRAG_NBR = ERR_MALLOC_FAILED ∧ (none : Option Nat) = none ∧
        heap_two_views.vfrags = heap_two_views.vfrags)) :=
  ⟨(shift_pointer_always_ok.1 field_t ⟨64, 13, 4⟩ (fields ⟨0, 13⟩ ⟨0, 16⟩) .end_ .start
      (2 ^ 64 - 1)).1,
    by decide,
    (shift_pointer_always_ok.1 field_t ⟨64, 13, 4⟩ (fields ⟨0, 13⟩ ⟨0, 16⟩) .end_ .start
      (2 ^ 64 - 1)).2.2.2.2.2.2,
    rfl, rfl, rfl,
    shift_pointer_always_ok.2.2.1 ⟨64, 13, 4⟩ Heap.empty 3 STATUS_OK (some 0)
      (heap_after_create_vfrag ⟨64, 13, 4⟩ Heap.empty 3) rfl,
    shift_pointer_always_ok.2.2.2.1 ⟨64, 13, 4⟩ heap_one_view (some 0) [65, 66, 67, 68]
      ERR_DATA_TOO_LONG heap_one_view rfl,
    shift_pointer_always_ok.2.2.2.2 ⟨64, 13, 4⟩ heap_two_views (some 0) 5 ERR_FRAG_NBR none
      heap_two_views rfl⟩

/-- C20 as stated fails: in the call `gse_shift_pointer(&start, &start, 5)`, where
`pointer` and `origin` are the same cell, the cell holds offset 13 before the call and
offset 18 after it, so `*origin` has been modified. -/
theorem shift_pointer_aliased :
    fields ⟨0, 13⟩ ⟨0, 16⟩ .start = ⟨0, 13⟩ ∧
    (gse_shift_pointer ⟨64, 13, 4⟩ (fields ⟨0, 13⟩ ⟨0, 16⟩) .start .start 5).1 = STATUS_OK ∧
    (gse_shift_pointer ⟨64, 13, 4⟩ (fields ⟨0, 13⟩ ⟨0, 16⟩) .start .start 5).2 .start
      = ⟨0, 18⟩ ∧
    (gse_shift_pointer ⟨64, 13, 4⟩ (fields ⟨0, 13⟩ ⟨0, 16⟩) .start .start 5).2 .start
      ≠ fields ⟨0, 13⟩ ⟨0, 16⟩ .start :=
  ⟨rfl, rfl, by decide, by decide⟩

theorem view_in_bounds_congr (vb vb1 : vbuf_t) (f : vfrag_t) (hs : vb1.start = vb.start)
    (he : vb1.end_ = vb.end_) (hb : view_in_bounds vb f) : view_in_bounds vb1 f := by
  unfold view_in_bounds at *
  rw [hs, he]
  exact hb

/-- A heap whose live allocations have the regions they had, or are new, and whose live
views are those of before, or are in the bounds of a well-formed allocation, keeps the
bounds invariant. -/
theorem bounds_inv_of_step (c : Consts) (h h1 : Heap)
    (hv : ∀ (v : Nat) (vb1 : vbuf_t), h1.vbufs[v]? = some (some vb1) →
      (∃ vb, h.vbufs[v]? = some (some vb) ∧ vb1.start = vb.start ∧ vb1.end_ = vb.end_ ∧
        vb1.length = vb.length) ∨
      (∀ vb, h.vbufs[v]? ≠ some (some vb)))
    (hf : ∀ (i : Nat) (f : vfrag_t), h1.vfrags[i]? = some (some f) →
      h.vfrags[i]? = some (some f) ∨
      (∀ (v : Nat) (vb1 : vbuf_t), f.vbuf = some v → h1.vbufs[v]? = some (some vb1) →
        view_in_bounds vb1 f ∧ region_ok c vb1))
    (hown : ∀ (i : Nat) (f : vfrag_t), h.vfrags[i]? = some (some f) →
      ∃ v vb, f.vbuf = some v ∧ h.vbufs[v]? = some (some vb))
    (hinv : bounds_inv c h) : bounds_inv c h1 := by
  constructor
  intro i f v vb1 hfi hfv hvb1
  rcases hf i f hfi with hold | hnew
  · obtain ⟨w, wb, hw, hwb⟩ := hown i f hold
    rw [hfv] at hw
    cases hw
    rcases hv v vb1 hvb1 with ⟨vb, hvb, hs, he, hl⟩ | hnone
    · obtain ⟨hin, hreg⟩ := hinv.view_ok i f v vb hold hfv hvb
      refine ⟨view_in_bounds_congr vb vb1 f hs he hin, ?_⟩
      unfold region_ok at *
      rw [hs, he, hl]
      exact hreg
    · exact absurd hwb (hnone wb)
  · exact hnew v vb1 hfv hvb1

theorem bounds_inv_empty (c : Consts) : bounds_inv c Heap.empty := by
  constructor
  intro i f v vb hf
  simp [Heap.empty] at hf

theorem same_vbufs_step (h : Heap) (vbufs : List (Option vbuf_t))
    (hsame : vbufs = h.vbufs) :
    ∀ (v : Nat) (vb1 : vbuf_t), vbufs[v]? = some (some vb1) →
      (∃ vb, h.vbufs[v]? = some (some vb) ∧ vb1.start = vb.start ∧ vb1.end_ = vb.end_ ∧
        vb1.length = vb.length) ∨
      (∀ vb, h.vbufs[v]? ≠ some (some vb)) := by
  intro v vb1 hvb1
  rw [hsame] at hvb1
  exact Or.inl ⟨vb1, hvb1, rfl, rfl, rfl⟩

theorem set_vbuf_step (h : Heap) (v : Nat) (vb : vbuf_t) (o : Option vbuf_t)
    (hvb : h.vbufs[v]? = some (some vb))
    (ho : ∀ vb1, o = some vb1 →
      vb1.start = vb.start ∧ vb1.end_ = vb.end_ ∧ vb1.length = vb.length) :
    ∀ (w : Nat) (vb1 : vbuf_t), (h.vbufs.set v o)[w]? = some (some vb1) →
      (∃ wb, h.vbufs[w]? = some (some wb) ∧ vb1.start = wb.start ∧ vb1.end_ = wb.end_ ∧
        vb1.length = wb.length) ∨
      (∀ wb, h.vbufs[w]? ≠ some (some wb)) := by
  intro w vb1 hvb1
  have hvlt := getElem?_lt_length hvb
  simp only [List.getElem?_set] at hvb1
  split at hvb1
  · next heq =>
    subst heq
    simp only [hvlt, ↓reduceIte, Option.some.injEq] at hvb1
    obtain ⟨hs, he, hl⟩ := ho vb1 hvb1
    exact Or.inl ⟨vb, hvb, hs, he, hl⟩
  · exact Or.inl ⟨vb1, hvb1, rfl, rfl, rfl⟩

theorem set_vfrag_step (c : Consts) (h : Heap) (i : Nat) (o : Option vfrag_t)
    (vbufs : List (Option vbuf_t))
    (ho : ∀ f1, o = some f1 → ∀ (v : Nat) (vb1 : vbuf_t), f1.vbuf = some v →
      vbufs[v]? = some (some vb1) → view_in_bounds vb1 f1 ∧ region_ok c vb1) :
    ∀ (j : Nat) (f : vfrag_t), (h.vfrags.set i o)[j]? = some (some f) →
      h.vfrags[j]? = some (some f) ∨
      (∀ (v : Nat) (vb1 : vbuf_t), f.vbuf = some v → vbufs[v]? = some (some vb1) →
        view_in_bounds vb1 f ∧ region_ok c vb1) := by
  intro j f hj
  simp only [List.getElem?_set] at hj
  split at hj
  · split at hj
    · simp only [Option.some.injEq] at hj
      exact Or.inr (ho f hj)
    · cases hj
  · exact Or.inl hj

theorem bounds_inv_copy_data (c : Consts) (h : Heap) (vfrag : Option Nat) (data : List Byte)
    (st : status_t) (h1 : Heap) (hs : gse_copy_data c h vfrag data = .ok (st, h1))
    (hcnt : count_inv h) (hinv : bounds_inv c h) : bounds_inv c h1 := by
  cases hl : load_vfrag h vfrag with
  | error e => simp [gse_copy_data, gse_get_vfrag_nbr, hl] at hs
  | ok f =>
    obtain ⟨i, rfl, hfi⟩ := (load_vfrag_ok_iff h vfrag f).1 hl
    cases hlv : load_vbuf h f.vbuf with
    | error e => simp [gse_copy_data, gse_get_vfrag_nbr, hl, hlv] at hs
    | ok vb =>
      obtain ⟨v, hv, hvi⟩ := (load_vbuf_ok_iff h f.vbuf vb).1 hlv
      rw [gse_copy_data_unfold c h i f vb data hfi hlv] at hs
      split at hs
      · cases hs; exact hinv
      · split at hs
        · cases hs; exact hinv
        · cases hm : memcpy h (ptr_add c vb.start c.MAX_HEADER_LENGTH) data with
          | error e => simp [hm] at hs
          | ok hmem =>
            obtain ⟨bl, rfl⟩ := memcpy_ok h _ data hmem hm
            simp only [hm] at hs
            split at hs
            · next hc ht hass =>
              cases hs
              obtain ⟨_, hr1, hr2, hroom⟩ := hinv.view_ok i f v vb hfi hv hvi
              have hthr := size_sub_eq c vb.length (c.MAX_HEADER_LENGTH + c.CRC_LENGTH)
                hroom (by omega)
              have ho : (ptr_add c vb.start c.MAX_HEADER_LENGTH).off
                  = vb.start.off + c.MAX_HEADER_LENGTH :=
                ptr_add_off_of_lt c _ _ (by omega)
              have he : (ptr_add c (ptr_add c vb.start c.MAX_HEADER_LENGTH) data.length).off
                  = (ptr_add c vb.start c.MAX_HEADER_LENGTH).off + data.length :=
                ptr_add_off_of_lt c _ _ (by omega)
              refine bounds_inv_of_step c h _ (same_vbufs_step h _ rfl)
                (set_vfrag_step c h i _ h.vbufs ?_) hcnt.owner_live hinv
              intro f1 hf1 w wb hw hwb
              cases hf1
              simp only at hw
              rw [hv] at hw
              cases hw
              rw [hvi] at hwb
              cases hwb
              have hendoff : vb.end_.off = vb.start.off + vb.length := by
                rw [hr1]; exact ptr_add_off_of_lt c _ _ hr2
              refine ⟨?_, hr1, hr2, hroom⟩
              unfold view_in_bounds
              simp only [ptr_add_blk]
              refine ⟨?_, ?_, ?_, ?_, ?_, ?_⟩ <;> first | trivial | rfl | omega
            · cases hs

theorem shift_in_contract (c : Consts) (h : Heap) (i : Nat) (f : vfrag_t) (vb : vbuf_t)
    (s e : Nat) (hfi : h.vfrags[i]? = some (some f)) (hvb : load_vbuf h f.vbuf = .ok vb)
    (hc : Call.in_contract c h (.shift_vfrag (some i) s e) = true) :
    vb.start.off ≤ (ptr_add c f.start s).off ∧
    (ptr_add c f.start s).off ≤ (ptr_add c f.end_ e).off ∧
    (ptr_add c f.end_ e).off ≤ vb.end_.off := by
  have hl : load_vfrag h (some i) = .ok f := by simp [load_vfrag, hfi]
  simpa [Call.in_contract, hl, hvb] using hc

theorem bounds_inv_shift_vfrag (c : Consts) (h : Heap) (vfrag : Option Nat)
    (s e : Nat) (st : status_t) (h1 : Heap)
    (hs : gse_shift_vfrag c h vfrag s e = .ok (st, h1))
    (hc : Call.in_contract c h (.shift_vfrag vfrag s e) = true)
    (hcnt : count_inv h) (hinv : bounds_inv c h) : bounds_inv c h1 := by
  unfold gse_shift_vfrag modify_vfrag at hs
  cases vfrag with
  | none => simp at hs
  | some i =>
    cases hfi : h.vfrags[i]? with
    | none => simp [hfi] at hs
    | some o =>
      cases o with
      | none => simp [hfi] at hs
      | some f =>
        simp only [hfi, Except.ok.injEq, Prod.mk.injEq] at hs
        rw [← hs.2]
        obtain ⟨v, vb, hv, hvi⟩ := hcnt.owner_live i f hfi
        have hvb : load_vbuf h f.vbuf = .ok vb := by simp [load_vbuf, hv, hvi]
        obtain ⟨hc0, hc1, hc2⟩ := shift_in_contract c h i f vb s e hfi hvb hc
        obtain ⟨⟨hb1, hb2, hb3, hb4, hb5, hb6⟩, hreg⟩ := hinv.view_ok i f v vb hfi hv hvi
        refine bounds_inv_of_step c h _ (same_vbufs_step h _ rfl)
          (set_vfrag_step c h i _ h.vbufs ?_) hcnt.owner_live hinv
        intro f1 hf1 w wb hw hwb
        cases hf1
        simp only at hw
        rw [hv] at hw
        cases hw
        rw [hvi] at hwb
        cases hwb
        have hlt := ptr_add_off_lt c f.end_ e
        have hlen := size_sub_eq c (ptr_add c f.end_ e).off (ptr_add c f.start s).off hc1
          (by omega)
        refine ⟨?_, hreg⟩
        unfold view_in_bounds
        simp only [ptr_add_blk, hlen]
        exact ⟨hb1, hb2, hc0, hc1, hc2, trivial⟩

theorem bounds_inv_create_vfrag (c : Consts) (h : Heap) (n : Nat)
    (hC : n + c.MAX_HEADER_LENGTH + c.CRC_LENGTH < c.SIZE_MOD)
    (hcnt : count_inv h) (hinv : bounds_inv c h) :
    bounds_inv c (heap_after_create_vfrag c h n) := by
  have hL := length_buf_eq c n hC
  have hvnew : (heap_after_create_vfrag c h n).vbufs[h.vbufs.length]?
      = some (some ⟨⟨h.blocks.length, 0⟩, ⟨h.blocks.length, length_buf c n⟩,
          length_buf c n, 1⟩) := by
    simp [heap_after_create_vfrag]
  refine bounds_inv_of_step c h _ ?_ ?_ hcnt.owner_live hinv
  · intro v vb1 hvb1
    by_cases hlt : v < h.vbufs.length
    · left
      refine ⟨vb1, ?_, rfl, rfl, rfl⟩
      simp only [heap_after_create_vfrag, List.getElem?_append_left hlt] at hvb1
      exact hvb1
    · right
      have hvl := getElem?_lt_length hvb1
      simp only [heap_after_create_vfrag, List.length_append, List.length_singleton] at hvl
      have hv : v = h.vbufs.length := by omega
      subst hv
      intro vb hvb
      have := getElem?_lt_length hvb
      omega
  · intro i f hfi
    by_cases hlt : i < h.vfrags.length
    · left
      simp only [heap_after_create_vfrag, List.getElem?_append_left hlt] at hfi
      exact hfi
    · right
      have hil := getElem?_lt_length hfi
      simp only [heap_after_create_vfrag, List.length_append, List.length_singleton] at hil
      have hi : i = h.vfrags.length := by omega
      subst hi
      simp only [heap_after_create_vfrag, List.getElem?_concat_length,
        Option.some.injEq] at hfi
      subst hfi
      intro v vb1 hv hvb1
      simp only [Option.some.injEq] at hv
      subst hv
      rw [hvnew] at hvb1
      simp only [Option.some.injEq] at hvb1
      subst hvb1
      have hS : (ptr_add c ⟨h.blocks.length, 0⟩ c.MAX_HEADER_LENGTH).off
          = c.MAX_HEADER_LENGTH := by
        rw [ptr_add_off_of_lt c _ _ (by simp only []; omega)]
        simp
      refine ⟨?_, (ptr_add_length_buf c _ n).symm, by simpa using length_buf_lt c n,
        by simp only []; omega⟩
      unfold view_in_bounds
      simp only [ptr_add_blk, hS]
      refine ⟨?_, ?_, ?_, ?_, ?_, ?_⟩ <;> first | trivial | rfl | omega

theorem bounds_inv_duplicate_vfrag (c : Consts) (h : Heap) (father : Option Nat)
    (length : Nat) (st : status_t) (ch : Option Nat) (h1 : Heap)
    (hs : gse_duplicate_vfrag c h father length = .ok (st, ch, h1))
    (hcnt : count_inv h) (hinv : bounds_inv c h) : bounds_inv c h1 := by
  rcases gse_duplicate_vfrag_status c h father length st ch h1 hs with ⟨hst, _⟩ | ⟨_, _, he⟩ |
    ⟨hst, _, _⟩
  · subst hst
    obtain ⟨i, fa, v, vb, rfl, hfi, _, hv, hvb, _, hend, _, rfl⟩ :=
      gse_duplicate_vfrag_ok_inv c h father length ch h1 hs
    have hvlt := getElem?_lt_length hvb
    obtain ⟨⟨hb1, hb2, hb3, hb4, hb5, hb6⟩, hr1, hr2, hroom⟩ :=
      hinv.view_ok i fa v vb hfi hv hvb
    have hendoff : vb.end_.off = vb.start.off + vb.length := by
      rw [hr1]; exact ptr_add_off_of_lt c _ _ hr2
    have hmin : min length fa.length ≤ fa.length := Nat.min_le_right _ _
    have hp : (ptr_add c fa.start (min length fa.length)).off
        = fa.start.off + min length fa.length := ptr_add_off_of_lt c _ _ (by omega)
    refine bounds_inv_of_step c h _
      (set_vbuf_step h v vb _ hvb (fun vb1 h1 => by cases h1; exact ⟨rfl, rfl, rfl⟩))
      ?_ hcnt.owner_live hinv
    intro j f hj
    by_cases hlt : j < h.vfrags.length
    · left
      simp only [heap_after_duplicate, List.getElem?_append_left hlt] at hj
      exact hj
    · right
      have hjl := getElem?_lt_length hj
      simp only [heap_after_duplicate, List.length_append, List.length_singleton] at hjl
      have hjeq : j = h.vfrags.length := by omega
      subst hjeq
      simp only [heap_after_duplicate, List.getElem?_concat_length,
        Option.some.injEq] at hj
      subst hj
      intro w wb hw hwb
      simp only at hw
      rw [hv] at hw
      cases hw
      simp only [heap_after_duplicate, List.getElem?_set_self hvlt, Option.some.injEq] at hwb
      subst hwb
      refine ⟨?_, hr1, hr2, hroom⟩
      unfold view_in_bounds
      simp only [ptr_add_blk, hp]
      refine ⟨?_, ?_, ?_, ?_, ?_, ?_⟩ <;>
        first | trivial | rfl | exact hb1 | omega
  · rw [he]; exact hinv
  · exfalso
    have ha := allocs_succeed_of_none h 1 hcnt.no_failure
    subst hst
    cases hl : load_vfrag h father with
    | error e => simp [gse_duplicate_vfrag, hl] at hs
    | ok fa =>
      obtain ⟨i, rfl, hfa⟩ := (load_vfrag_ok_iff h father fa).1 hl
      by_cases hlen : fa.length = 0
      · simp [gse_duplicate_vfrag, hl, hlen] at hs
      cases hlv : load_vbuf h fa.vbuf with
      | error e => simp [gse_duplicate_vfrag, hl, hlen, gse_get_vfrag_nbr, hlv] at hs
      | ok vb =>
        obtain ⟨v, hv, hvb⟩ := (load_vbuf_ok_iff h fa.vbuf vb).1 hlv
        by_cases hcount : 2 ≤ vb.vfrag_count
        · simp [gse_duplicate_vfrag, hl, hlen, gse_get_vfrag_nbr, hlv, hcount] at hs
        · by_cases hend : (ptr_add c fa.start (min length fa.length)).off ≤ vb.end_.off
          · rw [gse_duplicate_vfrag_eq c h i v fa vb length hfa hv hvb hlen (by omega) ha
              hend] at hs
            simp at hs
          · rw [gse_duplicate_vfrag_assert c h i v fa vb length hfa hv hvb hlen (by omega) ha
              hend] at hs
            cases hs

theorem memcpy_no_fail (h : Heap) (dst : Ptr) (data : List Byte) (hm : Heap)
    (hs : memcpy h dst data = .ok hm) : memcpy (no_fail h) dst data = .ok (no_fail hm) := by
  unfold memcpy at hs ⊢
  simp only [no_fail] at hs ⊢
  split at hs
  · next bs hbs =>
    split at hs
    · next hfit =>
      cases hs
      simp [hbs, hfit]
    · cases hs
  · cases hs

theorem gse_copy_data_no_fail (c : Consts) (h : Heap) (vfrag : Option Nat) (data : List Byte)
    (st : status_t) (h1 : Heap) (hs : gse_copy_data c h vfrag data = .ok (st, h1)) :
    gse_copy_data c (no_fail h) vfrag data = .ok (st, no_fail h1) := by
  cases hl : load_vfrag h vfrag with
  | error e => simp [gse_copy_data, gse_get_vfrag_nbr, hl] at hs
  | ok f =>
    obtain ⟨i, rfl, hfi⟩ := (load_vfrag_ok_iff h vfrag f).1 hl
    cases hlv : load_vbuf h f.vbuf with
    | error e => simp [gse_copy_data, gse_get_vfrag_nbr, hl, hlv] at hs
    | ok vb =>
      rw [gse_copy_data_unfold c h i f vb data hfi hlv] at hs
      rw [gse_copy_data_unfold c (no_fail h) i f vb data hfi hlv]
      split at hs
      · next hc => cases hs; simp [hc, no_fail]
      · next hc =>
        split at hs
        · next ht => cases hs; simp [hc, ht, no_fail]
        · next ht =>
          simp only [hc, ht, ↓reduceIte]
          cases hm : memcpy h (ptr_add c vb.start c.MAX_HEADER_LENGTH) data with
          | error e => simp [hm] at hs
          | ok hmem =>
            rw [memcpy_no_fail h _ data hmem hm]
            simp only [hm] at hs ⊢
            split at hs
            · next hass =>
              cases hs
              simp [hass, no_fail]
            · cases hs

theorem gse_shift_vfrag_no_fail (c : Consts) (h : Heap) (vfrag : Option Nat) (s e : Nat)
    (st : status_t) (h1 : Heap) (hs : gse_shift_vfrag c h vfrag s e = .ok (st, h1)) :
    gse_shift_vfrag c (no_fail h) vfrag s e = .ok (st, no_fail h1) := by
  unfold gse_shift_vfrag modify_vfrag at hs ⊢
  cases vfrag with
  | none => simp at hs
  | some i =>
    simp only [no_fail] at hs ⊢
    cases hfi : h.vfrags[i]? with
    | none => simp [hfi] at hs
    | some o =>
      cases o with
      | none => simp [hfi] at hs
      | some f =>
        simp only [hfi, Except.ok.injEq, Prod.mk.injEq] at hs ⊢
        exact ⟨hs.1, by rw [← hs.2]⟩

theorem gse_free_vfrag_no_fail (h : Heap) (vfrag : Option Nat) (st : status_t) (h1 : Heap)
    (hs : gse_free_vfrag h vfrag = .ok (st, h1)) :
    gse_free_vfrag (no_fail h) vfrag = .ok (st, no_fail h1) := by
  cases hl : load_vfrag h vfrag with
  | error e => simp [gse_free_vfrag, gse_get_vfrag_nbr, hl] at hs
  | ok f =>
    obtain ⟨i, rfl, hfi⟩ := (load_vfrag_ok_iff h vfrag f).1 hl
    cases hlv : load_vbuf h f.vbuf with
    | error e => simp [gse_free_vfrag, gse_get_vfrag_nbr, hl, hlv] at hs
    | ok vb =>
      obtain ⟨v, hv, hvb⟩ := (load_vbuf_ok_iff h f.vbuf vb).1 hlv
      have hvlt := getElem?_lt_length hvb
      have hl1 : load_vfrag (no_fail h) (some i) = .ok f := hl
      have hlv1 : load_vbuf (no_fail h) f.vbuf = .ok vb := hlv
      rcases Int.lt_trichotomy vb.vfrag_count 1 with hlt | heq | hgt
      · have h0 : vb.vfrag_count ≤ 0 := by omega
        simp [gse_free_vfrag, gse_get_vfrag_nbr, hl, hlv, h0] at hs
        simp [gse_free_vfrag, gse_get_vfrag_nbr, hl1, hlv1, h0, hs.1, ← hs.2]
      · by_cases hb : ∃ bs, h.blocks[vb.start.blk]? = some (some bs) ∧ vb.start.off = 0
        · obtain ⟨bs, hbs, hoff⟩ := hb
          rw [gse_free_vfrag_last h i v f vb bs hfi hv hvb heq hbs hoff] at hs
          simp only [Except.ok.injEq, Prod.mk.injEq] at hs
          obtain ⟨rfl, rfl⟩ := hs
          exact gse_free_vfrag_last (no_fail h) i v f vb bs hfi hv hvb heq hbs hoff
        · exfalso
          have hfree := free_bytes_eq_error
            { h with vbufs := h.vbufs.set v (some { vb with vfrag_count := 0 }) } vb.start hb
          simp [gse_free_vfrag, gse_get_vfrag_nbr, hl, hlv, heq, modify_vbuf, hv, hvb,
            load_vfrag, load_vbuf, hfi, List.getElem?_set_self hvlt, gse_free_vbuf] at hs
          simp [hfree] at hs
      · rw [gse_free_vfrag_shared h i v f vb hfi hv hvb (by omega)] at hs
        simp only [Except.ok.injEq, Prod.mk.injEq] at hs
        obtain ⟨rfl, rfl⟩ := hs
        exact gse_free_vfrag_shared (no_fail h) i v f vb hfi hv hvb (by omega)

/-- A `vbuf_t` record that no view references and whose counter is 0 can be added to a
heap that satisfies the counting invariant. -/
theorem count_inv_add_vbuf (h : Heap) (vb : vbuf_t) (bl : List (Option (List Byte)))
    (hcount : vb.vfrag_count = 0) (hinv : count_inv h) :
    count_inv { h with vbufs := h.vbufs ++ [some vb], blocks := bl } := by
  have hnew : views_of h h.vbufs.length = 0 :=
    views_of_eq_zero h _ hinv.owner_live (fun vb hvb => by
      have := getElem?_lt_length hvb
      omega)
  have hcases : ∀ (w : Nat) (wb : vbuf_t), (h.vbufs ++ [some vb])[w]? = some (some wb) →
      h.vbufs[w]? = some (some wb) ∨ (w = h.vbufs.length ∧ wb = vb) := by
    intro w wb hwb
    by_cases hlt : w < h.vbufs.length
    · rw [List.getElem?_append_left hlt] at hwb
      exact Or.inl hwb
    · have hwl := getElem?_lt_length hwb
      simp only [List.length_append, List.length_singleton] at hwl
      have hw : w = h.vbufs.length := by omega
      subst hw
      simp only [List.getElem?_concat_length, Option.some.injEq] at hwb
      exact Or.inr ⟨rfl, hwb.symm⟩
  refine ⟨?_, ?_, ?_, hinv.no_failure⟩
  · intro w wb hwb
    rcases hcases w wb hwb with hold | ⟨rfl, rfl⟩
    · exact hinv.count_eq w wb hold
    · show wb.vfrag_count = ((views_of h h.vbufs.length : Nat) : Int)
      rw [hnew, hcount]
      rfl
  · intro w wb hwb
    rcases hcases w wb hwb with hold | ⟨rfl, rfl⟩
    · exact hinv.count_le w wb hold
    · show views_of h h.vbufs.length ≤ 2
      omega
  · intro i f hf
    obtain ⟨w, wb, hw, hwb⟩ := hinv.owner_live i f hf
    exact ⟨w, wb, hw, by
      show (h.vbufs ++ [some vb])[w]? = some (some wb)
      rw [List.getElem?_append_left (getElem?_lt_length hwb)]
      exact hwb⟩

theorem bounds_inv_add_vbuf (c : Consts) (h : Heap) (vb : vbuf_t)
    (bl : List (Option (List Byte)))
    (hcnt : count_inv h) (hinv : bounds_inv c h) :
    bounds_inv c { h with vbufs := h.vbufs ++ [some vb], blocks := bl } := by
  refine bounds_inv_of_step c h _ ?_ (fun i f hf => Or.inl hf) hcnt.owner_live hinv
  intro w wb hwb
  by_cases hlt : w < h.vbufs.length
  · left
    simp only [List.getElem?_append_left hlt] at hwb
    exact ⟨wb, hwb, rfl, rfl, rfl⟩
  · right
    have hwl := getElem?_lt_length hwb
    simp only [List.length_append, List.length_singleton] at hwl
    have hw : w = h.vbufs.length := by omega
    subst hw
    intro vb0 hvb0
    have := getElem?_lt_length hvb0
    omega

theorem bounds_inv_free_vfrag (c : Consts) (h : Heap) (vfrag : Option Nat) (st : status_t)
    (h1 : Heap) (hs : gse_free_vfrag h vfrag = .ok (st, h1))
    (hcnt : count_inv h) (hinv : bounds_inv c h) : bounds_inv c h1 := by
  cases hl : load_vfrag h vfrag with
  | error e => simp [gse_free_vfrag, gse_get_vfrag_nbr, hl] at hs
  | ok f =>
    obtain ⟨i, rfl, hfi⟩ := (load_vfrag_ok_iff h vfrag f).1 hl
    cases hlv : load_vbuf h f.vbuf with
    | error e => simp [gse_free_vfrag, gse_get_vfrag_nbr, hl, hlv] at hs
    | ok vb =>
      obtain ⟨v, hv, hvb⟩ := (load_vbuf_ok_iff h f.vbuf vb).1 hlv
      have hvlt := getElem?_lt_length hvb
      have hnone : ∀ f1, (none : Option vfrag_t) = some f1 → ∀ (w : Nat) (wb : vbuf_t),
          f1.vbuf = some w → h1.vbufs[w]? = some (some wb) →
          view_in_bounds wb f1 ∧ region_ok c wb := by
        intro f1 hf1
        cases hf1
      rcases Int.lt_trichotomy vb.vfrag_count 1 with hlt | heq | hgt
      · have h0 : vb.vfrag_count ≤ 0 := by omega
        simp [gse_free_vfrag, gse_get_vfrag_nbr, hl, hlv, h0] at hs
        rw [← hs.2]; exact hinv
      · by_cases hb : ∃ bs, h.blocks[vb.start.blk]? = some (some bs) ∧ vb.start.off = 0
        · obtain ⟨bs, hbs, hoff⟩ := hb
          rw [gse_free_vfrag_last h i v f vb bs hfi hv hvb heq hbs hoff] at hs
          simp only [Except.ok.injEq, Prod.mk.injEq] at hs
          obtain ⟨_, rfl⟩ := hs
          exact bounds_inv_of_step c h _
            (set_vbuf_step h v vb none hvb (fun vb1 h1 => by cases h1))
            (set_vfrag_step c h i none _ hnone) hcnt.owner_live hinv
        · exfalso
          have hfree := free_bytes_eq_error
            { h with vbufs := h.vbufs.set v (some { vb with vfrag_count := 0 }) } vb.start hb
          simp [gse_free_vfrag, gse_get_vfrag_nbr, hl, hlv, heq, modify_vbuf, hv, hvb,
            load_vfrag, load_vbuf, hfi, List.getElem?_set_self hvlt, gse_free_vbuf] at hs
          simp [hfree] at hs
      · rw [gse_free_vfrag_shared h i v f vb hfi hv hvb (by omega)] at hs
        simp only [Except.ok.injEq, Prod.mk.injEq] at hs
        obtain ⟨_, rfl⟩ := hs
        exact bounds_inv_of_step c h _
          (set_vbuf_step h v vb _ hvb (fun vb1 h1 => by cases h1; exact ⟨rfl, rfl, rfl⟩))
          (set_vfrag_step c h i none _ hnone) hcnt.owner_live hinv

theorem inv_copy_data (c : Consts) (h : Heap) (vfrag : Option Nat) (data : List Byte)
    (st : status_t) (h1 : Heap) (hs : gse_copy_data c h vfrag data = .ok (st, h1))
    (hcnt : count_inv (no_fail h)) (hinv : bounds_inv c (no_fail h)) :
    count_inv (no_fail h1) ∧ bounds_inv c (no_fail h1) :=
  have hs1 := gse_copy_data_no_fail c h vfrag data st h1 hs
  ⟨count_inv_copy_data c _ vfrag data st _ hs1 hcnt,
    bounds_inv_copy_data c _ vfrag data st _ hs1 hcnt hinv⟩

theorem inv_shift_vfrag (c : Consts) (h : Heap) (vfrag : Option Nat) (s e : Nat)
    (st : status_t) (h1 : Heap) (hs : gse_shift_vfrag c h vfrag s e = .ok (st, h1))
    (hc : Call.in_contract c h (.shift_vfrag vfrag s e) = true)
    (hcnt : count_inv (no_fail h)) (hinv : bounds_inv c (no_fail h)) :
    count_inv (no_fail h1) ∧ bounds_inv c (no_fail h1) :=
  have hs1 := gse_shift_vfrag_no_fail c h vfrag s e st h1 hs
  ⟨count_inv_shift_vfrag c _ vfrag s e st _ hs1 hcnt,
    bounds_inv_shift_vfrag c _ vfrag s e st _ hs1 hc hcnt hinv⟩

theorem inv_free_vfrag (c : Consts) (h : Heap) (vfrag : Option Nat) (st : status_t)
    (h1 : Heap) (hs : gse_free_vfrag h vfrag = .ok (st, h1))
    (hcnt : count_inv (no_fail h)) (hinv : bounds_inv c (no_fail h)) :
    count_inv (no_fail h1) ∧ bounds_inv c (no_fail h1) :=
  have hs1 := gse_free_vfrag_no_fail h vfrag st h1 hs
  ⟨count_inv_free_vfrag _ vfrag st _ hs1 hcnt,
    bounds_inv_free_vfrag c _ vfrag st _ hs1 hcnt hinv⟩

theorem allocs_fail_cases (h : Heap) (ha : ¬ allocs_succeed h 3 = true) :
    h.fail_at = some 0 ∨ h.fail_at = some 1 ∨ h.fail_at = some 2 := by
  unfold allocs_succeed at ha
  cases hf : h.fail_at with
  | none => simp [hf] at ha
  | some k =>
    simp [hf] at ha
    simp
    omega

theorem gse_create_vfrag_with_data_fault (c : Consts) (h : Heap) (max_length : Nat)
    (data : List Byte) (ha : ¬ allocs_succeed h 3 = true) :
    gse_create_vfrag_with_data c h max_length data = .error Fault.null_deref := by
  obtain ⟨h0, h1, h2⟩ := gse_create_vfrag_failure c h max_length
  have hnull : ∀ h' : Heap, gse_free_vfrag h' none = .error Fault.null_deref := by
    intro h'
    simp [gse_free_vfrag, gse_get_vfrag_nbr, load_vfrag]
  rcases allocs_fail_cases h ha with hf | hf | hf
  · simp [gse_create_vfrag_with_data, h0 hf, hnull]
  · simp [gse_create_vfrag_with_data, h1 hf, hnull]
  · simp [gse_create_vfrag_with_data, h2 hf, hnull]

theorem inv_create_vfrag (c : Consts) (h : Heap) (n : Nat) (st : status_t) (p : Option Nat)
    (h1 : Heap) (hs : gse_create_vfrag c h n = .ok (st, p, h1))
    (hC : n + c.MAX_HEADER_LENGTH + c.CRC_LENGTH < c.SIZE_MOD)
    (hcnt : count_inv (no_fail h)) (hinv : bounds_inv c (no_fail h)) :
    count_inv (no_fail h1) ∧ bounds_inv c (no_fail h1) := by
  by_cases ha : allocs_succeed h 3 = true
  · rw [gse_create_vfrag_eq c h n ha] at hs
    simp only [Except.ok.injEq, Prod.mk.injEq] at hs
    obtain ⟨_, _, rfl⟩ := hs
    exact ⟨count_inv_create_vfrag c (no_fail h) n hcnt,
      bounds_inv_create_vfrag c (no_fail h) n hC hcnt hinv⟩
  · obtain ⟨h0, h1', h2⟩ := gse_create_vfrag_failure c h n
    rcases allocs_fail_cases h ha with hf | hf | hf
    · rw [h0 hf] at hs
      simp only [Except.ok.injEq, Prod.mk.injEq] at hs
      obtain ⟨_, _, rfl⟩ := hs
      exact ⟨hcnt, hinv⟩
    · rw [h1' hf] at hs
      simp only [Except.ok.injEq, Prod.mk.injEq] at hs
      obtain ⟨_, _, rfl⟩ := hs
      exact ⟨count_inv_add_vbuf (no_fail h) vbuf_uninit h.blocks rfl hcnt,
        bounds_inv_add_vbuf c (no_fail h) vbuf_uninit h.blocks hcnt hinv⟩
    · rw [h2 hf] at hs
      simp only [Except.ok.injEq, Prod.mk.injEq] at hs
      obtain ⟨_, _, rfl⟩ := hs
      exact ⟨count_inv_add_vbuf (no_fail h) _ _ rfl hcnt,
        bounds_inv_add_vbuf c (no_fail h)
          ⟨⟨h.blocks.length, 0⟩, ⟨h.blocks.length, length_buf c n⟩, length_buf c n, 0⟩ _
          hcnt hinv⟩

theorem inv_duplicate_vfrag (c : Consts) (h : Heap) (father : Option Nat) (length : Nat)
    (st : status_t) (ch : Option Nat) (h1 : Heap)
    (hs : gse_duplicate_vfrag c h father length = .ok (st, ch, h1))
    (hcnt : count_inv (no_fail h)) (hinv : bounds_inv c (no_fail h)) :
    count_inv (no_fail h1) ∧ bounds_inv c (no_fail h1) := by
  cases hl : load_vfrag h father with
  | error e => simp [gse_duplicate_vfrag, hl] at hs
  | ok fa =>
    obtain ⟨i, rfl, hfa⟩ := (load_vfrag_ok_iff h father fa).1 hl
    by_cases hlen : fa.length = 0
    · simp [gse_duplicate_vfrag, hl, hlen] at hs
      rw [← hs.2.2]; exact ⟨hcnt, hinv⟩
    cases hlv : load_vbuf h fa.vbuf with
    | error e => simp [gse_duplicate_vfrag, hl, hlen, gse_get_vfrag_nbr, hlv] at hs
    | ok vb =>
      obtain ⟨v, hv, hvb⟩ := (load_vbuf_ok_iff h fa.vbuf vb).1 hlv
      by_cases hcount : 2 ≤ vb.vfrag_count
      · simp [gse_duplicate_vfrag, hl, hlen, gse_get_vfrag_nbr, hlv, hcount] at hs
        rw [← hs.2.2]; exact ⟨hcnt, hinv⟩
      by_cases ha : allocs_succeed h 1 = true
      · by_cases hend : (ptr_add c fa.start (min length fa.length)).off ≤ vb.end_.off
        · rw [gse_duplicate_vfrag_eq c h i v fa vb length hfa hv hvb hlen (by omega) ha hend] at hs
          simp only [Except.ok.injEq, Prod.mk.injEq] at hs
          obtain ⟨_, _, rfl⟩ := hs
          have hs1 := gse_duplicate_vfrag_eq c (no_fail h) i v fa vb length hfa hv hvb hlen
            (by omega) rfl hend
          exact ⟨count_inv_duplicate_vfrag c _ _ length _ _ _ hs1 hcnt,
            bounds_inv_duplicate_vfrag c _ _ length _ _ _ hs1 hcnt hinv⟩
        · rw [gse_duplicate_vfrag_assert c h i v fa vb length hfa hv hvb hlen (by omega) ha
            hend] at hs
          cases hs
      · rw [gse_duplicate_vfrag_no_memory c h i v fa vb length hfa hv hvb hlen (by omega) ha]
          at hs
        simp only [Except.ok.injEq, Prod.mk.injEq] at hs
        rw [← hs.2.2]
        exact ⟨hcnt, hinv⟩

theorem inv_run (c : Consts) (h h1 : Heap) (call : Call)
    (hc : Call.in_contract c h call = true)
    (hs : Call.run c h call = .ok h1)
    (hcnt : count_inv (no_fail h)) (hinv : bounds_inv c (no_fail h)) :
    count_inv (no_fail h1) ∧ bounds_inv c (no_fail h1) := by
  cases call with
  | create_vfrag n =>
    have hC : n + c.MAX_HEADER_LENGTH + c.CRC_LENGTH < c.SIZE_MOD := by
      simpa [Call.in_contract] using hc
    simp only [Call.run] at hs
    cases hr : gse_create_vfrag c h n with
    | error e => simp [hr] at hs
    | ok r =>
      obtain ⟨st, p, h2⟩ := r
      simp only [hr, Except.ok.injEq] at hs
      rw [← hs]
      exact inv_create_vfrag c h n st p h2 hr hC hcnt hinv
  | create_vfrag_with_data n data =>
    have hC : n + c.MAX_HEADER_LENGTH + c.CRC_LENGTH < c.SIZE_MOD := by
      simpa [Call.in_contract] using hc
    by_cases ha : allocs_succeed h 3 = true
    · have hmid := inv_create_vfrag c h n _ _ _ (gse_create_vfrag_eq c h n ha) hC hcnt hinv
      simp only [Call.run, gse_create_vfrag_with_data, gse_create_vfrag_eq c h n ha, ne_eq,
        not_true_eq_false, ↓reduceIte] at hs
      cases hcopy : gse_copy_data c (heap_after_create_vfrag c h n) (some h.vfrags.length)
          data with
      | error e => simp [hcopy] at hs
      | ok r =>
        obtain ⟨st1, h2⟩ := r
        have h2inv := inv_copy_data c _ _ data st1 h2 hcopy hmid.1 hmid.2
        simp only [hcopy] at hs
        by_cases hst : st1 = STATUS_OK
        · simp only [hst, ne_eq, not_true_eq_false, ↓reduceIte, Except.ok.injEq] at hs
          rw [← hs]; exact h2inv
        · simp only [ne_eq, hst, not_false_eq_true, ↓reduceIte] at hs
          cases hfree : gse_free_vfrag h2 (some h.vfrags.length) with
          | error e => simp [hfree] at hs
          | ok r2 =>
            obtain ⟨st2, h3⟩ := r2
            simp only [hfree, Except.ok.injEq] at hs
            rw [← hs]
            exact inv_free_vfrag c h2 _ st2 h3 hfree h2inv.1 h2inv.2
    · simp [Call.run, gse_create_vfrag_with_data_fault c h n data ha] at hs
  | copy_data vfrag data =>
    simp only [Call.run] at hs
    cases hr : gse_copy_data c h vfrag data with
    | error e => simp [hr] at hs
    | ok r =>
      obtain ⟨st, h2⟩ := r
      simp only [hr, Except.ok.injEq] at hs
      rw [← hs]
      exact inv_copy_data c h vfrag data st h2 hr hcnt hinv
  | duplicate_vfrag father length =>
    simp only [Call.run] at hs
    cases hr : gse_duplicate_vfrag c h father length with
    | error e => simp [hr] at hs
    | ok r =>
      obtain ⟨st, ch, h2⟩ := r
      simp only [hr, Except.ok.injEq] at hs
      rw [← hs]
      exact inv_duplicate_vfrag c h father length st ch h2 hr hcnt hinv
  | shift_vfrag vfrag s e =>
    simp only [Call.run] at hs
    cases hr : gse_shift_vfrag c h vfrag s e with
    | error e => simp [hr] at hs
    | ok r =>
      obtain ⟨st, h2⟩ := r
      simp only [hr, Except.ok.injEq] at hs
      rw [← hs]
      exact inv_shift_vfrag c h vfrag s e st h2 hr hc hcnt hinv
  | free_vfrag vfrag =>
    simp only [Call.run] at hs
    cases hr : gse_free_vfrag h vfrag with
    | error e => simp [hr] at hs
    | ok r =>
      obtain ⟨st, h2⟩ := r
      simp only [hr, Except.ok.injEq] at hs
      rw [← hs]
      exact inv_free_vfrag c h vfrag st h2 hr hcnt hinv

theorem inv_reachable (c : Consts) (h : Heap) (hr : ReachableInContract c h) :
    count_inv (no_fail h) ∧ bounds_inv c (no_fail h) := by
  induction hr with
  | empty => exact ⟨count_inv_empty, bounds_inv_empty c⟩
  | step h h1 call outcome _ hc hs ih =>
    exact inv_run c { h with fail_at := outcome } h1 call hc hs ih.1 ih.2

/-- C11, as amended: in every heap reached from the empty heap by calls of the six public
functions, whichever allocations fail, in which every capacity is such that
`max_length + MAX_HEADER_LENGTH + CRC_LENGTH` is a `size_t` and every call of
`gse_shift_vfrag` leaves `region.begin ≤ start ≤ end ≤ region.end` (for the `start` and
`end` it computes, modulo `2 ^ SIZE_BITS`), every live view has a live owner and satisfies
`region.begin ≤ start ≤ end ≤ region.end` with `length = end - start`. -/
theorem reachable_in_contract_bounds (c : Consts) (h : Heap) (hr : ReachableInContract c h) :
    ∀ (vfrag : Option Nat) (f : vfrag_t), load_vfrag h vfrag = .ok f →
      ∃ vb, load_vbuf h f.vbuf = .ok vb ∧
        f.start.blk = vb.start.blk ∧ f.end_.blk = vb.start.blk ∧
        vb.end_ = ptr_add c vb.start vb.length ∧
        vb.end_.off = vb.start.off + vb.length ∧
        vb.start.off ≤ f.start.off ∧ f.start.off ≤ f.end_.off ∧
        f.end_.off ≤ vb.end_.off ∧ f.length = f.end_.off - f.start.off := by
  intro vfrag f hf
  obtain ⟨hcnt, hinv⟩ := inv_reachable c h hr
  obtain ⟨i, rfl, hfi⟩ := (load_vfrag_ok_iff h vfrag f).1 hf
  obtain ⟨v, vb, hv, hvb⟩ := hcnt.owner_live i f hfi
  obtain ⟨⟨hb1, hb2, hb3, hb4, hb5, hb6⟩, hr1, hr2, _⟩ := hinv.view_ok i f v vb hfi hv hvb
  have hlv : load_vbuf h f.vbuf = .ok vb := by
    rw [hv]
    exact (load_vbuf_ok_iff h (some v) vb).2 ⟨v, rfl, hvb⟩
  have hendoff : vb.end_.off = vb.start.off + vb.length := by
    rw [hr1]; exact ptr_add_off_of_lt c _ _ hr2
  exact ⟨vb, hlv, hb1, hb2, hr1, hendoff, hb3, hb4, hb5, hb6⟩

theorem run_shift_backwards :
    Call.run ⟨64, 13, 4⟩ { heap_one_view with fail_at := none }
      (.shift_vfrag (some 0) (2 ^ 64 - 3) 2) = .ok heap_view_shifted_in_bounds := by
  simp only [Call.run, gse_shift_vfrag, modify_vfrag, heap_one_view,
    heap_view_shifted_in_bounds]
  simp
  decide

/-- C11 as amended, at a concrete input: a view created with `ABC`, whose start is then
moved 3 bytes backwards (by the shift `2 ^ 64 - 3`) and whose end is moved 2 bytes
forwards, inside its region. -/
theorem reachable_in_contract_bounds_witness :
    ReachableInContract ⟨64, 13, 4⟩ heap_view_shifted_in_bounds ∧
    ∀ (vfrag : Option Nat) (f : vfrag_t),
      load_vfrag heap_view_shifted_in_bounds vfrag = .ok f →
      ∃ vb, load_vbuf heap_view_shifted_in_bounds f.vbuf = .ok vb ∧
        f.start.blk = vb.start.blk ∧ f.end_.blk = vb.start.blk ∧
        vb.end_ = ptr_add ⟨64, 13, 4⟩ vb.start vb.length ∧
        vb.end_.off = vb.start.off + vb.length ∧
        vb.start.off ≤ f.start.off ∧ f.start.off ≤ f.end_.off ∧
        f.end_.off ≤ vb.end_.off ∧ f.length = f.end_.off - f.start.off :=
  have hr : ReachableInContract ⟨64, 13, 4⟩ heap_view_shifted_in_bounds :=
    .step heap_one_view heap_view_shifted_in_bounds (.shift_vfrag (some 0) (2 ^ 64 - 3) 2)
      none
      (.step Heap.empty heap_one_view (.create_vfrag_with_data 3 [65, 66, 67]) none .empty
        (by decide) rfl)
      (by decide) run_shift_backwards
  ⟨hr, reachable_in_contract_bounds ⟨64, 13, 4⟩ heap_view_shifted_in_bounds hr⟩

theorem run_create_wrapped :
    Call.run ⟨64, 13, 4⟩ Heap.empty (.create_vfrag (2 ^ 64 - 12)) = .ok heap_view_wrapped := by
  simp only [Call.run, gse_create_vfrag_eq ⟨64, 13, 4⟩ Heap.empty (2 ^ 64 - 12) rfl]
  congr 1

/-- C11 as stated fails: the public functions reach a heap in which a live view ends past
the end of its region (`gse_shift_vfrag` checks nothing), and a heap in which a live
view starts past the end of its region (`gse_create_vfrag` with a capacity whose sum with
the reserves wraps). -/
theorem reachable_out_of_bounds :
    (Reachable ⟨64, 13, 4⟩ heap_view_past_end ∧
      load_vfrag heap_view_past_end (some 0) = .ok ⟨some 0, ⟨0, 13⟩, ⟨0, 26⟩, 13⟩ ∧
      load_vbuf heap_view_past_end (some 0) = .ok ⟨⟨0, 0⟩, ⟨0, 20⟩, 20, 1⟩ ∧
      ¬ (26 ≤ 20)) ∧
    (Reachable ⟨64, 13, 4⟩ heap_view_wrapped ∧
      load_vfrag heap_view_wrapped (some 0) = .ok ⟨some 0, ⟨0, 13⟩, ⟨0, 13⟩, 0⟩ ∧
      load_vbuf heap_view_wrapped (some 0) = .ok ⟨⟨0, 0⟩, ⟨0, 5⟩, 5, 1⟩ ∧
      ¬ (13 ≤ 5)) :=
  ⟨⟨.step heap_one_view heap_view_past_end (.shift_vfrag (some 0) 0 10)
      (.step Heap.empty heap_one_view (.create_vfrag_with_data 3 [65, 66, 67]) .empty rfl) rfl,
    rfl, rfl, by decide⟩,
   ⟨.step Heap.empty heap_view_wrapped (.create_vfrag (2 ^ 64 - 12)) .empty
      run_create_wrapped,
    rfl, rfl, by decide⟩⟩

end Gse
